import Mathlib

/-!
# PintOS virtual memory: supplemental page table, frame table, fault resolver

A shallow embedding of `vm/vm.c` (with the parts of `vm/file.c` and
`userprog/process.c` it calls).  Kernel state is passed explicitly.  Pointers to
`struct page` and `struct frame` are indices into two object heaps; memory
addresses (`va`, `kva`, `rsp`) are 64-bit numbers with `0` for `NULL`.
A function that can stop the kernel (a failed `ASSERT`, a null dereference, a
call through a null function pointer) returns `none` there.
-/

namespace PintOS

/-! ## threads/vaddr.h, vm/vm.h: constants and address arithmetic -/

/-- Modelled from the spec: `PGSIZE` of threads/vaddr.h (not among the sources),
the size of "one fixed-size region of virtual memory"; the stock value `1 << 12`. -/
def PGSIZE : Nat := 4096

/-- Modelled from the spec: `KERN_BASE` of threads/vaddr.h (not among the sources),
where "kernel address space" starts; the stock value. -/
def KERN_BASE : Nat := 0x8004000000

/-- Modelled from the spec: `USER_STACK` of threads/vaddr.h (not among the sources),
"the top of the stack region"; the stock value. -/
def USER_STACK : Nat := 0x47480000

/-- Pointers are 64 bits wide. -/
def PTR_MOD : Nat := 2 ^ 64

/-- Modelled from the spec: `pg_round_down` of threads/vaddr.h (not among the
sources): "rounds `va` down to its containing page address". -/
def pg_round_down (va : Nat) : Nat := va - va % PGSIZE

/-- Modelled from the spec: `pg_ofs` of threads/vaddr.h, the offset of `va` inside its page. -/
def pg_ofs (va : Nat) : Nat := va % PGSIZE

/-- Modelled from the spec: `is_kernel_vaddr` of threads/vaddr.h: the address
"lies in kernel address space". -/
def is_kernel_vaddr (va : Nat) : Bool := decide (KERN_BASE ≤ va)

/-- Modelled from the spec: `is_user_vaddr` of threads/vaddr.h: the address is in
"the permitted user address range". -/
def is_user_vaddr (va : Nat) : Bool := !is_kernel_vaddr va

/-- Pointer subtraction `p - n` on a 64-bit machine (wraps below zero). -/
def ptr_sub (p n : Nat) : Nat := (p + PTR_MOD - n % PTR_MOD) % PTR_MOD

/-- Modelled from the spec: `enum vm_type` of vm/vm.h (not among the sources):
"the uninitialized marker itself". -/
def VM_UNINIT : Nat := 0
/-- Modelled from the spec: `enum vm_type` of vm/vm.h: the anonymous variant. -/
def VM_ANON : Nat := 1
/-- Modelled from the spec: `enum vm_type` of vm/vm.h: the file-backed variant. -/
def VM_FILE : Nat := 2
/-- Modelled from the spec: `enum vm_type` of vm/vm.h: first auxiliary marker bit, `1 << 3`. -/
def VM_MARKER_0 : Nat := 8

/-- Modelled from the spec: macro `VM_TYPE(type)` of vm/vm.h, `(type) & 7`: the base type. -/
def VM_TYPE (type : Nat) : Nat := type % 8

/-! ## Objects -/

/-- The three `struct page_operations` tables (`uninit_ops`, `anon_ops`, `file_ops`). -/
inductive page_operations where
  | uninit_ops
  | anon_ops
  | file_ops
  deriving DecidableEq, Repr

/-- The `type` member of an operations table. -/
def page_operations.type : page_operations → Nat
  | .uninit_ops => VM_UNINIT
  | .anon_ops => VM_ANON
  | .file_ops => VM_FILE

/-- Values of a `vm_initializer *`: the deferred loaders of the sources. -/
inductive vm_initializer where
  | lazy_load_segment
  deriving DecidableEq, Repr

/-- Values of the `page_initializer` function pointer chosen by
`vm_alloc_page_with_initializer`. -/
inductive page_initializer where
  | anon_initializer
  | file_backed_initializer
  deriving DecidableEq, Repr

/-- The `struct lazy_load_arg` filled in by `load_segment` and `do_mmap`.  `ofs` is an `off_t`,
kept as its 32-bit pattern (a pattern from `2 ^ 31` on stands for a negative offset). -/
structure lazy_load_arg where
  file : Nat
  ofs : Nat
  read_bytes : Nat
  zero_bytes : Nat
  deriving DecidableEq, Repr

/-- The `struct uninit_page` member of a page. -/
structure uninit_page where
  init : Option vm_initializer
  type : Nat
  aux : Option lazy_load_arg
  page_initializer : Option page_initializer
  deriving DecidableEq, Repr

/-- The `struct page`.  `frame` is a pointer into the frame heap. -/
structure page where
  operations : page_operations
  va : Nat
  frame : Option Nat
  writable : Bool
  uninit : uninit_page
  deriving DecidableEq, Repr

/-- The `struct frame`.  `page` is a pointer into the page heap. -/
structure frame where
  kva : Nat
  page : Option Nat
  deriving DecidableEq, Repr

/-- One present entry of the address translation table. -/
structure pte where
  kva : Nat
  writable : Bool
  accessed : Bool
  dirty : Bool
  deriving DecidableEq, Repr

/-- The `struct supplemental_page_table`: its hash table, as the chain of page pointers. -/
structure supplemental_page_table where
  hash_table : List Nat
  deriving DecidableEq, Repr

/-- The arguments of one call `file_write_at (file, buffer, size, file_ofs)`. -/
structure file_write_call where
  file : Nat
  buffer : Nat
  size : Nat
  file_ofs : Nat
  deriving DecidableEq, Repr

/-- Kernel state seen by the virtual-memory core, for the running thread.

* `page_heap`, `frame_heap`: the `malloc`ed pages and frames, by pointer;
  `freed_pages` lists the page pointers already passed to `free`
  (their cells keep the stale contents);
* `spt`, `pml4`, `stack_rsp`: members of `thread_current()`;
* `frame_table`, `clock_ref`: the globals of vm.c (`clock_ref = none` is `list_end`);
* `user_pool`: the free pages of the user pool, in the order `palloc_get_page` hands them out;
* `mem`, `files`, `swap`: contents of physical pages, of files, of swap slots;
* `file_writes`: the calls of `file_write_at` made so far, newest first;
* `malloc_plan`, `set_page_plan`, `indet`: outcomes the environment chooses for the next
  calls of `malloc` and `pml4_set_page` (`true` = success, and success once the list is used
  up) and the values returned by functions that end without a `return` statement. -/
structure VM where
  page_heap : List page
  freed_pages : List Nat
  frame_heap : List frame
  spt : supplemental_page_table
  pml4 : List (Nat × pte)
  stack_rsp : Nat
  frame_table : List Nat
  clock_ref : Option Nat
  user_pool : List Nat
  mem : List (Nat × List Nat)
  files : List (List Nat)
  swap : List (Nat × List Nat)
  file_writes : List file_write_call
  malloc_plan : List Bool
  set_page_plan : List Bool
  indet : List Bool
  deriving DecidableEq, Repr

/-! ## Collaborators that are not among the sources -/

/-- Modelled from the spec: `malloc` of threads/malloc.c (not among the sources); only whether
the request succeeds is taken from the environment ("OutOfMemory"). -/
def malloc (s : VM) : Bool × VM :=
  match s.malloc_plan with
  | [] => (true, s)
  | b :: rest => (b, { s with malloc_plan := rest })

/-- Modelled from the spec: `free` of threads/malloc.c, applied to a page pointer. -/
def free_page (s : VM) (p : Nat) : VM :=
  { s with freed_pages := p :: s.freed_pages }

/-- Modelled from the spec: `palloc_get_page (PAL_USER)` of threads/palloc.c:
"get_user_frame() -> handle | none". -/
def palloc_get_page (s : VM) : Nat × VM :=
  match s.user_pool with
  | [] => (0, s)
  | k :: rest => (k, { s with user_pool := rest })

/-- Modelled from the spec: `palloc_free_page` of threads/palloc.c: "free_frame(handle)". -/
def palloc_free_page (s : VM) (kva : Nat) : VM :=
  { s with user_pool := kva :: s.user_pool }

/-- Entry of the translation table for the page containing `va`. -/
def pml4_lookup (pml4 : List (Nat × pte)) (va : Nat) : Option pte :=
  match pml4 with
  | [] => none
  | (k, e) :: rest => if k = pg_round_down va then some e else pml4_lookup rest va

/-- Replace, or remove with `none`, the entry for the page containing `va`. -/
def pml4_update (pml4 : List (Nat × pte)) (va : Nat) (e : Option pte) : List (Nat × pte) :=
  match pml4 with
  | [] => []
  | (k, old) :: rest =>
    if k = pg_round_down va then
      (match e with
       | some new => (k, new) :: pml4_update rest va e
       | none => pml4_update rest va e)
    else (k, old) :: pml4_update rest va e

/-- Modelled from the spec: `pml4_get_page` of threads/mmu.c: "lookup(va) -> frame_handle|none". -/
def pml4_get_page (pml4 : List (Nat × pte)) (va : Nat) : Nat :=
  match pml4_lookup pml4 va with
  | some e => e.kva
  | none => 0

/-- Modelled from the spec: `pml4_set_page` of threads/mmu.c: "map(va, frame_handle, writable)
-> bool"; whether the table can take the entry is taken from the environment. -/
def pml4_set_page (s : VM) (upage kpage : Nat) (rw : Bool) : Bool × VM :=
  let ok := match s.set_page_plan with
    | [] => true
    | b :: _ => b
  let s1 := { s with set_page_plan := s.set_page_plan.tail }
  if ok then
    (true, { s1 with pml4 := (pg_round_down upage, ⟨kpage, rw, false, false⟩)
                              :: pml4_update s1.pml4 upage none })
  else (false, s1)

/-- Modelled from the spec: `pml4_is_accessed` of threads/mmu.c: "get_accessed(va) -> bool". -/
def pml4_is_accessed (pml4 : List (Nat × pte)) (va : Nat) : Bool :=
  match pml4_lookup pml4 va with
  | some e => e.accessed
  | none => false

/-- Modelled from the spec: `pml4_set_accessed` of threads/mmu.c: "set_accessed(va, bool)". -/
def pml4_set_accessed (pml4 : List (Nat × pte)) (va : Nat) (b : Bool) : List (Nat × pte) :=
  match pml4_lookup pml4 va with
  | some e => pml4_update pml4 va (some { e with accessed := b })
  | none => pml4

/-- Modelled from the spec: `pml4_is_dirty` of threads/mmu.c: "get_dirty(va) -> bool". -/
def pml4_is_dirty (pml4 : List (Nat × pte)) (va : Nat) : Bool :=
  match pml4_lookup pml4 va with
  | some e => e.dirty
  | none => false

/-- Modelled from the spec: `pml4_set_dirty` of threads/mmu.c: "set_dirty(va, bool)". -/
def pml4_set_dirty (pml4 : List (Nat × pte)) (va : Nat) (b : Bool) : List (Nat × pte) :=
  match pml4_lookup pml4 va with
  | some e => pml4_update pml4 va (some { e with dirty := b })
  | none => pml4

/-- Modelled from the spec: `pml4_clear_page` of threads/mmu.c: "unmap(va)". -/
def pml4_clear_page (pml4 : List (Nat × pte)) (va : Nat) : List (Nat × pte) :=
  pml4_update pml4 va none

/-- Modelled from the spec: `hash_find` of lib/kernel/hash.c with the `page_hash` / `page_less`
pair (neither among the sources): the table is "keyed by ... virtual address", so the element
found is one whose `va` equals the key. -/
def hash_find (heap : List page) (h : List Nat) (key : Nat) : Option Nat :=
  match h with
  | [] => none
  | p :: rest =>
    match heap[p]? with
    | some pg => if pg.va = key then some p else hash_find heap rest key
    | none => hash_find heap rest key

/-- Modelled from the spec: `hash_insert` of lib/kernel/hash.c (declared in hash.h): inserts the
element unless an equal one ("unique keys") is already in the table. -/
def hash_insert (heap : List page) (h : List Nat) (p : Nat) : List Nat :=
  match heap[p]? with
  | some pg =>
    (match hash_find heap h pg.va with
     | some _ => h
     | none => p :: h)
  | none => h

/-- Modelled from the spec: `hash_delete` of lib/kernel/hash.c (declared in hash.h): finds the
element of the table equal to the given one (same `va`) and removes it. -/
def hash_delete (heap : List page) (h : List Nat) (p : Nat) : List Nat :=
  match heap[p]? with
  | some pg =>
    (match hash_find heap h pg.va with
     | some q => h.erase q
     | none => h)
  | none => h

/-- Contents of the physical page at `kva` (zeroes when never written). -/
def mem_read (mem : List (Nat × List Nat)) (kva : Nat) : List Nat :=
  match mem with
  | [] => List.replicate PGSIZE 0
  | (k, c) :: rest => if k = kva then c else mem_read rest kva

/-- Overwrite `data.length` bytes at offset `off` of a page image. -/
def bytes_write (old : List Nat) (off : Nat) (data : List Nat) : List Nat :=
  old.take off ++ List.replicate (off - old.length) 0 ++ data ++ old.drop (off + data.length)

/-- Store bytes at `kva + off`. -/
def mem_write (s : VM) (kva off : Nat) (data : List Nat) : VM :=
  { s with mem := (kva, bytes_write (mem_read s.mem kva) off data)
                  :: s.mem.filter (fun e => decide (e.1 ≠ kva)) }

/-- Modelled from the spec: `file_seek` then `file_read` of filesys/file.c:
"read_at(file, buffer, length, offset) -> bytes_read": the bytes the file holds there. -/
def file_read_at (s : VM) (file ofs len : Nat) : List Nat :=
  match s.files[file]? with
  | some c => (c.drop ofs).take len
  | none => []

/-- Modelled from the spec: `file_reopen` of filesys/file.c: "reopen(file) -> new_handle": a
handle on the same file (a handle is the index of the file; seek positions are not kept, every
transfer here names its offset).  A null `file` is dereferenced. -/
def file_reopen (s : VM) (file : Nat) : Option Nat :=
  match s.files[file]? with
  | some _ => some file
  | none => none

/-- Modelled from the spec: `file_length` of filesys/file.c: the size of the file in bytes. -/
def file_length (s : VM) (file : Nat) : Nat :=
  match s.files[file]? with
  | some c => c.length
  | none => 0

/-- Bytes the kernel reads at the user address `va` through the current translation table,
up to the end of the page containing `va`. -/
def user_read (s : VM) (va len : Nat) : List Nat :=
  match pml4_lookup s.pml4 va with
  | some e => ((mem_read s.mem e.kva).drop (pg_ofs va)).take len
  | none => []

/-- Modelled from the spec: `file_write_at` of filesys/file.c: "write_at(...)": stores `size`
bytes from `buffer` in the file at `file_ofs`, stopping at end of file (files do not grow).
The call is recorded in `file_writes`. -/
def file_write_at (s : VM) (file buffer size file_ofs : Nat) : VM :=
  let data := user_read s buffer size
  { s with
    files := (match s.files[file]? with
      | some c => s.files.set file
          (c.take file_ofs ++ data.take (c.length - file_ofs) ++ c.drop (file_ofs + data.length))
      | none => s.files),
    file_writes := ⟨file, buffer, size, file_ofs⟩ :: s.file_writes }

/-- Next value returned by a function that ends without a `return` statement. -/
def indeterminate (s : VM) : Bool × VM :=
  match s.indet with
  | [] => (true, s)
  | b :: rest => (b, { s with indet := rest })

/-- Store a new value in the page object at pointer `p`. -/
def set_page (s : VM) (p : Nat) (pg : page) : VM :=
  { s with page_heap := s.page_heap.set p pg }

/-- Store a new value in the frame object at pointer `f`. -/
def set_frame (s : VM) (f : Nat) (fr : frame) : VM :=
  { s with frame_heap := s.frame_heap.set f fr }

/-! ## vm/uninit.c, vm/anon.c (not among the sources), vm/file.c, userprog/process.c -/

/-- Modelled from the spec: `uninit_new` of vm/uninit.c (not among the sources): "creates a Page
in `Uninitialized` state" carrying the "deferred-loader descriptor"; `frame` absent. -/
def uninit_new (va : Nat) (init : Option vm_initializer) (type : Nat)
    (aux : Option lazy_load_arg) (initializer : page_initializer) : page :=
  { operations := .uninit_ops, va := va, frame := none, writable := false,
    uninit := { init := init, type := type, aux := aux, page_initializer := some initializer } }

/-- Modelled from the spec: `anon_initializer` of vm/anon.c (not among the sources):
"Transitions to `Anonymous`". -/
def anon_initializer (s : VM) (p : Nat) (pg : page) : Bool × VM :=
  (true, set_page s p { pg with operations := .anon_ops })

/-- The `file_backed_initializer` of vm/file.c: installs `file_ops`; the function ends without
a `return` statement. -/
def file_backed_initializer (s : VM) (p : Nat) (pg : page) : Bool × VM :=
  indeterminate (set_page s p { pg with operations := .file_ops })

/-- The `lazy_load_segment` of userprog/process.c.  `file_read` stores the bytes it gets in the
frame and returns their number; for `read_bytes` within a page the cast `(int)` changes
nothing. -/
def lazy_load_segment (s : VM) (p : Nat) (aux : Option lazy_load_arg) : Option (Bool × VM) :=
  match aux with
  | none => none
  | some a =>
    match s.page_heap[p]? with
    | none => none
    | some pg =>
      match pg.frame with
      | none => none
      | some f =>
        match s.frame_heap[f]? with
        | none => none
        | some fr =>
          let data := file_read_at s a.file a.ofs a.read_bytes
          let s1 := mem_write s fr.kva 0 data
          if data.length ≠ a.read_bytes then
            some (false, palloc_free_page s1 fr.kva)
          else
            some (true, mem_write s1 fr.kva a.read_bytes (List.replicate a.zero_bytes 0))

/-- Modelled from the spec: `uninit_initialize` of vm/uninit.c (not among the sources), the
`swap_in` of `uninit_ops`: runs the variant's initializer, then "calls the stored loader with
the frame's physical handle and loader context". -/
def uninit_initialize (s : VM) (p : Nat) (pg : page) : Option (Bool × VM) :=
  let init := pg.uninit.init
  let aux := pg.uninit.aux
  match pg.uninit.page_initializer with
  | none => none
  | some pi =>
    let r := match pi with
      | .anon_initializer => anon_initializer s p pg
      | .file_backed_initializer => file_backed_initializer s p pg
    if r.1 then
      (match init with
       | some .lazy_load_segment => lazy_load_segment r.2 p aux
       | none => some (true, r.2))
    else some (false, r.2)

/-- Modelled from the spec: `anon_swap_in` of vm/anon.c (not among the sources): "reads the
page's content back from swap storage into the frame". -/
def anon_swap_in (s : VM) (p : Nat) (kva : Nat) : Bool × VM :=
  match s.swap.lookup p with
  | some c => (true, mem_write s kva 0 c)
  | none => (true, s)

/-- The `file_backed_swap_in` of vm/file.c: an empty body without a `return` statement. -/
def file_backed_swap_in (s : VM) (_p : Nat) (_kva : Nat) : Bool × VM :=
  indeterminate s

/-- Modelled from the spec: `anon_swap_out` of vm/anon.c (not among the sources): "anonymous
pages write to swap storage". -/
def anon_swap_out (s : VM) (p : Nat) (pg : page) : Option (Bool × VM) :=
  match pg.frame with
  | none => none
  | some f =>
    match s.frame_heap[f]? with
    | none => none
    | some fr => some (true, { s with swap := (p, mem_read s.mem fr.kva) :: s.swap })

/-- The `file_backed_swap_out` of vm/file.c: an empty body without a `return` statement. -/
def file_backed_swap_out (s : VM) (_p : Nat) : Bool × VM :=
  indeterminate s

/-- Macro `swap_in(page, v)` of vm/vm.h: `(page)->operations->swap_in ((page), v)`. -/
def swap_in (s : VM) (p : Nat) (kva : Nat) : Option (Bool × VM) :=
  match s.page_heap[p]? with
  | none => none
  | some pg =>
    match pg.operations with
    | .uninit_ops => uninit_initialize s p pg
    | .anon_ops => some (anon_swap_in s p kva)
    | .file_ops => some (file_backed_swap_in s p kva)

/-- Macro `swap_out(page)` of vm/vm.h: `(page)->operations->swap_out (page)`; `uninit_ops` has
no `swap_out`. -/
def swap_out (s : VM) (p : Nat) : Option (Bool × VM) :=
  match s.page_heap[p]? with
  | none => none
  | some pg =>
    match pg.operations with
    | .uninit_ops => none
    | .anon_ops => anon_swap_out s p pg
    | .file_ops => some (file_backed_swap_out s p)

/-- Macro `destroy(page)` of vm/vm.h; the `destroy` members of the three tables release
nothing the core tracks (`file_backed_destroy` of vm/file.c has an empty body). -/
def destroy (s : VM) (p : Nat) : Option VM :=
  match s.page_heap[p]? with
  | none => none
  | some _ => some s

/-! ## vm/vm.c -/

/-- The `page_get_type` of vm.c. -/
def page_get_type (pg : page) : Nat :=
  let ty := VM_TYPE pg.operations.type
  if ty = VM_UNINIT then VM_TYPE pg.uninit.type else ty

/-- The `spt_find_page` of vm.c.  The scratch page is `malloc`ed and `free`d inside the call,
so only the outcome of the `malloc` is visible. -/
def spt_find_page (s : VM) (spt : supplemental_page_table) (va : Nat) : Option Nat × VM :=
  match malloc s with
  | (false, s1) => (none, s1)
  | (true, s1) => (hash_find s1.page_heap spt.hash_table (pg_round_down va), s1)

/-- The `spt_insert_page` of vm.c; returns the result and the table after the call. -/
def spt_insert_page (s : VM) (spt : supplemental_page_table) (p : Nat) :
    Option (Bool × supplemental_page_table × VM) :=
  match s.page_heap[p]? with
  | none => none
  | some pg =>
    if is_user_vaddr pg.va then
      match spt_find_page s spt pg.va with
      | (none, s1) => some (true, ⟨hash_insert s1.page_heap spt.hash_table p⟩, s1)
      | (some _, s1) => some (false, spt, s1)
    else some (false, spt, s)

/-- The `vm_alloc_page_with_initializer` of vm.c, on `thread_current()->spt`.  The failed
`ASSERT` stops the kernel.  A page object that is `free`d again before the return (no
initializer for the type) leaves no cell in the heap; one that `spt_insert_page` refuses stays
allocated, as in the source. -/
def vm_alloc_page_with_initializer (s : VM) (type upage : Nat) (writable : Bool)
    (init : Option vm_initializer) (aux : Option lazy_load_arg) : Option (Bool × VM) :=
  if VM_TYPE type = VM_UNINIT then none
  else
    match spt_find_page s s.spt upage with
    | (some _, s1) => some (false, s1)
    | (none, s1) =>
      match malloc s1 with
      | (false, s2) => some (false, s2)
      | (true, s2) =>
        let new_initializer : Option page_initializer :=
          if VM_TYPE type = VM_ANON then some .anon_initializer
          else if VM_TYPE type = VM_FILE then some .file_backed_initializer
          else none
        match new_initializer with
        | none => some (false, s2)
        | some ni =>
          let p := s2.page_heap.length
          let pg := { uninit_new upage init type aux ni with writable := writable }
          let s3 := { s2 with page_heap := s2.page_heap ++ [pg] }
          match spt_insert_page s3 s3.spt p with
          | none => none
          | some (succ, spt1, s4) => some (succ, { s4 with spt := spt1 })

/-- Macro `vm_alloc_page(type, upage, writable)` of vm/vm.h. -/
def vm_alloc_page (s : VM) (type upage : Nat) (writable : Bool) : Option (Bool × VM) :=
  vm_alloc_page_with_initializer s type upage writable none none

/-- One `for` loop of `vm_get_victim` over the frames `l`, entered with `victim`.
Returns whether the loop returned a victim, the last frame visited, the frame the loop
variable rests on (`none` = `list_end`), and the state. -/
def clock_scan (s : VM) (l : List Nat) (victim : Option Nat) :
    Option (Bool × Option Nat × Option Nat × VM) :=
  match l with
  | [] => some (false, victim, none, s)
  | f :: rest =>
    match s.frame_heap[f]? with
    | none => none
    | some fr =>
      match fr.page with
      | none => none
      | some p =>
        match s.page_heap[p]? with
        | none => none
        | some pg =>
          if pml4_is_accessed s.pml4 pg.va then
            clock_scan { s with pml4 := pml4_set_accessed s.pml4 pg.va false } rest (some f)
          else some (true, some f, some f, s)

/-- Frames of the table from the one `clock_ref` rests on to the end. -/
def frames_from (l : List Nat) (c : Option Nat) : List Nat :=
  match c with
  | none => []
  | some f => l.dropWhile (fun x => decide (x ≠ f))

/-- The `vm_get_victim` of vm.c: the loop from `clock_ref`, then the loop from `list_begin`.
`ASSERT (clock_ref != NULL)` holds once `vm_init` has run (`list_end` is not `NULL`). -/
def vm_get_victim (s : VM) : Option (Option Nat × VM) :=
  match clock_scan s (frames_from s.frame_table s.clock_ref) none with
  | none => none
  | some (true, victim, c, s1) => some (victim, { s1 with clock_ref := c })
  | some (false, victim, c, s1) =>
    let s2 := { s1 with clock_ref := c }
    match clock_scan s2 s2.frame_table victim with
    | none => none
    | some (_, victim2, _, s3) => some (victim2, s3)

/-- The `vm_evict_frame` of vm.c. -/
def vm_evict_frame (s : VM) : Option (Option Nat × VM) :=
  match vm_get_victim s with
  | none => none
  | some (none, _) => none
  | some (some v, s1) =>
    match s1.frame_heap[v]? with
    | none => none
    | some fr =>
      match fr.page with
      | none => none
      | some p =>
        match swap_out s1 p with
        | none => none
        | some (_, s2) => some (some v, s2)

/-- The `vm_get_frame` of vm.c.  The result of `malloc` is used unchecked; on the eviction
path the frame object just allocated is left behind with a null `kva`. -/
def vm_get_frame (s : VM) : Option (Option Nat × VM) :=
  match malloc s with
  | (false, _) => none
  | (true, s1) =>
    let f := s1.frame_heap.length
    let (kva, s2) := palloc_get_page s1
    let s3 := { s2 with frame_heap := s2.frame_heap ++ [⟨kva, none⟩] }
    if kva = 0 then
      match vm_evict_frame s3 with
      | none => none
      | some (none, _) => none
      | some (some v, s4) =>
        match s4.frame_heap[v]? with
        | none => none
        | some fr => some (some v, set_frame s4 v { fr with page := none })
    else
      some (some f, { s3 with frame_table := s3.frame_table ++ [f] })

/-- The `vm_dealloc_page` of vm.c. -/
def vm_dealloc_page (s : VM) (p : Nat) : Option VM :=
  match destroy s p with
  | none => none
  | some s1 => some (free_page s1 p)

/-- The `vm_do_claim_page` of vm.c. -/
def vm_do_claim_page (s : VM) (p : Nat) : Option (Bool × VM) :=
  match vm_get_frame s with
  | none => none
  | some (none, s1) => some (false, s1)
  | some (some f, s1) =>
    match s1.frame_heap[f]?, s1.page_heap[p]? with
    | some fr, some pg =>
      let s2 := set_page (set_frame s1 f { fr with page := some p }) p { pg with frame := some f }
      if pml4_get_page s2.pml4 pg.va = 0 then
        match pml4_set_page s2 pg.va fr.kva pg.writable with
        | (false, s3) =>
          (match vm_dealloc_page s3 p with
           | none => none
           | some s4 => some (false, s4))
        | (true, s3) => swap_in s3 p fr.kva
      else swap_in s2 p fr.kva
    | _, _ => none

/-- The `vm_claim_page` of vm.c. -/
def vm_claim_page (s : VM) (va : Nat) : Option (Bool × VM) :=
  match spt_find_page s s.spt va with
  | (none, s1) => some (false, s1)
  | (some p, s1) => vm_do_claim_page s1 p

/-- The `spt_remove_page` of vm.c; returns the table after the call.  (The function is declared
`void`; its `return true` yields no value.) -/
def spt_remove_page (s : VM) (spt : supplemental_page_table) (p : Nat) :
    Option (supplemental_page_table × VM) :=
  let spt1 : supplemental_page_table := ⟨hash_delete s.page_heap spt.hash_table p⟩
  match vm_dealloc_page s p with
  | none => none
  | some s1 => some (spt1, s1)

/-- The `vm_stack_growth` of vm.c. -/
def vm_stack_growth (s : VM) (addr : Nat) : Option VM :=
  match vm_alloc_page s (VM_ANON ||| VM_MARKER_0) (pg_round_down addr) true with
  | none => none
  | some (_, s1) => some s1

/-- The test of `vm_try_handle_fault` that sends a fault to `vm_stack_growth`. -/
def stack_growth_cond (rsp addr : Nat) : Bool :=
  decide (USER_STACK - (1 <<< 20) ≤ ptr_sub rsp 8) && decide (ptr_sub rsp 8 ≤ addr)
    && decide (addr ≤ USER_STACK)

/-- The `vm_try_handle_fault` of vm.c; `f_rsp` is `f->rsp`. -/
def vm_try_handle_fault (s : VM) (f_rsp addr : Nat) (user write not_present : Bool) :
    Option (Bool × VM) :=
  if addr = 0 then some (false, s)
  else if is_kernel_vaddr addr then some (false, s)
  else if not_present then
    let rsp := if !user then s.stack_rsp else f_rsp
    let grown : Option VM := if stack_growth_cond rsp addr then vm_stack_growth s addr else some s
    match grown with
    | none => none
    | some s1 =>
      match spt_find_page s1 s1.spt addr with
      | (none, s2) => some (false, s2)
      | (some p, s2) =>
        match s2.page_heap[p]? with
        | none => none
        | some pg =>
          if write = true ∧ pg.writable = false then some (false, s2)
          else vm_do_claim_page s2 p
  else some (false, s)

/-- A `struct supplemental_page_table *` argument: `&thread_current ()->spt`, or the table of
another thread (given by its contents; nothing in vm.c writes through such a pointer). -/
inductive spt_ref where
  | current
  | other (t : supplemental_page_table)
  deriving DecidableEq, Repr

/-- The table a `struct supplemental_page_table *` points to. -/
def spt_ref.get (s : VM) : spt_ref → supplemental_page_table
  | .current => s.spt
  | .other t => t

/-- The call `memcpy (dst, src, PGSIZE)` between two physical pages. -/
def memcpy_page (s : VM) (dst src : Nat) : VM :=
  mem_write s dst 0 ((mem_read s.mem src).take PGSIZE)

/-- The `while (hash_next (&i))` loop of `supplemental_page_table_copy` over the elements of
`src` not yet visited (the iteration order of the hash table is the order of the chain). -/
def copy_loop (s : VM) (dst : spt_ref) : List Nat → Option (Bool × VM)
  | [] => some (true, s)
  | q :: rest =>
    match s.page_heap[q]? with
    | none => none
    | some src_page =>
      let vm_type := src_page.operations.type
      let va := src_page.va
      let writable := src_page.writable
      if vm_type = VM_UNINIT then
        match vm_alloc_page_with_initializer s VM_ANON va writable
            src_page.uninit.init src_page.uninit.aux with
        | none => none
        | some (_, s1) => copy_loop s1 dst rest
      else
        match vm_alloc_page s vm_type va writable with
        | none => none
        | some (false, s1) => some (false, s1)
        | some (true, s1) =>
          match vm_claim_page s1 va with
          | none => none
          | some (false, s2) => some (false, s2)
          | some (true, s2) =>
            match spt_find_page s2 (dst.get s2) va with
            | (none, _) => none
            | (some dp, s3) =>
              match s3.page_heap[dp]? with
              | none => none
              | some dst_page =>
                match dst_page.frame with
                | none => none
                | some df =>
                  match s3.frame_heap[df]? with
                  | none => none
                  | some dfr =>
                    match s3.page_heap[q]? with
                    | none => none
                    | some sp =>
                      match sp.frame with
                      | none => none
                      | some sf =>
                        match s3.frame_heap[sf]? with
                        | none => none
                        | some sfr => copy_loop (memcpy_page s3 dfr.kva sfr.kva) dst rest

/-- The `supplemental_page_table_copy` of vm.c; `src` is the table of another thread (the
parent), its page objects live in the same kernel heap. -/
def supplemental_page_table_copy (s : VM) (dst : spt_ref) (src : supplemental_page_table) :
    Option (Bool × VM) :=
  copy_loop s dst src.hash_table

/-! ## vm/file.c: memory-mapped files -/

/-- Outcome of a loop that is run for at most a given number of passes: the function returned,
the kernel stopped, or the passes were used up before the loop ended. -/
inductive loop_result (α : Type) where
  | returned (a : α)
  | stopped
  | unfinished
  deriving DecidableEq, Repr

/-- Subtraction `a - b` of two `size_t` (64 bits, wraps below zero). -/
def size_sub (a b : Nat) : Nat := (a + PTR_MOD - b % PTR_MOD) % PTR_MOD

/-- Modelled from the spec: `off_t` of filesys/off_t.h (not among the sources) is the stock
`int32_t`.  An `off_t` is kept as its 32-bit pattern: a pattern below `2 ^ 31` is the offset
itself, a pattern `n` from `2 ^ 31` on is the negative offset `n - 2 ^ 32`. -/
def OFF_MOD : Nat := 2 ^ 32

/-- The signed value of the `off_t` with the 32-bit pattern `n`. -/
def off_t_value (n : Nat) : Int :=
  if n % OFF_MOD < 2 ^ 31 then ((n % OFF_MOD : Nat) : Int)
  else ((n % OFF_MOD : Nat) : Int) - (OFF_MOD : Int)

/-- The variables of the `while` loop of `do_mmap`. -/
structure mmap_vars where
  addr : Nat
  offset : Nat
  read_bytes : Nat
  zero_bytes : Nat
  deriving DecidableEq, Repr

/-- The `while (read_bytes > 0 || zero_bytes > 0)` loop of `do_mmap`, for at most the given
number of passes; returns whether the loop ran to its end (`false`: `return false` inside).
The result of the `malloc` of the `lazy_load_arg` is used unchecked.  `offset` is an `off_t`,
kept as its 32-bit pattern: `offset += page_read_bytes` adds in `size_t` and narrows the sum to
32 bits. -/
def mmap_loop (_file : Nat) (writable : Bool) : Nat → VM → mmap_vars → loop_result (Bool × VM)
  | 0, s, v =>
    if 0 < v.read_bytes ∨ 0 < v.zero_bytes then .unfinished else .returned (true, s)
  | n + 1, s, v =>
    if 0 < v.read_bytes ∨ 0 < v.zero_bytes then
      let page_read_bytes := if v.read_bytes < PGSIZE then v.read_bytes else PGSIZE
      let page_zero_bytes := PGSIZE - page_read_bytes
      match malloc s with
      | (false, _) => .stopped
      | (true, s1) =>
        let lazy_load_arg : lazy_load_arg :=
          { file := _file, ofs := v.offset, read_bytes := page_read_bytes,
            zero_bytes := page_zero_bytes }
        match vm_alloc_page_with_initializer s1 VM_FILE v.addr writable
            (some .lazy_load_segment) (some lazy_load_arg) with
        | none => .stopped
        | some (false, s2) => .returned (false, s2)
        | some (true, s2) =>
          mmap_loop _file writable n s2
            { addr := (v.addr + PGSIZE) % PTR_MOD,
              offset := (v.offset + page_read_bytes) % OFF_MOD,
              read_bytes := size_sub v.read_bytes page_read_bytes,
              zero_bytes := size_sub v.zero_bytes page_zero_bytes }
    else .returned (true, s)

/-- The `do_mmap` of vm/file.c, its loop run for at most `fuel` passes.  Returns the pointer
(`0` for `return false`).  `writable` is the `int` argument as the `bool` it is converted to;
`offset` is the 32-bit pattern of the `off_t` argument (`offset % PGSIZE == 0` holds of the
pattern exactly when it holds of the value). -/
def do_mmap (fuel : Nat) (s : VM) (addr length : Nat) (writable : Bool) (file offset : Nat) :
    loop_result (Nat × VM) :=
  match file_reopen s file with
  | none => .stopped
  | some _file =>
    let start_addr := addr
    let read_bytes := if file_length s _file < length then file_length s _file else length
    let zero_bytes := PGSIZE - read_bytes % PGSIZE
    if (read_bytes + zero_bytes) % PTR_MOD % PGSIZE ≠ 0 then .stopped
    else if pg_ofs addr ≠ 0 then .stopped
    else if offset % PGSIZE ≠ 0 then .stopped
    else
      match mmap_loop _file writable fuel s
          { addr := addr, offset := offset, read_bytes := read_bytes,
            zero_bytes := zero_bytes } with
      | .returned (true, s1) => .returned (start_addr, s1)
      | .returned (false, s1) => .returned (0, s1)
      | .stopped => .stopped
      | .unfinished => .unfinished

/-- The `do_munmap` of vm/file.c, its `while (true)` loop run for at most the given number of
passes, on `thread_current ()`. -/
def do_munmap : Nat → VM → Nat → loop_result VM
  | 0, _, _ => .unfinished
  | n + 1, s, addr =>
    match spt_find_page s s.spt addr with
    | (none, s1) => .returned s1
    | (some p, s1) =>
      match s1.page_heap[p]? with
      | none => .stopped
      | some find_page =>
        let page_aux := find_page.uninit.aux
        if pml4_is_dirty s1.pml4 find_page.va then
          match page_aux with
          | none => .stopped
          | some a =>
            let s2 := file_write_at s1 a.file addr a.read_bytes a.ofs
            do_munmap n { s2 with pml4 := pml4_set_dirty s2.pml4 find_page.va false } addr
        else
          do_munmap n { s1 with pml4 := pml4_clear_page s1.pml4 find_page.va }
            ((addr + PGSIZE) % PTR_MOD)

/-! ## lib/kernel/bitmap.c -/

/-- `ELEM_BITS`: the number of bits of an `elem_type` (`unsigned long`). -/
def ELEM_BITS : Nat := 64

/-- One more than the largest `size_t` and `elem_type`. -/
def SIZE_MOD : Nat := 2 ^ 64

/-- Modelled from the spec: `BITMAP_ERROR` of lib/kernel/bitmap.h (not among the sources), the
value the scans return when they find nothing; the stock `SIZE_MAX`. -/
def BITMAP_ERROR : Nat := 2 ^ 64 - 1

/-- The `struct bitmap`; `bits` is the array of elements. -/
structure bitmap where
  bit_cnt : Nat
  bits : List Nat
  deriving DecidableEq, Repr

/-- The `elem_idx` of bitmap.c. -/
def elem_idx (bit_idx : Nat) : Nat := bit_idx / ELEM_BITS

/-- The `bit_mask` of bitmap.c: `(elem_type) 1 << (bit_idx % ELEM_BITS)`. -/
def bit_mask (bit_idx : Nat) : Nat := 1 <<< (bit_idx % ELEM_BITS)

/-- The `bitmap_mark` of bitmap.c: `b->bits[idx] |= mask` (an element outside the array is
a wild store). -/
def bitmap_mark (b : bitmap) (bit_idx : Nat) : Option bitmap :=
  let idx := elem_idx bit_idx
  let mask := bit_mask bit_idx
  match b.bits[idx]? with
  | none => none
  | some w => some { b with bits := b.bits.set idx (w ||| mask) }

/-- The `bitmap_reset` of bitmap.c: `b->bits[idx] &= ~mask`, the complement taken on 64 bits. -/
def bitmap_reset (b : bitmap) (bit_idx : Nat) : Option bitmap :=
  let idx := elem_idx bit_idx
  let mask := bit_mask bit_idx
  match b.bits[idx]? with
  | none => none
  | some w => some { b with bits := b.bits.set idx (w &&& (mask ^^^ (SIZE_MOD - 1))) }

/-- The `bitmap_set` of bitmap.c. -/
def bitmap_set (b : bitmap) (idx : Nat) (value : Bool) : Option bitmap :=
  if idx < b.bit_cnt then
    if value then bitmap_mark b idx else bitmap_reset b idx
  else none

/-- The `bitmap_test` of bitmap.c. -/
def bitmap_test (b : bitmap) (idx : Nat) : Option Bool :=
  if idx < b.bit_cnt then
    match b.bits[elem_idx idx]? with
    | none => none
    | some w => some (decide (w &&& bit_mask idx ≠ 0))
  else none

/-- The loop `for (i = 0; i < cnt; i++) bitmap_set (b, start + i, value)` of
`bitmap_set_multiple`, with `i` its variable and the first argument the passes still to make
(`cnt - i`). -/
def set_multiple_loop (start : Nat) (value : Bool) : Nat → Nat → bitmap → Option bitmap
  | 0, _, b => some b
  | n + 1, i, b =>
    match bitmap_set b ((start + i) % SIZE_MOD) value with
    | none => none
    | some b1 => set_multiple_loop start value n (i + 1) b1

/-- The `bitmap_set_multiple` of bitmap.c. -/
def bitmap_set_multiple (b : bitmap) (start cnt : Nat) (value : Bool) : Option bitmap :=
  if start ≤ b.bit_cnt then
    if (start + cnt) % SIZE_MOD ≤ b.bit_cnt then set_multiple_loop start value cnt 0 b
    else none
  else none

/-- The loop of `bitmap_contains`, with `i` its variable and the first argument the passes
still to make (`cnt - i`). -/
def contains_loop (b : bitmap) (start : Nat) (value : Bool) : Nat → Nat → Option Bool
  | 0, _ => some false
  | n + 1, i =>
    match bitmap_test b ((start + i) % SIZE_MOD) with
    | none => none
    | some t => if t = value then some true else contains_loop b start value n (i + 1)

/-- The `bitmap_contains` of bitmap.c. -/
def bitmap_contains (b : bitmap) (start cnt : Nat) (value : Bool) : Option Bool :=
  if start ≤ b.bit_cnt then
    if (start + cnt) % SIZE_MOD ≤ b.bit_cnt then contains_loop b start value cnt 0
    else none
  else none

/-- The loop `for (i = start; i <= last; i++)` of `bitmap_scan`, with `i` its variable and the
first argument the passes still to make (`last + 1 - i`). -/
def scan_loop (b : bitmap) (cnt : Nat) (value : Bool) : Nat → Nat → Option Nat
  | 0, _ => some BITMAP_ERROR
  | n + 1, i =>
    match bitmap_contains b i cnt (!value) with
    | none => none
    | some false => some i
    | some true => scan_loop b cnt value n (i + 1)

/-- The `bitmap_scan` of bitmap.c. -/
def bitmap_scan (b : bitmap) (start cnt : Nat) (value : Bool) : Option Nat :=
  if start ≤ b.bit_cnt then
    if cnt ≤ b.bit_cnt then
      let last := b.bit_cnt - cnt
      scan_loop b cnt value (last + 1 - start) start
    else some BITMAP_ERROR
  else none

/-- The `bitmap_scan_and_flip` of bitmap.c; returns the index and the bitmap after the call. -/
def bitmap_scan_and_flip (b : bitmap) (start cnt : Nat) (value : Bool) :
    Option (Nat × bitmap) :=
  match bitmap_scan b start cnt value with
  | none => none
  | some idx =>
    if idx ≠ BITMAP_ERROR then
      match bitmap_set_multiple b idx cnt (!value) with
      | none => none
      | some b1 => some (idx, b1)
    else some (idx, b)

/-! ## userprog/process.c: `validate_segment` -/

/-- Modelled from the spec: `PGMASK` of threads/vaddr.h (not among the sources): the bits of the
offset inside a page; the stock `BITMASK (0, 12)`. -/
def PGMASK : Nat := 0xFFF

/-- The `struct ELF64_PHDR` (`Phdr`) of process.c; the last six members are `uint64_t`. -/
structure Phdr where
  p_type : Nat
  p_flags : Nat
  p_offset : Nat
  p_vaddr : Nat
  p_paddr : Nat
  p_filesz : Nat
  p_memsz : Nat
  p_align : Nat
  deriving DecidableEq, Repr

/-- The `validate_segment` of process.c.  The sum `p_vaddr + p_memsz` is a `uint64_t` and wraps
at 64 bits; `file_length` is not negative, so the cast `(uint64_t)` leaves it as it is. -/
def validate_segment (s : VM) (phdr : Phdr) (file : Nat) : Bool :=
  if phdr.p_offset &&& PGMASK ≠ phdr.p_vaddr &&& PGMASK then false
  else if phdr.p_offset > file_length s file then false
  else if phdr.p_memsz < phdr.p_filesz then false
  else if phdr.p_memsz = 0 then false
  else if !is_user_vaddr phdr.p_vaddr then false
  else if !is_user_vaddr ((phdr.p_vaddr + phdr.p_memsz) % PTR_MOD) then false
  else if (phdr.p_vaddr + phdr.p_memsz) % PTR_MOD < phdr.p_vaddr then false
  else if phdr.p_vaddr < PGSIZE then false
  else true

/-! ## Vocabulary of the statements -/

/-- The table `h` stores page `p` under the key `key`: `p` is chained in the table and the
page object it points to has `va = key`. -/
def holds_at (heap : List page) (h : List Nat) (key : Nat) (p : Nat) : Prop :=
  p ∈ h ∧ ∃ pg, heap[p]? = some pg ∧ pg.va = key

/-- No two entries of the table have the same key. -/
def unique_keys (heap : List page) (h : List Nat) : Prop :=
  ∀ p q key, holds_at heap h key p → holds_at heap h key q → p = q

/-- Every pointer chained in the current table points to an allocated page object. -/
def spt_pointers_valid (s : VM) : Prop := ∀ q ∈ s.spt.hash_table, q < s.page_heap.length

/-- The page object `vm_alloc_page_with_initializer` builds. -/
def pending_page (type upage : Nat) (writable : Bool) (init : Option vm_initializer)
    (aux : Option lazy_load_arg) (ni : page_initializer) : page :=
  { uninit_new upage init type aux ni with writable := writable }

/-- The initializer `vm_alloc_page_with_initializer` selects for a type. -/
def initializer_of (type : Nat) : page_initializer :=
  if VM_TYPE type = VM_ANON then .anon_initializer else .file_backed_initializer

/-- The state after a successful `vm_alloc_page_with_initializer`: three `malloc` outcomes are
consumed, the new page object is the last cell of the heap and heads the table. -/
def with_new_page (s : VM) (pg : page) : VM :=
  { s with malloc_plan := s.malloc_plan.tail.tail.tail,
           page_heap := s.page_heap ++ [pg],
           spt := ⟨s.page_heap.length :: s.spt.hash_table⟩ }

/-- Two translation tables map the same addresses to the same physical pages with the same
write permission (accessed and dirty bits may differ). -/
def pml4_same_mappings (a b : List (Nat × pte)) : Prop :=
  ∀ va, (pml4_lookup a va).map (fun e => (e.kva, e.writable))
      = (pml4_lookup b va).map (fun e => (e.kva, e.writable))

/-- From `s` to `s1` no page object, no table entry and no mapping changed. -/
def pages_untouched (s s1 : VM) : Prop :=
  s1.page_heap = s.page_heap ∧ s1.freed_pages = s.freed_pages ∧ s1.spt = s.spt ∧
  s1.set_page_plan = s.set_page_plan ∧ pml4_same_mappings s1.pml4 s.pml4

/-- The state after frame `f` (object `fr`) has been bound to the pending anonymous page `p`
(object `pg`), the mapping installed and the page turned anonymous. -/
def bound_state (s1 : VM) (p f : Nat) (pg : page) (fr : frame) : VM :=
  { s1 with page_heap := s1.page_heap.set p { pg with frame := some f, operations := .anon_ops },
            frame_heap := s1.frame_heap.set f { fr with page := some p },
            set_page_plan := s1.set_page_plan.tail,
            pml4 := (pg_round_down pg.va, ⟨fr.kva, pg.writable, false, false⟩)
                    :: pml4_update s1.pml4 pg.va none }

/-- Every outcome still planned for `malloc` is a success. -/
def malloc_never_fails (s : VM) : Prop := ∀ b ∈ s.malloc_plan, b = true

/-- From `s` to `s1` the current table and the number of page objects are the same, no page
object but `p` changed, `p` kept its address and writable flag, and no new `malloc` outcome
appeared. -/
def claim_keeps (p : Nat) (s s1 : VM) : Prop :=
  s1.spt = s.spt ∧ s1.page_heap.length = s.page_heap.length ∧
  (∀ i : Nat, i ≠ p → s1.page_heap[i]? = s.page_heap[i]?) ∧
  (∀ pg : page, s.page_heap[p]? = some pg →
    ∃ pg1, s1.page_heap[p]? = some pg1 ∧ pg1.va = pg.va ∧ pg1.writable = pg.writable) ∧
  (∀ b ∈ s1.malloc_plan, b ∈ s.malloc_plan)

/-- Page `p` of the heap `heap1` is at the address of page `q` of the heap `heap0` and has the
same writable flag. -/
def copy_rel (heap0 heap1 : List page) (p q : Nat) : Prop :=
  ∃ pg1 pg0, heap1[p]? = some pg1 ∧ heap0[q]? = some pg0 ∧
    pg1.va = pg0.va ∧ pg1.writable = pg0.writable

/-- The source table is well formed: its entries point to page objects with page-aligned user
addresses, and no two entries have the same address. -/
def src_ok (heap0 : List page) (l : List Nat) : Prop :=
  (∀ q ∈ l, ∃ pg, heap0[q]? = some pg ∧ pg_ofs pg.va = 0 ∧ is_user_vaddr pg.va = true) ∧
  (l.map (fun q => (heap0[q]?).map (fun pg => pg.va))).Nodup

/-- Invariant of the copy loop, with the page heap `heap0` at entry and the source entries
`done` already visited: the current table lists, newest first, one page per visited entry, at
the same address and with the same writable flag; the page objects of `heap0` are unchanged;
the pages of the current table were allocated after entry; no `malloc` is going to fail. -/
def copy_inv (heap0 : List page) (done : List Nat) (s : VM) : Prop :=
  List.Forall₂ (copy_rel heap0 s.page_heap) s.spt.hash_table done.reverse ∧
  (∀ i : Nat, i < heap0.length → s.page_heap[i]? = heap0[i]?) ∧
  heap0.length ≤ s.page_heap.length ∧
  (∀ p ∈ s.spt.hash_table, heap0.length ≤ p ∧ p < s.page_heap.length) ∧
  malloc_never_fails s

/-- An empty machine: no pages, no frames, empty tables, two free user pages, one 3-byte file. -/
def boot : VM :=
  { page_heap := [], freed_pages := [], frame_heap := [], spt := ⟨[]⟩, pml4 := [],
    stack_rsp := 0, frame_table := [], clock_ref := none,
    user_pool := [0x8004100000, 0x8004101000], mem := [], files := [[1, 2, 3]], swap := [],
    file_writes := [], malloc_plan := [], set_page_plan := [], indet := [] }

/-- A pending page object at `va`, as `vm_alloc_page (VM_ANON, va, writable)` builds it. -/
def anon_page_at (va : Nat) (writable : Bool) : page :=
  { uninit_new va none VM_ANON none .anon_initializer with writable := writable }

/-- A resident anonymous page object at `va`, bound to frame `f`. -/
def resident_anon_page (va f : Nat) : page :=
  { operations := .anon_ops, va := va, frame := some f, writable := true,
    uninit := { init := none, type := VM_ANON, aux := none,
                page_initializer := some .anon_initializer } }

/-- A page image: first byte `b`, the other `PGSIZE - 1` bytes zero. -/
def page_image (b : Nat) : List Nat := b :: List.replicate (PGSIZE - 1) 0

/-- The page image with first byte `0xAA`. -/
@[irreducible] def image_A : List Nat := page_image 0xAA

/-- The page image with first byte `0xBB`. -/
@[irreducible] def image_B : List Nat := page_image 0xBB

/-- A parent with two resident anonymous pages (`0x1000` in frame 0 with contents `imgA`,
`0x2000` in frame 1 with contents `imgB`), no free user page, and a child whose SPT and
translation table are empty. -/
def fork_full (imgA imgB : List Nat) : VM :=
  { boot with
    page_heap := [resident_anon_page 0x1000 0, resident_anon_page 0x2000 1],
    frame_heap := [⟨0x8004100000, some 0⟩, ⟨0x8004101000, some 1⟩],
    frame_table := [0, 1], user_pool := [],
    mem := [(0x8004100000, imgA), (0x8004101000, imgB)] }

/-- The value returned by a run that finished. -/
def loop_result.value {α : Type} : loop_result α → Option α
  | .returned a => some a
  | .stopped => none
  | .unfinished => none

/-- A resident file-backed page object at `va`, bound to frame `f`: what a claim makes of the
page `do_mmap` created with the descriptor `aux`. -/
def resident_file_page (va f : Nat) (aux : lazy_load_arg) : page :=
  { operations := .file_ops, va := va, frame := some f, writable := true,
    uninit := { init := some .lazy_load_segment, type := VM_FILE, aux := some aux,
                page_initializer := some .file_backed_initializer } }

/-- The machine `s` after `do_mmap (addr, length, true, file, 0)` and `vm_claim_page (addr)`,
both successful. -/
def mapped_and_claimed (s : VM) (addr length file : Nat) : Option VM :=
  match do_mmap 2 s addr length true file 0 with
  | .returned (_, s1) =>
    (match vm_claim_page s1 addr with
     | some (true, s2) => some s2
     | _ => none)
  | _ => none

/-- The machine `boot` after file 0 was mapped at `0x1000` and an anonymous page was made right
behind it by `vm_alloc_page (VM_ANON, 0x2000, true)`, both pages claimed. -/
def mapping_then_anon : Option VM :=
  (mapped_and_claimed boot 0x1000 3 0).bind (fun s =>
    match vm_alloc_page s VM_ANON 0x2000 true with
    | some (true, s1) =>
      (match vm_claim_page s1 0x2000 with
       | some (true, s2) => some s2
       | _ => none)
    | _ => none)

/-- Two mappings side by side, made by two `do_mmap` calls: file 0 (`[1, 2, 3]`) at `0x1000`,
file 1 (`[4, 5, 6]`) at `0x2000`; both pages are resident, and the user has stored the byte 9
at `0x2000`, which set the dirty bit of that page.  (Of each page image the first four bytes
are kept.) -/
def two_mappings : VM :=
  { boot with
    page_heap := [resident_file_page 0x1000 0 ⟨0, 0, 3, 4093⟩,
                  resident_file_page 0x2000 1 ⟨1, 0, 3, 4093⟩],
    frame_heap := [⟨0x8004100000, some 0⟩, ⟨0x8004101000, some 1⟩],
    frame_table := [0, 1], user_pool := [], spt := ⟨[1, 0]⟩,
    pml4 := [(0x2000, ⟨0x8004101000, true, false, true⟩),
             (0x1000, ⟨0x8004100000, true, false, false⟩)],
    files := [[1, 2, 3], [4, 5, 6]],
    mem := [(0x8004100000, [1, 2, 3, 0]), (0x8004101000, [9, 5, 6, 0])] }

/-- The pages of one mapping, in address order, starting at `addr` and at the file offset
`offset` (a signed value): each is an Uninitialized page with no frame, target type
file-backed, the flag `writable` and the loader `lazy_load_segment`, at the address `PGSIZE`
after the page before it; its descriptor names `file`, has `read_bytes + zero_bytes = PGSIZE`,
and its file offset, as the signed value of the `off_t`, is the offset of the page before it
plus that page's `read_bytes`. -/
def mmap_layout (file : Nat) (writable : Bool) : Nat → Int → List page → Prop
  | _, _, [] => True
  | addr, offset, pg :: rest =>
    pg.va = addr ∧ pg.operations = .uninit_ops ∧ pg.frame = none ∧
    page_get_type pg = VM_FILE ∧ pg.writable = writable ∧
    pg.uninit.init = some .lazy_load_segment ∧
    ∃ a, pg.uninit.aux = some a ∧ a.file = file ∧ off_t_value a.ofs = offset ∧
      a.read_bytes + a.zero_bytes = PGSIZE ∧
      mmap_layout file writable (addr + PGSIZE) (offset + (a.read_bytes : Int)) rest

/-- Sum of the `read_bytes` of the descriptors of the pages `l`. -/
def mapped_bytes (l : List page) : Nat :=
  (l.map (fun pg => match pg.uninit.aux with
    | some a => a.read_bytes
    | none => 0)).sum

/-- Every page of the current table is at a user address (`spt_insert_page` admits no
other). -/
def spt_user_pages (s : VM) : Prop :=
  ∀ p ∈ s.spt.hash_table, ∀ pg, s.page_heap[p]? = some pg → is_user_vaddr pg.va = true

/-- The write-back `do_munmap` owes the page found at `addr` in the state `s`: nothing when the
page's dirty bit is clear, and when it is set one call of `file_write_at` that takes
`read_bytes` bytes from the page's address to the page's offset in the page's file. -/
def page_writeback (s : VM) (addr : Nat) : List file_write_call :=
  match hash_find s.page_heap s.spt.hash_table addr with
  | none => []
  | some p =>
    match s.page_heap[p]? with
    | none => []
    | some pg =>
      if pml4_is_dirty s.pml4 pg.va then
        (match pg.uninit.aux with
         | some a => [⟨a.file, pg.va, a.read_bytes, a.ofs⟩]
         | none => [])
      else []

/-- The write-backs owed to the `n` pages at `addr`, `addr + PGSIZE`, ..., in address order. -/
def expected_writes (s : VM) : Nat → Nat → List file_write_call
  | _, 0 => []
  | addr, n + 1 => page_writeback s addr ++ expected_writes s (addr + PGSIZE) n

/-- Each of the `n` addresses `addr`, `addr + PGSIZE`, ... has a page in the current table, and
such a page has a loader context when its dirty bit is set. -/
def pages_at (s : VM) (addr n : Nat) : Prop :=
  ∀ k, k < n → ∃ p pg, hash_find s.page_heap s.spt.hash_table (addr + k * PGSIZE) = some p ∧
    s.page_heap[p]? = some pg ∧
    (pml4_is_dirty s.pml4 pg.va = true → ∃ a, pg.uninit.aux = some a)

/-- The state in which `do_munmap` goes on after the write-back of a dirty page. -/
def after_writeback (s : VM) (a : lazy_load_arg) (addr va : Nat) : VM :=
  { file_write_at (malloc s).2 a.file addr a.read_bytes a.ofs with
    pml4 := pml4_set_dirty (malloc s).2.pml4 va false }

/-- The state in which `do_munmap` goes on after it has unmapped a page. -/
def after_unmap (s : VM) (va : Nat) : VM :=
  { (malloc s).2 with pml4 := pml4_clear_page (malloc s).2.pml4 va }

/-- The bit numbered `i` of the bitmap, read off its elements. -/
def bit_value (b : bitmap) (i : Nat) : Bool :=
  match b.bits[i / ELEM_BITS]? with
  | some w => w.testBit (i % ELEM_BITS)
  | none => false

/-- The bitmap has an element for each of its bits, and fewer than `SIZE_MAX` bits. -/
def bitmap_ok (b : bitmap) : Prop :=
  b.bit_cnt ≤ ELEM_BITS * b.bits.length ∧ b.bit_cnt < BITMAP_ERROR

/-- The `cnt` bits from `i` on lie inside the bitmap and all equal `value`. -/
def group_at (b : bitmap) (i cnt : Nat) (value : Bool) : Prop :=
  i + cnt ≤ b.bit_cnt ∧ ∀ j, j < cnt → bit_value b (i + j) = value

/-- Three resident anonymous pages at `0x1000`, `0x2000`, `0x3000` in the frames 0, 1, 2, which
the frame table lists in this order; only the page at `0x1000` has its accessed bit set; the
cursor is as `vm_init` leaves it (`list_begin` of the empty table, which is `list_end`). -/
def three_frames : VM :=
  { boot with
    page_heap := [resident_anon_page 0x1000 0, resident_anon_page 0x2000 1,
                  resident_anon_page 0x3000 2],
    frame_heap := [⟨0x8004100000, some 0⟩, ⟨0x8004101000, some 1⟩, ⟨0x8004102000, some 2⟩],
    frame_table := [0, 1, 2], user_pool := [], spt := ⟨[2, 1, 0]⟩,
    pml4 := [(0x3000, ⟨0x8004102000, true, false, false⟩),
             (0x2000, ⟨0x8004101000, true, false, false⟩),
             (0x1000, ⟨0x8004100000, true, true, false⟩)],
    clock_ref := none }

/-- The loop variables of `do_mmap` after a pass that reached the end of the loop body
(`read_bytes -= page_read_bytes; zero_bytes -= page_zero_bytes; addr += PGSIZE;
offset += page_read_bytes`). -/
def mmap_next (v : mmap_vars) : mmap_vars :=
  let page_read_bytes := if v.read_bytes < PGSIZE then v.read_bytes else PGSIZE
  let page_zero_bytes := PGSIZE - page_read_bytes
  { addr := (v.addr + PGSIZE) % PTR_MOD,
    offset := (v.offset + page_read_bytes) % OFF_MOD,
    read_bytes := size_sub v.read_bytes page_read_bytes,
    zero_bytes := size_sub v.zero_bytes page_zero_bytes }

/-- The variables with which `do_mmap` enters its loop. -/
def mmap_entry (s : VM) (addr length file offset : Nat) : mmap_vars :=
  let read_bytes := if file_length s file < length then file_length s file else length
  { addr := addr, offset := offset, read_bytes := read_bytes,
    zero_bytes := PGSIZE - read_bytes % PGSIZE }

/-- A machine whose file 0 has exactly `PGSIZE` bytes. -/
def one_page_file : VM := { boot with files := [image_A] }

/-- A machine whose file 0 has `PGSIZE + 1` bytes. -/
def long_file : VM := { boot with files := [image_A ++ [7]] }

/-- The machine `one_page_file` with a pending anonymous page already at `0x1000`. -/
def page_in_the_way : VM :=
  { one_page_file with page_heap := [anon_page_at 0x1000 true], spt := ⟨[0]⟩ }

/-- The page pointer `spt_find_page (addr)` finds in the current table when its `malloc`
succeeds. -/
def page_ptr_at (s : VM) (addr : Nat) : Option Nat :=
  hash_find s.page_heap s.spt.hash_table (pg_round_down addr)

/-- The number of passes the walk of `do_munmap` makes over `n` pages from `addr` on: two for
a page whose dirty bit is set (the write-back, then the unmapping), one for a page whose dirty
bit is clear. -/
def walk_passes (s : VM) : Nat → Nat → Nat
  | _, 0 => 0
  | addr, n + 1 =>
    (if pml4_is_dirty s.pml4 addr then 2 else 1) + walk_passes s (addr + PGSIZE) n

/-- Every page of the current table whose dirty bit is set has a loader context. -/
def dirty_pages_have_aux (s : VM) : Prop :=
  ∀ p ∈ s.spt.hash_table, ∀ pg, s.page_heap[p]? = some pg →
    pml4_is_dirty s.pml4 pg.va = true → ∃ a, pg.uninit.aux = some a

/-- Every dirty page among the first `n` pages at `addr`, `addr + PGSIZE`, ... has a loader
context. -/
def walk_pages_have_aux (s : VM) (addr n : Nat) : Prop :=
  ∀ k, k < n → ∀ p pg, page_ptr_at s (addr + k * PGSIZE) = some p →
    s.page_heap[p]? = some pg → pml4_is_dirty s.pml4 pg.va = true →
    ∃ a, pg.uninit.aux = some a

/-- Every dirty page the walk of `do_munmap` from `addr` meets has a loader context: the pages
met are those of the run of consecutive page addresses from `addr` on that have a page in the
SPT. -/
def met_pages_have_aux (s : VM) (addr : Nat) : Prop :=
  ∀ n, (∀ k, k < n → page_ptr_at s (addr + k * PGSIZE) ≠ none) → walk_pages_have_aux s addr n

/-- The machine `two_mappings` with an anonymous page (no loader context) in the place of the
second mapping: file 0 is mapped at `0x1000`, the page at `0x2000` is anonymous, resident and
dirty. -/
def dirty_anon_behind_mapping : VM :=
  { two_mappings with
    page_heap := [resident_file_page 0x1000 0 ⟨0, 0, 3, 4093⟩, resident_anon_page 0x2000 1] }

/-! ## Basic facts -/

theorem malloc_snd (s : VM) : (malloc s).2 = { s with malloc_plan := s.malloc_plan.tail } := by
  unfold malloc
  cases h : s.malloc_plan with
  | nil => simp; cases s; simp_all
  | cons b rest => simp

theorem pg_round_down_eq_mul (va : Nat) : pg_round_down va = PGSIZE * (va / PGSIZE) := by
  unfold pg_round_down
  have := Nat.div_add_mod va PGSIZE
  omega

theorem pg_round_down_of_aligned (va : Nat) (h : pg_ofs va = 0) : pg_round_down va = va := by
  unfold pg_round_down pg_ofs at *
  omega

theorem pg_round_down_same_page (va va' : Nat) (h : va' / PGSIZE = va / PGSIZE) :
    pg_round_down va' = pg_round_down va := by
  rw [pg_round_down_eq_mul, pg_round_down_eq_mul, h]

theorem hash_find_some (heap : List page) (h : List Nat) (key p : Nat)
    (hf : hash_find heap h key = some p) : holds_at heap h key p := by
  induction h with
  | nil => simp [hash_find] at hf
  | cons q rest ih =>
    unfold hash_find at hf
    cases hq : heap[q]? with
    | none =>
      simp [hq] at hf
      have := ih hf
      exact ⟨List.mem_cons_of_mem _ this.1, this.2⟩
    | some pg =>
      simp [hq] at hf
      by_cases hk : pg.va = key
      · simp [hk] at hf
        subst hf
        exact ⟨List.mem_cons_self _ _, pg, hq, hk⟩
      · simp [hk] at hf
        have := ih hf
        exact ⟨List.mem_cons_of_mem _ this.1, this.2⟩

theorem hash_find_none (heap : List page) (h : List Nat) (key : Nat)
    (hf : hash_find heap h key = none) : ∀ p, ¬ holds_at heap h key p := by
  induction h with
  | nil => intro p hp; simp [holds_at] at hp
  | cons q rest ih =>
    unfold hash_find at hf
    intro p hp
    obtain ⟨hmem, pg, hpg, hva⟩ := hp
    cases hq : heap[q]? with
    | none =>
      simp [hq] at hf
      rcases List.mem_cons.mp hmem with rfl | hin
      · rw [hq] at hpg; cases hpg
      · exact ih hf p ⟨hin, pg, hpg, hva⟩
    | some pg0 =>
      simp [hq] at hf
      by_cases hk : pg0.va = key
      · simp [hk] at hf
      · simp [hk] at hf
        rcases List.mem_cons.mp hmem with rfl | hin
        · rw [hq] at hpg; cases hpg; exact hk hva
        · exact ih hf p ⟨hin, pg, hpg, hva⟩

theorem hash_find_of_holds (heap : List page) (h : List Nat) (key p : Nat)
    (hp : holds_at heap h key p) : ∃ q, hash_find heap h key = some q ∧ holds_at heap h key q := by
  cases hf : hash_find heap h key with
  | none => exact absurd hp (hash_find_none heap h key hf p)
  | some q => exact ⟨q, rfl, hash_find_some heap h key q hf⟩

theorem spt_find_page_ok (s : VM) (spt : supplemental_page_table) (va : Nat)
    (hm : (malloc s).1 = true) :
    spt_find_page s spt va
      = (hash_find s.page_heap spt.hash_table (pg_round_down va), (malloc s).2) := by
  unfold spt_find_page
  have h2 : (malloc s).2.page_heap = s.page_heap := by rw [malloc_snd]
  rcases hms : malloc s with ⟨b, s1⟩
  rw [hms] at hm h2
  simp at hm h2
  subst hm
  simp [h2]

theorem spt_find_page_fail (s : VM) (spt : supplemental_page_table) (va : Nat)
    (hm : (malloc s).1 = false) : spt_find_page s spt va = (none, (malloc s).2) := by
  unfold spt_find_page
  rcases hms : malloc s with ⟨b, s1⟩
  rw [hms] at hm
  simp at hm
  subst hm
  simp

theorem spt_find_page_absent (s : VM) (spt : supplemental_page_table) (va : Nat)
    (habs : ∀ q, ¬ holds_at s.page_heap spt.hash_table (pg_round_down va) q) :
    spt_find_page s spt va = (none, (malloc s).2) := by
  cases hm : (malloc s).1 with
  | false => exact spt_find_page_fail s spt va hm
  | true =>
    rw [spt_find_page_ok s spt va hm]
    cases hf : hash_find s.page_heap spt.hash_table (pg_round_down va) with
    | none => rfl
    | some q => exact absurd (hash_find_some _ _ _ q hf) (habs q)

theorem getElem?_append_one_lt (heap : List page) (pg : page) (q : Nat) (h : q < heap.length) :
    (heap ++ [pg])[q]? = heap[q]? := by
  rw [List.getElem?_append_left h]

theorem holds_at_append (heap : List page) (pg : page) (h : List Nat) (key q : Nat)
    (hv : ∀ r ∈ h, r < heap.length) :
    holds_at (heap ++ [pg]) h key q ↔ holds_at heap h key q := by
  unfold holds_at
  constructor
  · rintro ⟨hm, x, hx, hk⟩
    rw [getElem?_append_one_lt heap pg q (hv q hm)] at hx
    exact ⟨hm, x, hx, hk⟩
  · rintro ⟨hm, x, hx, hk⟩
    refine ⟨hm, x, ?_, hk⟩
    rw [getElem?_append_one_lt heap pg q (hv q hm)]
    exact hx

theorem hash_find_append (heap : List page) (pg : page) (h : List Nat) (key : Nat)
    (hv : ∀ r ∈ h, r < heap.length) :
    hash_find (heap ++ [pg]) h key = hash_find heap h key := by
  induction h with
  | nil => rfl
  | cons q rest ih =>
    have hq : q < heap.length := hv q (List.mem_cons_self _ _)
    have ih2 := ih (fun r hr => hv r (List.mem_cons_of_mem _ hr))
    unfold hash_find
    rw [getElem?_append_one_lt heap pg q hq, ih2]

theorem VM_TYPE_ne_uninit (type : Nat) (ht : VM_TYPE type = VM_ANON ∨ VM_TYPE type = VM_FILE) :
    VM_TYPE type ≠ VM_UNINIT := by
  rcases ht with h | h <;> rw [h] <;> decide

theorem malloc_page_heap (s : VM) : (malloc s).2.page_heap = s.page_heap := by rw [malloc_snd]

theorem malloc_spt (s : VM) : (malloc s).2.spt = s.spt := by rw [malloc_snd]

theorem insert_absent (s : VM) (spt : supplemental_page_table) (p : Nat) (pg : page)
    (hp : s.page_heap[p]? = some pg) (hu : is_user_vaddr pg.va = true)
    (h1 : ∀ q, ¬ holds_at s.page_heap spt.hash_table (pg_round_down pg.va) q)
    (h2 : ∀ q, ¬ holds_at s.page_heap spt.hash_table pg.va q) :
    spt_insert_page s spt p = some (true, ⟨p :: spt.hash_table⟩, (malloc s).2) := by
  have hnone : hash_find s.page_heap spt.hash_table pg.va = none := by
    cases hf : hash_find s.page_heap spt.hash_table pg.va with
    | none => rfl
    | some q => exact absurd (hash_find_some _ _ _ q hf) (h2 q)
  simp only [spt_insert_page, hp, hu, if_true]
  rw [spt_find_page_absent s spt pg.va h1]
  simp only [hash_insert, malloc_page_heap, hp, hnone]

/-- The allocation path of `vm_alloc_page_with_initializer`: the address is absent from the
table, the type is anonymous or file-backed and the `malloc` of the page succeeds. -/
theorem alloc_absent (s : VM) (type va : Nat) (writable : Bool) (init : Option vm_initializer)
    (aux : Option lazy_load_arg)
    (ht : VM_TYPE type = VM_ANON ∨ VM_TYPE type = VM_FILE)
    (ha : pg_ofs va = 0) (hu : is_user_vaddr va = true)
    (habs : ∀ q, ¬ holds_at s.page_heap s.spt.hash_table va q)
    (hv : spt_pointers_valid s)
    (hm : (malloc (malloc s).2).1 = true) :
    vm_alloc_page_with_initializer s type va writable init aux
      = some (true, with_new_page s
          (pending_page type va writable init aux (initializer_of type))) := by
  have hne := VM_TYPE_ne_uninit type ht
  have hrd := pg_round_down_of_aligned va ha
  have h1 : spt_find_page s s.spt va = (none, (malloc s).2) :=
    spt_find_page_absent s s.spt va (by rw [hrd]; exact habs)
  have hni : (if VM_TYPE type = VM_ANON then some page_initializer.anon_initializer
      else if VM_TYPE type = VM_FILE then some page_initializer.file_backed_initializer
      else none) = some (initializer_of type) := by
    unfold initializer_of
    rcases ht with h | h
    · simp [h]
    · rw [h]; decide
  unfold vm_alloc_page_with_initializer
  rw [if_neg hne, h1]
  simp only []
  rcases hms : malloc (malloc s).2 with ⟨b, s2⟩
  rw [hms] at hm
  simp only at hm
  subst hm
  have hs2 : s2 = (malloc (malloc s).2).2 := by rw [hms]
  simp only [hni]
  have hheap : s2.page_heap = s.page_heap := by
    rw [hs2, malloc_page_heap, malloc_page_heap]
  have hspt : s2.spt = s.spt := by rw [hs2, malloc_spt, malloc_spt]
  have habs3 : ∀ q, ¬ holds_at
      (s2.page_heap ++ [pending_page type va writable init aux (initializer_of type)])
      s2.spt.hash_table va q := by
    intro q hq
    rw [hheap, hspt] at hq
    exact habs q ((holds_at_append _ _ _ _ _ hv).mp hq)
  have key := insert_absent
    { s2 with page_heap := s2.page_heap ++ [pending_page type va writable init aux (initializer_of type)] }
    s2.spt s2.page_heap.length (pending_page type va writable init aux (initializer_of type))
    (by simp) hu (by rw [show (pending_page type va writable init aux (initializer_of type)).va = va
      from rfl, hrd]; exact habs3) habs3
  erw [key]
  simp only []
  rw [malloc_snd, hs2, malloc_snd, malloc_snd]
  simp [with_new_page]

theorem hash_find_cons_some (heap : List page) (p : Nat) (rest : List Nat) (key : Nat) (pg : page)
    (hp : heap[p]? = some pg) :
    hash_find heap (p :: rest) key = if pg.va = key then some p else hash_find heap rest key := by
  rw [hash_find, hp]

theorem spt_find_page_snd (s : VM) (spt : supplemental_page_table) (va : Nat) :
    (spt_find_page s spt va).2 = (malloc s).2 := by
  cases hm : (malloc s).1 with
  | false => rw [spt_find_page_fail s spt va hm]
  | true => rw [spt_find_page_ok s spt va hm]

theorem holds_at_append_mono (heap : List page) (pg : page) (h : List Nat) (key q : Nat)
    (hq : holds_at heap h key q) : holds_at (heap ++ [pg]) h key q := by
  obtain ⟨hm, x, hx, hk⟩ := hq
  have hlt : q < heap.length := by
    rcases Nat.lt_or_ge q heap.length with h1 | h1
    · exact h1
    · rw [List.getElem?_eq_none h1] at hx; cases hx
  exact ⟨hm, x, by rw [getElem?_append_one_lt heap pg q hlt]; exact hx, hk⟩

/-- What `spt_insert_page` can do: it returns, and the table is either the one given or the one
given with the page chained in front, the latter only for a user address not yet a key. -/
theorem insert_cases (s : VM) (spt : supplemental_page_table) (p : Nat) (pg : page)
    (hp : s.page_heap[p]? = some pg) :
    ∃ b spt1 s1, spt_insert_page s spt p = some (b, spt1, s1) ∧
      s1 = (if is_user_vaddr pg.va = true then (malloc s).2 else s) ∧
      (spt1 = spt ∨
        (spt1 = ⟨p :: spt.hash_table⟩ ∧ is_user_vaddr pg.va = true ∧
          ∀ q, ¬ holds_at s.page_heap spt.hash_table pg.va q)) := by
  cases hu : is_user_vaddr pg.va with
  | false =>
    simp only [spt_insert_page, hp, hu]
    exact ⟨false, spt, s, by simp, by simp, Or.inl rfl⟩
  | true =>
    simp only [spt_insert_page, hp, hu, if_true]
    have hsnd := spt_find_page_snd s spt pg.va
    rcases hfp : spt_find_page s spt pg.va with ⟨r, s1⟩
    rw [hfp] at hsnd
    simp only at hsnd
    subst hsnd
    cases r with
    | some q => exact ⟨false, spt, _, rfl, rfl, Or.inl rfl⟩
    | none =>
      refine ⟨true, _, _, rfl, rfl, ?_⟩
      simp only [hash_insert, malloc_page_heap, hp]
      cases hf : hash_find s.page_heap spt.hash_table pg.va with
      | some q => exact Or.inl rfl
      | none => exact Or.inr ⟨rfl, trivial, hash_find_none _ _ _ hf⟩

theorem getElem?_append_some (heap : List page) (pg x : page) (q : Nat)
    (h : heap[q]? = some x) : (heap ++ [pg])[q]? = some x := by
  have hlt : q < heap.length := by
    rcases Nat.lt_or_ge q heap.length with h1 | h1
    · exact h1
    · rw [List.getElem?_eq_none h1] at h; cases h
  rw [getElem?_append_one_lt heap pg q hlt]
  exact h

/-- When the address is already a key of the table, or is not a user address,
`vm_alloc_page_with_initializer` returns and leaves the table as it was; page objects
allocated before keep their contents. -/
theorem alloc_spt_same (s : VM) (type upage : Nat) (writable : Bool)
    (init : Option vm_initializer) (aux : Option lazy_load_arg)
    (hne : VM_TYPE type ≠ VM_UNINIT)
    (h : (∃ q, holds_at s.page_heap s.spt.hash_table upage q) ∨ is_user_vaddr upage = false) :
    ∃ b s1, vm_alloc_page_with_initializer s type upage writable init aux = some (b, s1) ∧
      s1.spt = s.spt ∧
      ∀ (q : Nat) (x : page), s.page_heap[q]? = some x → s1.page_heap[q]? = some x := by
  unfold vm_alloc_page_with_initializer
  rw [if_neg hne]
  have hsnd := spt_find_page_snd s s.spt upage
  rcases hfp : spt_find_page s s.spt upage with ⟨r, s1⟩
  rw [hfp] at hsnd
  simp only at hsnd
  subst hsnd
  cases r with
  | some q =>
    exact ⟨false, _, rfl, malloc_spt s, fun q x hq => by rw [malloc_page_heap]; exact hq⟩
  | none =>
    simp only []
    rcases hms : malloc (malloc s).2 with ⟨b, s2⟩
    have hs2 : s2 = (malloc (malloc s).2).2 := by rw [hms]
    have hheap : s2.page_heap = s.page_heap := by rw [hs2, malloc_page_heap, malloc_page_heap]
    have hspt : s2.spt = s.spt := by rw [hs2, malloc_spt, malloc_spt]
    cases b with
    | false => exact ⟨false, _, rfl, hspt, fun q x hq => by rw [hheap]; exact hq⟩
    | true =>
      simp only []
      cases hni : (if VM_TYPE type = VM_ANON then some page_initializer.anon_initializer
          else if VM_TYPE type = VM_FILE then some page_initializer.file_backed_initializer
          else none) with
      | none => exact ⟨false, _, rfl, hspt, fun q x hq => by rw [hheap]; exact hq⟩
      | some ni =>
        simp only []
        obtain ⟨b1, spt1, s4, he, hs4, hcase⟩ := insert_cases
          { s2 with page_heap := s2.page_heap ++ [pending_page type upage writable init aux ni] }
          s2.spt s2.page_heap.length (pending_page type upage writable init aux ni) (by simp)
        erw [he]
        have hheap4 : s4.page_heap
            = s.page_heap ++ [pending_page type upage writable init aux ni] := by
          rw [hs4]
          split
          · rw [malloc_page_heap]; simp [hheap]
          · simp [hheap]
        refine ⟨b1, _, rfl, ?_, ?_⟩
        · simp only []
          rcases hcase with h1 | ⟨_, hu, habs⟩
          · rw [h1, hspt]
          · exfalso
            rcases h with ⟨q, hq⟩ | hnu
            · apply habs q
              show holds_at (s2.page_heap ++ [pending_page type upage writable init aux ni])
                s2.spt.hash_table upage q
              rw [hheap, hspt]
              exact holds_at_append_mono _ _ _ _ _ hq
            · have hu2 : is_user_vaddr upage = true := hu
              rw [hnu] at hu2
              exact Bool.noConfusion hu2
        · intro q x hq
          show s4.page_heap[q]? = some x
          rw [hheap4]
          exact getElem?_append_some _ _ _ _ hq

theorem alloc_present (s : VM) (type upage : Nat) (writable : Bool)
    (init : Option vm_initializer) (aux : Option lazy_load_arg)
    (hne : VM_TYPE type ≠ VM_UNINIT) (hm : (malloc s).1 = true)
    (h : ∃ q, holds_at s.page_heap s.spt.hash_table (pg_round_down upage) q) :
    vm_alloc_page_with_initializer s type upage writable init aux = some (false, (malloc s).2) := by
  unfold vm_alloc_page_with_initializer
  rw [if_neg hne, spt_find_page_ok s s.spt upage hm]
  obtain ⟨q, hq⟩ := h
  obtain ⟨r, hr, _⟩ := hash_find_of_holds _ _ _ q hq
  rw [hr]

theorem pg_round_down_idem (va : Nat) : pg_round_down (pg_round_down va) = pg_round_down va := by
  apply pg_round_down_of_aligned
  unfold pg_ofs
  rw [pg_round_down_eq_mul]
  exact Nat.mul_mod_right _ _

theorem stack_type_ne_uninit : VM_TYPE (VM_ANON ||| VM_MARKER_0) ≠ VM_UNINIT := by decide

theorem stack_type_anon : VM_TYPE (VM_ANON ||| VM_MARKER_0) = VM_ANON := by decide

theorem growth_spt_same (s : VM) (addr : Nat)
    (h : (∃ q, holds_at s.page_heap s.spt.hash_table (pg_round_down addr) q) ∨
      is_user_vaddr (pg_round_down addr) = false) :
    ∃ s1, vm_stack_growth s addr = some s1 ∧ s1.spt = s.spt ∧
      ∀ (q : Nat) (x : page), s.page_heap[q]? = some x → s1.page_heap[q]? = some x := by
  obtain ⟨b, s1, he, hs, hx⟩ := alloc_spt_same s (VM_ANON ||| VM_MARKER_0) (pg_round_down addr)
    true none none stack_type_ne_uninit h
  unfold vm_stack_growth vm_alloc_page
  rw [he]
  exact ⟨s1, rfl, hs, hx⟩

/-! ### Frame acquisition leaves pages, table and mappings alone -/

theorem pages_untouched_refl (s : VM) : pages_untouched s s :=
  ⟨rfl, rfl, rfl, rfl, fun _ => rfl⟩

theorem pages_untouched_trans (a b c : VM) (h1 : pages_untouched a b) (h2 : pages_untouched b c) :
    pages_untouched a c :=
  ⟨h2.1.trans h1.1, h2.2.1.trans h1.2.1, h2.2.2.1.trans h1.2.2.1, h2.2.2.2.1.trans h1.2.2.2.1,
    fun va => (h2.2.2.2.2 va).trans (h1.2.2.2.2 va)⟩

theorem pml4_lookup_update_some (l : List (Nat × pte)) (va va' : Nat) (e : pte) :
    pml4_lookup (pml4_update l va (some e)) va'
      = if pg_round_down va' = pg_round_down va then (pml4_lookup l va').map (fun _ => e)
        else pml4_lookup l va' := by
  induction l with
  | nil => simp [pml4_update, pml4_lookup]
  | cons x rest ih =>
    obtain ⟨k, old⟩ := x
    by_cases hk : k = pg_round_down va
    · by_cases hv : pg_round_down va' = pg_round_down va
      · simp [pml4_update, pml4_lookup, hk, hv]
      · have hv2 : ¬ pg_round_down va = pg_round_down va' := fun h => hv h.symm
        simp [pml4_update, pml4_lookup, hk, hv, hv2, ih]
    · by_cases hv : pg_round_down va' = pg_round_down va
      · have hk2 : ¬ k = pg_round_down va' := by rw [hv]; exact hk
        simp [pml4_update, pml4_lookup, hk, hv, ih]
      · by_cases hk3 : k = pg_round_down va'
        · simp [pml4_update, pml4_lookup, hk, hv, hk3]
        · simp [pml4_update, pml4_lookup, hk, hv, hk3, ih]

theorem pml4_lookup_same_page (l : List (Nat × pte)) (va va' : Nat)
    (h : pg_round_down va' = pg_round_down va) : pml4_lookup l va' = pml4_lookup l va := by
  induction l with
  | nil => rfl
  | cons x rest ih =>
    obtain ⟨k, old⟩ := x
    simp [pml4_lookup, h, ih]

theorem pml4_set_accessed_same (l : List (Nat × pte)) (va : Nat) (b : Bool) :
    pml4_same_mappings (pml4_set_accessed l va b) l := by
  intro va'
  unfold pml4_set_accessed
  cases hl : pml4_lookup l va with
  | none => rfl
  | some e =>
    simp only []
    rw [pml4_lookup_update_some]
    by_cases hv : pg_round_down va' = pg_round_down va
    · rw [if_pos hv, pml4_lookup_same_page l va va' hv, hl]
      rfl
    · rw [if_neg hv]

theorem clock_scan_untouched (l : List Nat) :
    ∀ (s : VM) (v : Option Nat) (r : Bool × Option Nat × Option Nat × VM),
      clock_scan s l v = some r → pages_untouched s r.2.2.2 := by
  induction l with
  | nil =>
    intro s v r h
    simp [clock_scan] at h
    subst h
    exact pages_untouched_refl s
  | cons f rest ih =>
    intro s v r h
    unfold clock_scan at h
    cases hfr : s.frame_heap[f]? with
    | none => rw [hfr] at h; cases h
    | some fr =>
      rw [hfr] at h
      simp only [] at h
      cases hpp : fr.page with
      | none => rw [hpp] at h; cases h
      | some p =>
        rw [hpp] at h
        simp only [] at h
        cases hpg : s.page_heap[p]? with
        | none => rw [hpg] at h; cases h
        | some pg =>
          rw [hpg] at h
          simp only [] at h
          by_cases hacc : pml4_is_accessed s.pml4 pg.va = true
          · rw [if_pos hacc] at h
            have := ih _ _ r h
            exact pages_untouched_trans s
              { s with pml4 := pml4_set_accessed s.pml4 pg.va false } _
              ⟨rfl, rfl, rfl, rfl, pml4_set_accessed_same s.pml4 pg.va false⟩ this
          · rw [if_neg hacc] at h
            cases h
            exact pages_untouched_refl s

theorem vm_get_victim_untouched (s : VM) (r : Option Nat × VM)
    (h : vm_get_victim s = some r) : pages_untouched s r.2 := by
  unfold vm_get_victim at h
  cases h1 : clock_scan s (frames_from s.frame_table s.clock_ref) none with
  | none => rw [h1] at h; cases h
  | some r1 =>
    obtain ⟨b, victim, c, s1⟩ := r1
    have hu1 := clock_scan_untouched _ _ _ _ h1
    rw [h1] at h
    cases b with
    | true =>
      simp only [] at h
      cases h
      exact hu1
    | false =>
      simp only [] at h
      cases h2 : clock_scan { s1 with clock_ref := c } s1.frame_table victim with
      | none => rw [h2] at h; cases h
      | some r2 =>
        obtain ⟨b2, victim2, c2, s3⟩ := r2
        have hu2 := clock_scan_untouched _ _ _ _ h2
        rw [h2] at h
        cases h
        exact pages_untouched_trans s _ _ hu1 hu2

theorem indeterminate_untouched (s : VM) : pages_untouched s (indeterminate s).2 := by
  unfold indeterminate
  cases s.indet with
  | nil => exact pages_untouched_refl s
  | cons b rest => exact ⟨rfl, rfl, rfl, rfl, fun _ => rfl⟩

theorem swap_out_untouched (s : VM) (p : Nat) (r : Bool × VM)
    (h : swap_out s p = some r) : pages_untouched s r.2 := by
  unfold swap_out at h
  cases hpg : s.page_heap[p]? with
  | none => rw [hpg] at h; cases h
  | some pg =>
    rw [hpg] at h
    simp only [] at h
    cases hop : pg.operations with
    | uninit_ops => rw [hop] at h; cases h
    | anon_ops =>
      rw [hop] at h
      simp only [anon_swap_out] at h
      cases hf : pg.frame with
      | none => rw [hf] at h; cases h
      | some f =>
        rw [hf] at h
        simp only [] at h
        cases hfr : s.frame_heap[f]? with
        | none => rw [hfr] at h; cases h
        | some fr =>
          rw [hfr] at h
          cases h
          exact ⟨rfl, rfl, rfl, rfl, fun _ => rfl⟩
    | file_ops =>
      rw [hop] at h
      cases h
      exact indeterminate_untouched s

theorem vm_evict_frame_untouched (s : VM) (r : Option Nat × VM)
    (h : vm_evict_frame s = some r) : pages_untouched s r.2 := by
  unfold vm_evict_frame at h
  cases h1 : vm_get_victim s with
  | none => rw [h1] at h; cases h
  | some r1 =>
    obtain ⟨v, s1⟩ := r1
    have hu1 := vm_get_victim_untouched s _ h1
    rw [h1] at h
    cases v with
    | none => cases h
    | some v =>
      simp only [] at h
      cases hfr : s1.frame_heap[v]? with
      | none => rw [hfr] at h; cases h
      | some fr =>
        rw [hfr] at h
        simp only [] at h
        cases hpp : fr.page with
        | none => rw [hpp] at h; cases h
        | some p =>
          rw [hpp] at h
          simp only [] at h
          cases hso : swap_out s1 p with
          | none => rw [hso] at h; cases h
          | some r2 =>
            rw [hso] at h
            cases h
            exact pages_untouched_trans s _ _ hu1 (swap_out_untouched s1 p r2 hso)

theorem palloc_get_page_untouched (s : VM) : pages_untouched s (palloc_get_page s).2 := by
  unfold palloc_get_page
  cases s.user_pool with
  | nil => exact pages_untouched_refl s
  | cons k rest => exact ⟨rfl, rfl, rfl, rfl, fun _ => rfl⟩

theorem palloc_get_page_frame_heap (s : VM) : (palloc_get_page s).2.frame_heap = s.frame_heap := by
  unfold palloc_get_page
  cases s.user_pool with
  | nil => rfl
  | cons k rest => rfl

theorem malloc_untouched (s : VM) : pages_untouched s (malloc s).2 := by
  rw [malloc_snd]
  exact ⟨rfl, rfl, rfl, rfl, fun _ => rfl⟩

/-- A frame returned by `vm_get_frame` is an allocated frame object with no owning page, and
acquiring it (by eviction too) changed no page object, table entry or mapping. -/
theorem vm_get_frame_props (s s1 : VM) (f : Nat) (h : vm_get_frame s = some (some f, s1)) :
    pages_untouched s s1 ∧ ∃ fr, s1.frame_heap[f]? = some fr ∧ fr.page = none := by
  unfold vm_get_frame at h
  have hmu := malloc_untouched s
  rcases hm : malloc s with ⟨b, sa⟩
  rw [hm] at h hmu
  cases b with
  | false => cases h
  | true =>
    simp only [] at h
    have hpu := palloc_get_page_untouched sa
    rcases hpa : palloc_get_page sa with ⟨kva, sb⟩
    rw [hpa] at h hpu
    simp only [] at h hpu hmu
    have hab : pages_untouched s sb := pages_untouched_trans s sa sb hmu hpu
    by_cases hk : kva = 0
    · rw [if_pos hk] at h
      cases he : vm_evict_frame { sb with frame_heap := sb.frame_heap ++ [⟨kva, none⟩] } with
      | none => rw [he] at h; cases h
      | some r =>
        obtain ⟨v, s4⟩ := r
        have hu := vm_evict_frame_untouched _ _ he
        rw [he] at h
        cases v with
        | none => cases h
        | some v =>
          simp only [] at h
          cases hfr : s4.frame_heap[v]? with
          | none => rw [hfr] at h; cases h
          | some fr =>
            rw [hfr] at h
            simp only [Option.some.injEq, Prod.mk.injEq] at h
            obtain ⟨h1, h2⟩ := h
            subst h1
            subst h2
            refine ⟨pages_untouched_trans s _ _ hab
              (pages_untouched_trans _ _ _ ⟨rfl, rfl, rfl, rfl, fun _ => rfl⟩
                (pages_untouched_trans _ s4 _ hu ⟨rfl, rfl, rfl, rfl, fun _ => rfl⟩)), ?_⟩
            have hlt : v < s4.frame_heap.length := by
              rcases Nat.lt_or_ge v s4.frame_heap.length with h1 | h1
              · exact h1
              · rw [List.getElem?_eq_none h1] at hfr; cases hfr
            exact ⟨{ fr with page := none }, by simp [set_frame, hlt], rfl⟩
    · rw [if_neg hk] at h
      simp only [Option.some.injEq, Prod.mk.injEq] at h
      obtain ⟨h1, h2⟩ := h
      subst h1
      subst h2
      refine ⟨pages_untouched_trans s _ _ hab ⟨rfl, rfl, rfl, rfl, fun _ => rfl⟩, ?_⟩
      have hfh : sb.frame_heap = sa.frame_heap := by
        have := palloc_get_page_frame_heap sa
        rw [hpa] at this
        exact this
      exact ⟨⟨kva, none⟩, by simp [hfh], rfl⟩

/-! ### Claiming a pending anonymous page that is not yet mapped -/

theorem pml4_set_page_ok (s : VM) (upage kpage : Nat) (rw : Bool)
    (h : s.set_page_plan.head? ≠ some false) :
    pml4_set_page s upage kpage rw
      = (true, { s with set_page_plan := s.set_page_plan.tail,
                        pml4 := (pg_round_down upage, ⟨kpage, rw, false, false⟩)
                                :: pml4_update s.pml4 upage none }) := by
  unfold pml4_set_page
  cases hp : s.set_page_plan with
  | nil => simp
  | cons b rest =>
    cases b with
    | true => simp
    | false => rw [hp] at h; exact absurd rfl h

theorem pml4_lookup_none_of_same (a b : List (Nat × pte)) (va : Nat)
    (h : pml4_same_mappings a b) (hb : pml4_lookup b va = none) : pml4_lookup a va = none := by
  have := h va
  rw [hb] at this
  cases ha : pml4_lookup a va with
  | none => rfl
  | some e => rw [ha] at this; cases this

/-- The claim of a pending (`uninit_ops`) anonymous page without loader whose address has no
translation yet, when the frame acquisition yields frame `f` and `pml4_set_page` succeeds. -/
theorem claim_pending_anon (s s1 : VM) (p f : Nat) (pg : page)
    (hf : vm_get_frame s = some (some f, s1))
    (hp : s.page_heap[p]? = some pg)
    (hops : pg.operations = .uninit_ops)
    (hpi : pg.uninit.page_initializer = some .anon_initializer)
    (hinit : pg.uninit.init = none)
    (hmap : pml4_lookup s.pml4 pg.va = none)
    (hsp : s.set_page_plan.head? ≠ some false) :
    ∃ fr, s1.frame_heap[f]? = some fr ∧ fr.page = none ∧ s1.page_heap = s.page_heap ∧
      s1.spt = s.spt ∧
      vm_do_claim_page s p = some (true, bound_state s1 p f pg fr) := by
  obtain ⟨⟨hheap, _, hspt, hplan, hsame⟩, fr, hfr, hfrp⟩ := vm_get_frame_props s s1 f hf
  have hp1 : s1.page_heap[p]? = some pg := by rw [hheap]; exact hp
  have hlt : p < s1.page_heap.length := by
    rcases Nat.lt_or_ge p s1.page_heap.length with h1 | h1
    · exact h1
    · rw [List.getElem?_eq_none h1] at hp1; cases hp1
  have hmap1 : pml4_lookup s1.pml4 pg.va = none := pml4_lookup_none_of_same _ _ _ hsame hmap
  have hget0 : pml4_get_page s1.pml4 pg.va = 0 := by
    unfold pml4_get_page
    rw [hmap1]
  have hsp1 : s1.set_page_plan.head? ≠ some false := by rw [hplan]; exact hsp
  refine ⟨fr, hfr, hfrp, hheap, hspt, ?_⟩
  unfold vm_do_claim_page
  rw [hf]
  simp only [hfr, hp1]
  have e1 : (set_page (set_frame s1 f { fr with page := some p }) p
      { pg with frame := some f }).pml4 = s1.pml4 := rfl
  rw [e1, if_pos hget0]
  rw [pml4_set_page_ok _ _ _ _ (by exact hsp1)]
  simp only []
  unfold swap_in
  have e2 : ({ set_page (set_frame s1 f { fr with page := some p }) p
      { pg with frame := some f } with
        set_page_plan := (set_page (set_frame s1 f { fr with page := some p }) p
          { pg with frame := some f }).set_page_plan.tail,
        pml4 := (pg_round_down pg.va, (⟨fr.kva, pg.writable, false, false⟩ : pte))
          :: pml4_update (set_page (set_frame s1 f { fr with page := some p }) p
              { pg with frame := some f }).pml4 pg.va none } : VM).page_heap[p]?
      = some { pg with frame := some f } := by
    simp [set_page, set_frame, hlt]
  rw [e2]
  simp only [hops]
  unfold uninit_initialize
  simp only [hpi, hinit, anon_initializer]
  simp [set_page, set_frame, bound_state]

/-- The allocation path of `vm_alloc_page_with_initializer` when the `malloc` of the page
object fails: the call returns false, and nothing but the two `malloc` outcomes is consumed. -/
theorem alloc_absent_fail (s : VM) (type va : Nat) (writable : Bool)
    (init : Option vm_initializer) (aux : Option lazy_load_arg)
    (hne : VM_TYPE type ≠ VM_UNINIT)
    (habs : ∀ q, ¬ holds_at s.page_heap s.spt.hash_table (pg_round_down va) q)
    (hm : (malloc (malloc s).2).1 = false) :
    vm_alloc_page_with_initializer s type va writable init aux
      = some (false, (malloc (malloc s).2).2) := by
  have h1 : spt_find_page s s.spt va = (none, (malloc s).2) :=
    spt_find_page_absent s s.spt va habs
  unfold vm_alloc_page_with_initializer
  rw [if_neg hne, h1]
  simp only []
  rcases hms : malloc (malloc s).2 with ⟨b, s2⟩
  rw [hms] at hm
  simp only at hm
  subst hm
  rfl

theorem pml4_set_page_fail (s : VM) (upage kpage : Nat) (rw : Bool)
    (h : s.set_page_plan.head? = some false) :
    pml4_set_page s upage kpage rw
      = (false, { s with set_page_plan := s.set_page_plan.tail }) := by
  unfold pml4_set_page
  cases hp : s.set_page_plan with
  | nil => rw [hp] at h; cases h
  | cons b rest =>
    rw [hp] at h
    have hb : b = false := by simpa using h
    subst hb
    simp

/-- The claim of a page whose address has no translation yet, when the frame acquisition
yields a frame and `pml4_set_page` fails: the claim returns false. -/
theorem claim_set_page_fails (s s1 : VM) (p f : Nat) (pg : page)
    (hf : vm_get_frame s = some (some f, s1))
    (hp : s.page_heap[p]? = some pg)
    (hmap : pml4_lookup s.pml4 pg.va = none)
    (hsp : s.set_page_plan.head? = some false) :
    ∃ s4, vm_do_claim_page s p = some (false, s4) := by
  obtain ⟨⟨hheap, _, hspt, hplan, hsame⟩, fr, hfr, hfrp⟩ := vm_get_frame_props s s1 f hf
  have hp1 : s1.page_heap[p]? = some pg := by rw [hheap]; exact hp
  have hlt : p < s1.page_heap.length := by
    rcases Nat.lt_or_ge p s1.page_heap.length with h1 | h1
    · exact h1
    · rw [List.getElem?_eq_none h1] at hp1; cases hp1
  have hmap1 : pml4_lookup s1.pml4 pg.va = none := pml4_lookup_none_of_same _ _ _ hsame hmap
  have hget0 : pml4_get_page s1.pml4 pg.va = 0 := by
    unfold pml4_get_page
    rw [hmap1]
  have hsp1 : s1.set_page_plan.head? = some false := by rw [hplan]; exact hsp
  unfold vm_do_claim_page
  rw [hf]
  simp only [hfr, hp1]
  have e1 : (set_page (set_frame s1 f { fr with page := some p }) p
      { pg with frame := some f }).pml4 = s1.pml4 := rfl
  rw [e1, if_pos hget0]
  rw [pml4_set_page_fail _ _ _ _ (by exact hsp1)]
  simp only []
  have e2 : ({ set_page (set_frame s1 f { fr with page := some p }) p
      { pg with frame := some f } with
        set_page_plan := (set_page (set_frame s1 f { fr with page := some p }) p
          { pg with frame := some f }).set_page_plan.tail } : VM).page_heap[p]?
      = some { pg with frame := some f } := by
    simp [set_page, set_frame, hlt]
  unfold vm_dealloc_page destroy
  rw [e2]
  exact ⟨_, rfl⟩

/-- A user-mode missing-translation fault at `rsp - 8` inside the stack region: the handler
grows the stack and goes on with its lookup. -/
theorem stack_fault_unfold (s sg : VM) (rsp : Nat) (write : Bool)
    (hlo : USER_STACK - 2 ^ 20 ≤ rsp - 8) (hhi : rsp - 8 < USER_STACK)
    (hgrow : vm_stack_growth s (rsp - 8) = some sg) :
    vm_try_handle_fault s rsp (rsp - 8) true write true
      = (match spt_find_page sg sg.spt (rsp - 8) with
         | (none, s2) => some (false, s2)
         | (some p, s2) =>
           match s2.page_heap[p]? with
           | none => none
           | some pg =>
             if write = true ∧ pg.writable = false then some (false, s2)
             else vm_do_claim_page s2 p) := by
  have hUS : USER_STACK = 0x47480000 := rfl
  have hKB : KERN_BASE = 0x8004000000 := rfl
  have haddr0 : rsp - 8 ≠ 0 := by rw [hUS] at hlo; omega
  have hkern : ¬ is_kernel_vaddr (rsp - 8) = true := by
    unfold is_kernel_vaddr
    rw [hUS] at hhi
    rw [hKB]
    simp only [decide_eq_true_eq]
    omega
  have hps : ptr_sub rsp 8 = rsp - 8 := by
    unfold ptr_sub PTR_MOD
    rw [hUS] at hhi
    norm_num
    omega
  have hcond : stack_growth_cond rsp (rsp - 8) = true := by
    unfold stack_growth_cond
    rw [hps]
    have h1 : USER_STACK - (1 <<< 20) ≤ rsp - 8 := by
      have : (1 <<< 20 : Nat) = 2 ^ 20 := by decide
      rw [this]; exact hlo
    simp only [h1, le_refl, Nat.le_of_lt hhi, decide_True, Bool.and_self]
  unfold vm_try_handle_fault
  rw [if_neg haddr0, if_neg hkern, if_pos rfl]
  have hrsp : (if (!true) = true then s.stack_rsp else rsp) = rsp := rfl
  simp only [hrsp, hcond, if_true, hgrow]

/-- The stack-growth fault returns false when the `malloc` of the page object, the scratch
`malloc` of the handler's lookup or `pml4_set_page` fails. -/
theorem stack_fault_fails (s sg s4 : VM) (rsp f : Nat) (write : Bool)
    (hlo : USER_STACK - 2 ^ 20 ≤ rsp - 8) (hhi : rsp - 8 < USER_STACK)
    (habs : ∀ q, ¬ holds_at s.page_heap s.spt.hash_table (pg_round_down (rsp - 8)) q)
    (hmiss : pml4_lookup s.pml4 (rsp - 8) = none)
    (hv : spt_pointers_valid s)
    (hgrow : vm_stack_growth s (rsp - 8) = some sg)
    (hf : vm_get_frame (spt_find_page sg sg.spt (rsp - 8)).2 = some (some f, s4))
    (hfail : (malloc (malloc s).2).1 = false ∨ (malloc sg).1 = false ∨
      s.set_page_plan.head? = some false) :
    ∃ s1, vm_try_handle_fault s rsp (rsp - 8) true write true = some (false, s1) := by
  have hUS : USER_STACK = 0x47480000 := rfl
  have hKB : KERN_BASE = 0x8004000000 := rfl
  have hK : pg_round_down (rsp - 8) ≤ rsp - 8 := by unfold pg_round_down; omega
  have huK : is_user_vaddr (pg_round_down (rsp - 8)) = true := by
    unfold is_user_vaddr is_kernel_vaddr
    rw [hUS] at hhi
    rw [hKB]
    simp only [Bool.not_eq_true', decide_eq_false_iff_not]
    omega
  have haK : pg_ofs (pg_round_down (rsp - 8)) = 0 := by
    unfold pg_ofs
    rw [pg_round_down_eq_mul]
    exact Nat.mul_mod_right _ _
  rw [stack_fault_unfold s sg rsp write hlo hhi hgrow]
  cases hm_sg : (malloc sg).1 with
  | false =>
    rw [spt_find_page_fail sg sg.spt _ hm_sg]
    exact ⟨_, rfl⟩
  | true =>
    cases hm2 : (malloc (malloc s).2).1 with
    | false =>
      have hsg : sg = (malloc (malloc s).2).2 := by
        unfold vm_stack_growth vm_alloc_page at hgrow
        rw [alloc_absent_fail s _ _ true none none stack_type_ne_uninit
          (by rw [pg_round_down_idem]; exact habs) hm2] at hgrow
        exact (Option.some.inj hgrow).symm
      have hheap : sg.page_heap = s.page_heap := by
        rw [hsg, malloc_page_heap, malloc_page_heap]
      have hspt : sg.spt = s.spt := by rw [hsg, malloc_spt, malloc_spt]
      rw [spt_find_page_absent sg sg.spt (rsp - 8) (by rw [hheap, hspt]; exact habs)]
      exact ⟨_, rfl⟩
    | true =>
      have hsp : s.set_page_plan.head? = some false := by
        rcases hfail with h | h | h
        · rw [hm2] at h; cases h
        · rw [hm_sg] at h; cases h
        · exact h
      have halloc := alloc_absent s (VM_ANON ||| VM_MARKER_0) (pg_round_down (rsp - 8)) true
        none none (Or.inl stack_type_anon) haK huK habs hv hm2
      have hsg : sg = with_new_page s (pending_page (VM_ANON ||| VM_MARKER_0)
          (pg_round_down (rsp - 8)) true none none
          (initializer_of (VM_ANON ||| VM_MARKER_0))) := by
        unfold vm_stack_growth vm_alloc_page at hgrow
        rw [halloc] at hgrow
        exact (Option.some.inj hgrow).symm
      have hget : sg.page_heap[s.page_heap.length]? = some (pending_page
          (VM_ANON ||| VM_MARKER_0) (pg_round_down (rsp - 8)) true none none
          (initializer_of (VM_ANON ||| VM_MARKER_0))) := by
        rw [hsg]
        simp [with_new_page]
      have hspt_sg : sg.spt.hash_table = s.page_heap.length :: s.spt.hash_table := by
        rw [hsg]; rfl
      have hfind : hash_find sg.page_heap sg.spt.hash_table (pg_round_down (rsp - 8))
          = some s.page_heap.length := by
        rw [hspt_sg, hash_find_cons_some _ _ _ _ _ hget]
        simp [pending_page, uninit_new]
      have hfp : spt_find_page sg sg.spt (rsp - 8)
          = (some s.page_heap.length, (malloc sg).2) := by
        rw [spt_find_page_ok sg sg.spt _ hm_sg, hfind]
      rw [hfp] at hf
      simp only at hf
      have hget2 : (malloc sg).2.page_heap[s.page_heap.length]? = some (pending_page
          (VM_ANON ||| VM_MARKER_0) (pg_round_down (rsp - 8)) true none none
          (initializer_of (VM_ANON ||| VM_MARKER_0))) := by
        rw [malloc_page_heap]; exact hget
      have hmiss2 : pml4_lookup (malloc sg).2.pml4 (pending_page (VM_ANON ||| VM_MARKER_0)
          (pg_round_down (rsp - 8)) true none none
          (initializer_of (VM_ANON ||| VM_MARKER_0))).va = none := by
        have e : (malloc sg).2.pml4 = s.pml4 := by rw [malloc_snd, hsg]; rfl
        rw [e]
        show pml4_lookup s.pml4 (pg_round_down (rsp - 8)) = none
        rw [pml4_lookup_same_page s.pml4 (rsp - 8) _ (pg_round_down_idem _)]
        exact hmiss
      have hsp2 : (malloc sg).2.set_page_plan.head? = some false := by
        have e : (malloc sg).2.set_page_plan = s.set_page_plan := by rw [malloc_snd, hsg]; rfl
        rw [e]; exact hsp
      obtain ⟨s5, hclaim⟩ := claim_set_page_fails (malloc sg).2 s4 s.page_heap.length f _
        hf hget2 hmiss2 hsp2
      rw [hfp]
      simp only [hget2]
      rw [if_neg (by rintro ⟨_, h⟩; exact Bool.noConfusion h)]
      exact ⟨s5, hclaim⟩

/-! ## Claims -/

/-- C1 (counterexample). A table that stores page 0 under key `0x1000`, and a failing scratch
`malloc`: `spt_find_page` answers `NULL` although the table has a page under the key. -/
theorem C1_counterexample :
    holds_at [anon_page_at 0x1000 true] [0] (pg_round_down 0x1000) 0 ∧
    (spt_find_page { boot with page_heap := [anon_page_at 0x1000 true], spt := ⟨[0]⟩,
                               malloc_plan := [false] } ⟨[0]⟩ 0x1000).1 = none := by
  refine ⟨⟨by simp, anon_page_at 0x1000 true, by simp, by decide⟩, by decide⟩

/-- C1 (amended). When its scratch `malloc` succeeds, `spt_find_page (spt, va)` returns a page
stored under the key `pg_round_down (va)` when the table has one (the page, when keys are
unique) and `NULL` otherwise; when the `malloc` fails it returns `NULL`.  In both cases any two
addresses inside the same page give the same result, and the table, the page objects and all
other kernel state except the consumed `malloc` outcome are the same after the call. -/
theorem C1_spt_find_page (s : VM) (spt : supplemental_page_table) (va : Nat) :
    ((malloc s).1 = true →
      (∀ p, holds_at s.page_heap spt.hash_table (pg_round_down va) p →
        ∃ q, (spt_find_page s spt va).1 = some q ∧
          holds_at s.page_heap spt.hash_table (pg_round_down va) q ∧
          (unique_keys s.page_heap spt.hash_table → q = p)) ∧
      ((∀ p, ¬ holds_at s.page_heap spt.hash_table (pg_round_down va) p) →
        (spt_find_page s spt va).1 = none)) ∧
    ((malloc s).1 = false → (spt_find_page s spt va).1 = none) ∧
    (∀ va', va' / PGSIZE = va / PGSIZE →
      (spt_find_page s spt va').1 = (spt_find_page s spt va).1) ∧
    (spt_find_page s spt va).2 = { s with malloc_plan := s.malloc_plan.tail } := by
  refine ⟨?_, ?_, ?_, ?_⟩
  · intro hm
    rw [spt_find_page_ok s spt va hm]
    refine ⟨?_, ?_⟩
    · intro p hp
      obtain ⟨q, hq, hh⟩ := hash_find_of_holds _ _ _ p hp
      exact ⟨q, hq, hh, fun hu => hu q p _ hh hp⟩
    · intro hnone
      cases hf : hash_find s.page_heap spt.hash_table (pg_round_down va) with
      | none => rfl
      | some q => exact absurd (hash_find_some _ _ _ q hf) (hnone q)
  · intro hm
    rw [spt_find_page_fail s spt va hm]
  · intro va' hva
    cases hm : (malloc s).1 with
    | false => rw [spt_find_page_fail s spt va hm, spt_find_page_fail s spt va' hm]
    | true =>
      rw [spt_find_page_ok s spt va hm, spt_find_page_ok s spt va' hm,
        pg_round_down_same_page va va' hva]
  · cases hm : (malloc s).1 with
    | false => rw [spt_find_page_fail s spt va hm, malloc_snd]
    | true => rw [spt_find_page_ok s spt va hm, malloc_snd]

/-- C1 (witness). A table with page 0 at `0x1000`, looked up at `0x1234` with a successful
scratch `malloc`: page 0 is returned. -/
theorem C1_spt_find_page_witness :
    (malloc { boot with page_heap := [anon_page_at 0x1000 true] }).1 = true ∧
    holds_at [anon_page_at 0x1000 true] [0] (pg_round_down 0x1234) 0 ∧
    ∃ q, (spt_find_page { boot with page_heap := [anon_page_at 0x1000 true] } ⟨[0]⟩ 0x1234).1
        = some q ∧
      holds_at [anon_page_at 0x1000 true] [0] (pg_round_down 0x1234) q :=
  have hh : holds_at [anon_page_at 0x1000 true] [0] (pg_round_down 0x1234) 0 :=
    ⟨by simp, anon_page_at 0x1000 true, by simp, by decide⟩
  ⟨by decide, hh,
    (((C1_spt_find_page { boot with page_heap := [anon_page_at 0x1000 true] } ⟨[0]⟩ 0x1234).1
      (by decide)).1 0 hh).imp (fun _ h => ⟨h.1, h.2.1⟩)⟩

/-- C2 (counterexample). (a) Pages 0 and 1 both have the unaligned address `0x1008` and the
table holds page 0: inserting page 1 returns true although the table already holds an entry at
that address, and the table is not the old table plus that page (it is unchanged).  (b) The
same with the aligned address `0x1000` when the scratch `malloc` of the lookup fails. -/
theorem C2_counterexample :
    (holds_at [anon_page_at 0x1008 true, anon_page_at 0x1008 true] [0] 0x1008 0 ∧
     is_user_vaddr 0x1008 = true ∧
     (spt_insert_page
        { boot with page_heap := [anon_page_at 0x1008 true, anon_page_at 0x1008 true] }
        ⟨[0]⟩ 1).map (fun r => (r.1, r.2.1)) = some (true, ⟨[0]⟩)) ∧
    (holds_at [anon_page_at 0x1000 true, anon_page_at 0x1000 true] [0] 0x1000 0 ∧
     (spt_insert_page
        { boot with page_heap := [anon_page_at 0x1000 true, anon_page_at 0x1000 true],
                    malloc_plan := [false] }
        ⟨[0]⟩ 1).map (fun r => (r.1, r.2.1)) = some (true, ⟨[0]⟩)) := by
  refine ⟨⟨⟨by simp, anon_page_at 0x1008 true, by simp, by decide⟩, by decide, by decide⟩,
    ⟨by simp, anon_page_at 0x1000 true, by simp, by decide⟩, by decide⟩

/-- C2 (amended). For a page whose `va` is page-aligned, and when the scratch `malloc` of the
lookup succeeds, `spt_insert_page (spt, page)` returns false exactly when `page.va` is not a
user-space address or the table already holds an entry at that address; whenever it returns
false the table is unchanged, and whenever it returns true the table is the old table plus
exactly that one page. -/
theorem C2_spt_insert_page (s : VM) (spt : supplemental_page_table) (p : Nat) (pg : page)
    (hp : s.page_heap[p]? = some pg) (ha : pg_ofs pg.va = 0) (hm : (malloc s).1 = true) :
    ∃ succ spt1 s1, spt_insert_page s spt p = some (succ, spt1, s1) ∧
      (succ = false ↔
        (is_user_vaddr pg.va = false ∨ ∃ q, holds_at s.page_heap spt.hash_table pg.va q)) ∧
      (succ = false → spt1 = spt) ∧
      (succ = true → spt1.hash_table = p :: spt.hash_table) ∧
      s1.page_heap = s.page_heap := by
  have h2 : (malloc s).2.page_heap = s.page_heap := by rw [malloc_snd]
  cases hu : is_user_vaddr pg.va with
  | true =>
    simp only [spt_insert_page, hp, hu, if_true]
    rw [spt_find_page_ok s spt pg.va hm, pg_round_down_of_aligned pg.va ha]
    cases hf : hash_find s.page_heap spt.hash_table pg.va with
    | none =>
      refine ⟨true, _, _, rfl, ⟨fun h => Bool.noConfusion h, ?_⟩, fun h => Bool.noConfusion h,
        ?_, h2⟩
      · rintro (h | ⟨q, hq⟩)
        · exact h
        · exact absurd hq (hash_find_none _ _ _ hf q)
      · intro _
        simp [hash_insert, h2, hp, hf]
    | some q =>
      exact ⟨false, _, _, rfl, ⟨fun _ => Or.inr ⟨q, hash_find_some _ _ _ q hf⟩, fun _ => rfl⟩,
        fun _ => rfl, fun h => Bool.noConfusion h, h2⟩
  | false =>
    simp only [spt_insert_page, hp, hu]
    exact ⟨false, _, _, rfl, ⟨fun _ => Or.inl (by simp), fun _ => rfl⟩, fun _ => rfl,
      fun h => Bool.noConfusion h, rfl⟩

/-- C2 (witness). Inserting an aligned user page at `0x2000` into a table holding `0x1000`. -/
theorem C2_spt_insert_page_witness :
    ∃ succ spt1 s1,
      spt_insert_page { boot with page_heap := [anon_page_at 0x1000 true, anon_page_at 0x2000 true] }
        ⟨[0]⟩ 1 = some (succ, spt1, s1) ∧
      (succ = false ↔ (is_user_vaddr (anon_page_at 0x2000 true).va = false ∨
        ∃ q, holds_at [anon_page_at 0x1000 true, anon_page_at 0x2000 true] [0]
          (anon_page_at 0x2000 true).va q)) ∧
      (succ = false → spt1 = ⟨[0]⟩) ∧
      (succ = true → spt1.hash_table = 1 :: [0]) ∧
      s1.page_heap = [anon_page_at 0x1000 true, anon_page_at 0x2000 true] :=
  C2_spt_insert_page { boot with page_heap := [anon_page_at 0x1000 true, anon_page_at 0x2000 true] }
    ⟨[0]⟩ 1 (anon_page_at 0x2000 true) (by decide) (by decide) (by decide)

/-- C3 (counterexample). (a) Inserting a page whose address `0x1008` is not page-aligned into
the empty table returns true, and the following `spt_find_page (spt, 0x1008)` returns `NULL`.
(b) After the successful insert of an aligned page at `0x2000`, a find whose scratch `malloc`
fails returns `NULL`.  (c) With page 0 at `0x1000` in the table and the scratch `malloc` of the
insert failing, the insert of page 1 (also at `0x1000`) returns true and the following find
returns page 0, not page 1. -/
theorem C3_counterexample :
    ((spt_insert_page { boot with page_heap := [anon_page_at 0x1008 true] } ⟨[]⟩ 0).map
        (fun r => (r.1, r.2.1)) = some (true, ⟨[0]⟩) ∧
     (spt_find_page { boot with page_heap := [anon_page_at 0x1008 true] } ⟨[0]⟩ 0x1008).1
        = none) ∧
    ((spt_insert_page { boot with page_heap := [anon_page_at 0x2000 true] } ⟨[]⟩ 0).map
        (fun r => (r.1, r.2.1)) = some (true, ⟨[0]⟩) ∧
     (spt_find_page { boot with page_heap := [anon_page_at 0x2000 true], malloc_plan := [false] }
        ⟨[0]⟩ 0x2000).1 = none) ∧
    (spt_insert_page
        { boot with page_heap := [anon_page_at 0x1000 true, anon_page_at 0x1000 true],
                    malloc_plan := [false] } ⟨[0]⟩ 1
      = some (true, ⟨[0]⟩,
          { boot with page_heap := [anon_page_at 0x1000 true, anon_page_at 0x1000 true] }) ∧
     (spt_find_page
        { boot with page_heap := [anon_page_at 0x1000 true, anon_page_at 0x1000 true] }
        ⟨[0]⟩ 0x1000).1 = some 0) := by
  refine ⟨⟨by decide, by decide⟩, ⟨by decide, by decide⟩, by decide, by decide⟩

/-- C3 (amended). Insert followed by find is a round trip for page-aligned addresses: for every
page with a page-aligned `va` for which `spt_insert_page (spt, page)` returns true, a
following `spt_find_page (spt, page.va)` returns that same page, provided the scratch `malloc`
of both lookups succeeds. -/
theorem C3_insert_then_find (s s1 : VM) (spt spt1 : supplemental_page_table) (p : Nat) (pg : page)
    (hp : s.page_heap[p]? = some pg) (ha : pg_ofs pg.va = 0)
    (hm : (malloc s).1 = true) (hm1 : (malloc s1).1 = true)
    (hins : spt_insert_page s spt p = some (true, spt1, s1)) :
    (spt_find_page s1 spt1 pg.va).1 = some p := by
  unfold spt_insert_page at hins
  rw [hp] at hins
  by_cases hu : is_user_vaddr pg.va = true
  · simp only [hu, if_true] at hins
    rw [spt_find_page_ok s spt pg.va hm, pg_round_down_of_aligned pg.va ha] at hins
    have h2 : (malloc s).2.page_heap = s.page_heap := by rw [malloc_snd]
    cases hf : hash_find s.page_heap spt.hash_table pg.va with
    | none =>
      rw [hf] at hins
      simp at hins
      obtain ⟨h1, h3⟩ := hins
      rw [spt_find_page_ok s1 spt1 pg.va hm1, pg_round_down_of_aligned pg.va ha]
      subst h1
      rw [← h3] 
      simp [hash_insert, h2, hp, hf, hash_find]
    | some q =>
      rw [hf] at hins
      simp at hins
  · simp only [hu] at hins
    simp at hins

/-- C3 (witness). Insert of an aligned page at `0x2000`, then find at `0x2000`. -/
theorem C3_insert_then_find_witness :
    spt_insert_page { boot with page_heap := [anon_page_at 0x2000 true] } ⟨[]⟩ 0
      = some (true, ⟨[0]⟩, { boot with page_heap := [anon_page_at 0x2000 true] }) ∧
    (spt_find_page { boot with page_heap := [anon_page_at 0x2000 true] } ⟨[0]⟩
      (anon_page_at 0x2000 true).va).1 = some 0 :=
  ⟨by decide,
   C3_insert_then_find { boot with page_heap := [anon_page_at 0x2000 true] }
    { boot with page_heap := [anon_page_at 0x2000 true] } ⟨[]⟩ ⟨[0]⟩ 0 (anon_page_at 0x2000 true)
    (by decide) (by decide) (by decide) (by decide) (by decide)⟩

/-- C4 (counterexample). On the empty machine, with the `malloc` of the page object failing,
`vm_alloc_page_with_initializer (VM_ANON, 0x1000, ...)` returns false and the table stays
empty, although `0x1000` is a page-aligned user address with no page in the SPT. -/
theorem C4_counterexample :
    pg_ofs 0x1000 = 0 ∧ is_user_vaddr 0x1000 = true ∧
    (vm_alloc_page_with_initializer { boot with malloc_plan := [true, false] }
        VM_ANON 0x1000 true none none).map (fun r => (r.1, r.2.spt)) = some (false, ⟨[]⟩) := by
  refine ⟨by decide, by decide, by decide⟩

/-- C4 (amended). For every page-aligned user address `va` that has no page in the current SPT
and every type whose base type is anonymous or file-backed: provided the `malloc` of the page
object succeeds, `vm_alloc_page_with_initializer (type, va, writable, init, aux)` returns true,
and afterwards looking `va` up yields a page in the Uninitialized state that records exactly
the given `init`, `aux` and `type`, carries the given writable flag and has no frame bound;
every other entry of the SPT is unchanged.  When that `malloc` fails the call returns false
and adds nothing: the SPT and the page objects are as before. -/
theorem C4_alloc_deferred (s : VM) (type va : Nat) (writable : Bool)
    (init : Option vm_initializer) (aux : Option lazy_load_arg)
    (ht : VM_TYPE type = VM_ANON ∨ VM_TYPE type = VM_FILE)
    (ha : pg_ofs va = 0) (hu : is_user_vaddr va = true)
    (habs : ∀ q, ¬ holds_at s.page_heap s.spt.hash_table va q)
    (hv : spt_pointers_valid s) :
    ((malloc (malloc s).2).1 = true →
      ∃ s1, vm_alloc_page_with_initializer s type va writable init aux = some (true, s1) ∧
        hash_find s1.page_heap s1.spt.hash_table (pg_round_down va) = some s.page_heap.length ∧
        ((malloc s1).1 = true → (spt_find_page s1 s1.spt va).1 = some s.page_heap.length) ∧
        (∃ pg, s1.page_heap[s.page_heap.length]? = some pg ∧ pg.va = va ∧
          pg.operations = .uninit_ops ∧ pg.uninit.init = init ∧ pg.uninit.aux = aux ∧
          pg.uninit.type = type ∧ pg.writable = writable ∧ pg.frame = none) ∧
        s1.spt.hash_table = s.page_heap.length :: s.spt.hash_table ∧
        (∀ q, q < s.page_heap.length → s1.page_heap[q]? = s.page_heap[q]?) ∧
        (∀ key, key ≠ va →
          hash_find s1.page_heap s1.spt.hash_table key
            = hash_find s.page_heap s.spt.hash_table key) ∧
        s1.frame_heap = s.frame_heap ∧ s1.frame_table = s.frame_table ∧ s1.pml4 = s.pml4) ∧
    ((malloc (malloc s).2).1 = false →
      ∃ s1, vm_alloc_page_with_initializer s type va writable init aux = some (false, s1) ∧
        s1.spt = s.spt ∧ s1.page_heap = s.page_heap ∧ s1.frame_heap = s.frame_heap ∧
        s1.frame_table = s.frame_table ∧ s1.pml4 = s.pml4) := by
  refine ⟨fun hm => ?_, fun hm => ?_⟩
  · refine ⟨_, alloc_absent s type va writable init aux ht ha hu habs hv hm, ?_⟩
    have hget : (s.page_heap ++ [pending_page type va writable init aux (initializer_of type)])[
        s.page_heap.length]? = some (pending_page type va writable init aux (initializer_of type)) := by
      simp
    have hfind : hash_find (with_new_page s (pending_page type va writable init aux
        (initializer_of type))).page_heap (with_new_page s (pending_page type va writable init aux
        (initializer_of type))).spt.hash_table (pg_round_down va) = some s.page_heap.length := by
      rw [pg_round_down_of_aligned va ha]
      show hash_find (s.page_heap ++ [_]) (s.page_heap.length :: s.spt.hash_table) va = _
      rw [hash_find_cons_some _ _ _ _ _ hget]
      simp [pending_page, uninit_new]
    refine ⟨hfind, ?_, ⟨_, hget, rfl, rfl, rfl, rfl, rfl, rfl, rfl⟩, rfl, ?_, ?_, rfl, rfl, rfl⟩
    · intro hm1
      rw [spt_find_page_ok _ _ va hm1]
      exact hfind
    · intro q hq
      exact getElem?_append_one_lt _ _ q hq
    · intro key hk
      show hash_find (s.page_heap ++ [_]) (s.page_heap.length :: s.spt.hash_table) key = _
      rw [hash_find_cons_some _ _ _ _ _ hget]
      have hne : ¬ (pending_page type va writable init aux (initializer_of type)).va = key := by
        intro h; exact hk h.symm
      rw [if_neg hne]
      exact hash_find_append _ _ _ _ hv
  · refine ⟨_, alloc_absent_fail s type va writable init aux (VM_TYPE_ne_uninit type ht)
      (by rw [pg_round_down_of_aligned va ha]; exact habs) hm, ?_, ?_, ?_, ?_, ?_⟩
    · rw [malloc_spt, malloc_spt]
    · rw [malloc_page_heap, malloc_page_heap]
    · rw [malloc_snd, malloc_snd]
    · rw [malloc_snd, malloc_snd]
    · rw [malloc_snd, malloc_snd]

/-- C4 (witness). A file-backed page at `0x2000` added to a table already holding `0x1000`. -/
theorem C4_alloc_deferred_witness :
    ∃ s1, vm_alloc_page_with_initializer
        { boot with page_heap := [anon_page_at 0x1000 true], spt := ⟨[0]⟩ }
        VM_FILE 0x2000 false (some .lazy_load_segment) (some ⟨0, 0, 3, 4093⟩) = some (true, s1) ∧
      hash_find s1.page_heap s1.spt.hash_table (pg_round_down 0x2000) = some 1 :=
  ((C4_alloc_deferred { boot with page_heap := [anon_page_at 0x1000 true], spt := ⟨[0]⟩ }
    VM_FILE 0x2000 false (some .lazy_load_segment) (some ⟨0, 0, 3, 4093⟩)
    (Or.inr rfl) (by decide) (by decide)
    (by
      rintro q ⟨hq, pg, hpg, hva⟩
      have h0 : q = 0 := by simpa using hq
      subst h0
      have h1 : pg = anon_page_at 0x1000 true := by simpa using hpg.symm
      subst h1
      exact absurd hva (by decide))
    (by intro q hq; have h0 : q = 0 := by simpa using hq
        subst h0; decide)).1 (by decide)).imp (fun _ h => ⟨h.1, h.2.1⟩)

/-- C5 (counterexample). With a page at `0x1000` in the SPT: (a) a call with type `VM_UNINIT`
does not return false, the `ASSERT` stops the kernel; (b) when both scratch `malloc`s of the
lookups fail the call returns true.  (c) When the `malloc` of the page fails in the first
`vm_stack_growth` and not in the second, growing twice leaves a page where growing once left
none. -/
theorem C5_counterexample :
    holds_at [anon_page_at 0x1000 true] [0] (pg_round_down 0x1000) 0 ∧
    vm_alloc_page_with_initializer
      { boot with page_heap := [anon_page_at 0x1000 true], spt := ⟨[0]⟩ }
      VM_UNINIT 0x1000 true none none = none ∧
    (vm_alloc_page_with_initializer
      { boot with page_heap := [anon_page_at 0x1000 true], spt := ⟨[0]⟩,
                  malloc_plan := [false, true, false] }
      VM_ANON 0x1000 true none none).map (fun r => r.1) = some true ∧
    (vm_stack_growth { boot with malloc_plan := [true, false] } 0x1000).map (fun r => r.spt)
      = some ⟨[]⟩ ∧
    ((vm_stack_growth { boot with malloc_plan := [true, false] } 0x1000).bind
      (fun r => vm_stack_growth r 0x1000)).map (fun r => r.spt) = some ⟨[0]⟩ := by
  refine ⟨⟨by simp, anon_page_at 0x1000 true, by simp, by decide⟩, by decide, by decide,
    by decide, by decide⟩

/-- C5 (amended). When the current SPT already holds a page for the page containing `upage`:
for a type whose base type is not `VM_UNINIT`, and when the scratch `malloc` of the lookup
succeeds, `vm_alloc_page_with_initializer` returns false and leaves the SPT (and the rest of
the state) unchanged; and `vm_stack_growth` on such an address returns with the SPT unchanged,
whatever `malloc` does.  When the `malloc` of the page object does not fail in the first
growth, growing the stack twice at the same address yields the same SPT as growing it once
(the table being well formed: its entries point to allocated page objects). -/
theorem C5_alloc_when_present (s : VM) (upage : Nat) :
    ((∃ q, holds_at s.page_heap s.spt.hash_table (pg_round_down upage) q) →
      (∀ type writable init aux, VM_TYPE type ≠ VM_UNINIT → (malloc s).1 = true →
        vm_alloc_page_with_initializer s type upage writable init aux
          = some (false, { s with malloc_plan := s.malloc_plan.tail })) ∧
      (∃ s1, vm_stack_growth s upage = some s1 ∧ s1.spt = s.spt ∧
        ((malloc s).1 = true → s1 = { s with malloc_plan := s.malloc_plan.tail }))) ∧
    ((malloc (malloc s).2).1 = true → spt_pointers_valid s →
      ∃ s1 s2, vm_stack_growth s upage = some s1 ∧ vm_stack_growth s1 upage = some s2 ∧
        s2.spt = s1.spt) := by
  have hgrow_present : ∀ t : VM, (malloc t).1 = true →
      (∃ q, holds_at t.page_heap t.spt.hash_table (pg_round_down upage) q) →
      vm_stack_growth t upage = some (malloc t).2 := by
    intro t hm hp
    unfold vm_stack_growth vm_alloc_page
    rw [alloc_present t _ (pg_round_down upage) true none none stack_type_ne_uninit hm
      (by rw [pg_round_down_idem]; exact hp)]
  refine ⟨?_, ?_⟩
  · intro hp
    refine ⟨?_, ?_⟩
    · intro type writable init aux hne hm
      rw [alloc_present s type upage writable init aux hne hm hp, malloc_snd]
    · obtain ⟨s1, h1, h2, _⟩ := growth_spt_same s upage (Or.inl hp)
      refine ⟨s1, h1, h2, ?_⟩
      intro hm
      rw [hgrow_present s hm hp] at h1
      rw [← malloc_snd]
      exact (Option.some.inj h1).symm
  · intro hm2 hv
    by_cases hp : ∃ q, holds_at s.page_heap s.spt.hash_table (pg_round_down upage) q
    · obtain ⟨s1, h1, hs1, hx1⟩ := growth_spt_same s upage (Or.inl hp)
      obtain ⟨q, hq, x, hxq, hva⟩ := hp
      obtain ⟨s2, h2, h3, _⟩ := growth_spt_same s1 upage
        (Or.inl ⟨q, by rw [hs1]; exact hq, x, hx1 q x hxq, hva⟩)
      exact ⟨s1, s2, h1, h2, h3⟩
    · cases hu : is_user_vaddr (pg_round_down upage) with
      | false =>
        obtain ⟨s1, h1, _, _⟩ := growth_spt_same s upage (Or.inr hu)
        obtain ⟨s2, h2, h3, _⟩ := growth_spt_same s1 upage (Or.inr hu)
        exact ⟨s1, s2, h1, h2, h3⟩
      | true =>
        have ha : pg_ofs (pg_round_down upage) = 0 := by
          unfold pg_ofs
          rw [pg_round_down_eq_mul]
          exact Nat.mul_mod_right _ _
        have h1 := alloc_absent s (VM_ANON ||| VM_MARKER_0) (pg_round_down upage) true none none
          (Or.inl stack_type_anon) ha hu (fun q hq => hp ⟨q, hq⟩) hv hm2
        have hg : vm_stack_growth s upage = some (with_new_page s
            (pending_page (VM_ANON ||| VM_MARKER_0) (pg_round_down upage) true none none
              (initializer_of (VM_ANON ||| VM_MARKER_0)))) := by
          unfold vm_stack_growth vm_alloc_page
          rw [h1]
        obtain ⟨s2, h2, h3, _⟩ := growth_spt_same (with_new_page s
            (pending_page (VM_ANON ||| VM_MARKER_0) (pg_round_down upage) true none none
              (initializer_of (VM_ANON ||| VM_MARKER_0)))) upage
          (Or.inl ⟨s.page_heap.length, List.mem_cons_self _ _,
            pending_page (VM_ANON ||| VM_MARKER_0) (pg_round_down upage) true none none
              (initializer_of (VM_ANON ||| VM_MARKER_0)),
            by simp [with_new_page], rfl⟩)
        exact ⟨_, s2, hg, h2, h3⟩

/-- C5 (witness). The page at `0x1000` is present; a stack-growth at `0x1234` changes nothing,
and growing twice on the empty machine ends with the same SPT as growing once. -/
theorem C5_alloc_when_present_witness :
    (∃ s1, vm_stack_growth { boot with page_heap := [anon_page_at 0x1000 true], spt := ⟨[0]⟩ }
        0x1234 = some s1 ∧
      s1.spt = ⟨[0]⟩) ∧
    (∃ s1 s2, vm_stack_growth boot 0x1234 = some s1 ∧ vm_stack_growth s1 0x1234 = some s2 ∧
      s2.spt = s1.spt) :=
  ⟨(((C5_alloc_when_present { boot with page_heap := [anon_page_at 0x1000 true], spt := ⟨[0]⟩ }
      0x1234).1 ⟨0, by simp, anon_page_at 0x1000 true, by simp, by decide⟩).2).imp
      (fun _ h => ⟨h.1, h.2.1⟩),
   (C5_alloc_when_present boot 0x1234).2 (by decide)
      (by intro q hq; simp [boot] at hq)⟩

/-- C6 (failing input). A file-backed page is allocated at `0x1000` and claimed twice.  After
the second `vm_claim_page` (which returns true) the page in the SPT is bound to frame 1, whose
`kva` is the second user page, while the translation table still maps `0x1000` to the first
user page, the `kva` of frame 0. -/
theorem C6_double_claim_diverges :
    ((vm_alloc_page_with_initializer boot VM_FILE 0x1000 true (some .lazy_load_segment)
        (some ⟨0, 0, 3, 4093⟩)).bind
      (fun r => (vm_claim_page r.2 0x1000).bind
        (fun r => vm_claim_page r.2 0x1000))).map
      (fun r => (r.1, r.2.spt.hash_table, r.2.page_heap.map (fun pg => (pg.va, pg.frame)),
        r.2.frame_heap, pml4_get_page r.2.pml4 0x1000))
    = some (true, [0], [(0x1000, some 1)],
        [⟨0x8004100000, some 0⟩, ⟨0x8004101000, some 0⟩], 0x8004100000) := by
  rfl

/-- C7 (failing input). One free user page; file-backed pages are allocated at `0x1000` and
`0x2000` and claimed in that order.  The second claim finds the pool exhausted and evicts
frame 0; afterwards both pages of the SPT are bound to frame 0. -/
theorem C7_eviction_double_binds :
    ((vm_alloc_page_with_initializer { boot with user_pool := [0x8004100000] } VM_FILE 0x1000 true
        (some .lazy_load_segment) (some ⟨0, 0, 3, 4093⟩)).bind
      (fun r => (vm_alloc_page_with_initializer r.2 VM_FILE 0x2000 true
          (some .lazy_load_segment) (some ⟨0, 0, 3, 4093⟩)).bind
        (fun r => (vm_claim_page r.2 0x1000).bind
          (fun r => vm_claim_page r.2 0x2000)))).map
      (fun r => (r.1, r.2.spt.hash_table, r.2.page_heap.map (fun pg => (pg.va, pg.frame)),
        r.2.frame_table))
    = some (true, [1, 0], [(0x1000, some 0), (0x2000, some 0)], [0]) := by
  rfl

/-- C8. `vm_try_handle_fault` returns false and leaves the whole state (the SPT, the frame
table and the translation table included) exactly as it was whenever the faulting address is
null, lies in kernel address space, or `not_present` is false. -/
theorem C8_fault_rejected (s : VM) (f_rsp addr : Nat) (user write not_present : Bool)
    (h : addr = 0 ∨ is_kernel_vaddr addr = true ∨ not_present = false) :
    vm_try_handle_fault s f_rsp addr user write not_present = some (false, s) := by
  unfold vm_try_handle_fault
  by_cases h0 : addr = 0
  · rw [if_pos h0]
  · rw [if_neg h0]
    by_cases hk : is_kernel_vaddr addr = true
    · rw [if_pos hk]
    · rw [if_neg hk]
      rcases h with h | h | h
      · exact absurd h h0
      · exact absurd h hk
      · subst h
        simp

/-- C8 (witness). A write fault at a kernel address on the empty machine. -/
theorem C8_fault_rejected_witness :
    is_kernel_vaddr 0x8004000010 = true ∧
    vm_try_handle_fault boot USER_STACK 0x8004000010 true true true = some (false, boot) :=
  ⟨by decide, C8_fault_rejected boot USER_STACK 0x8004000010 true true true (Or.inr (Or.inl (by decide)))⟩

/-- C9 (counterexample). The SPT holds a writable page at `0x1000`; a read fault there, outside
the stack window, whose lookup cannot `malloc` its scratch page returns false, whereas
`vm_do_claim_page` on that page returns true. -/
theorem C9_counterexample :
    holds_at [anon_page_at 0x1000 true] [0] (pg_round_down 0x1000) 0 ∧
    stack_growth_cond USER_STACK 0x1000 = false ∧
    (vm_try_handle_fault
      { boot with page_heap := [anon_page_at 0x1000 true], spt := ⟨[0]⟩, malloc_plan := [false] }
      USER_STACK 0x1000 true false true).map (fun r => (r.1, r.2.frame_table, r.2.pml4))
      = some (false, [], []) ∧
    (vm_do_claim_page
      { boot with page_heap := [anon_page_at 0x1000 true], spt := ⟨[0]⟩ } 0).map (fun r => r.1)
      = some true := by
  refine ⟨⟨by simp, anon_page_at 0x1000 true, by simp, by decide⟩, by decide, by decide, by decide⟩

/-- C9 (amended). For every non-null user address with `not_present` true that does not qualify
for stack growth, `vm_try_handle_fault` returns false, without acquiring a frame or installing
a mapping, when `spt_find_page` yields no page (the SPT has no page for the address, or the
scratch `malloc` of the lookup fails) or when the access is a write and the page is not
writable; in every other case its result and its effect on the state are exactly those of
`vm_do_claim_page` on the page found. -/
theorem C9_fault_lookup_then_claim (s : VM) (f_rsp addr : Nat) (user write : Bool)
    (h0 : addr ≠ 0) (hk : is_kernel_vaddr addr = false)
    (hg : stack_growth_cond (if (!user) = true then s.stack_rsp else f_rsp) addr = false) :
    (((malloc s).1 = false ∨
        ∀ q, ¬ holds_at s.page_heap s.spt.hash_table (pg_round_down addr) q) →
      vm_try_handle_fault s f_rsp addr user write true
        = some (false, { s with malloc_plan := s.malloc_plan.tail })) ∧
    (∀ p, (spt_find_page s s.spt addr).1 = some p →
      ∃ pg, s.page_heap[p]? = some pg ∧ holds_at s.page_heap s.spt.hash_table (pg_round_down addr) p ∧
        ((write = true ∧ pg.writable = false) →
          vm_try_handle_fault s f_rsp addr user write true
            = some (false, { s with malloc_plan := s.malloc_plan.tail })) ∧
        (¬ (write = true ∧ pg.writable = false) →
          vm_try_handle_fault s f_rsp addr user write true
            = vm_do_claim_page { s with malloc_plan := s.malloc_plan.tail } p)) := by
  have hk' : ¬ is_kernel_vaddr addr = true := by rw [hk]; exact Bool.noConfusion
  have hunf : vm_try_handle_fault s f_rsp addr user write true =
      (match spt_find_page s s.spt addr with
       | (none, s2) => some (false, s2)
       | (some p, s2) =>
         match s2.page_heap[p]? with
         | none => none
         | some pg =>
           if write = true ∧ pg.writable = false then some (false, s2)
           else vm_do_claim_page s2 p) := by
    unfold vm_try_handle_fault
    rw [if_neg h0, if_neg hk', if_pos rfl]
    simp only [hg]
    rfl
  refine ⟨?_, ?_⟩
  · rintro (hm | habs)
    · rw [hunf, spt_find_page_fail s s.spt addr hm, malloc_snd]
    · rw [hunf, spt_find_page_absent s s.spt addr habs, malloc_snd]
  · intro p hp
    have hm : (malloc s).1 = true := by
      cases hm : (malloc s).1 with
      | true => rfl
      | false => rw [spt_find_page_fail s s.spt addr hm] at hp; cases hp
    rw [spt_find_page_ok s s.spt addr hm] at hp
    simp only at hp
    have hh := hash_find_some _ _ _ p hp
    obtain ⟨_, pg, hpg, _⟩ := hh
    refine ⟨pg, hpg, hash_find_some _ _ _ p hp, ?_, ?_⟩
    · intro hw
      rw [hunf, spt_find_page_ok s s.spt addr hm, hp]
      simp only [malloc_page_heap, hpg]
      rw [if_pos hw, malloc_snd]
    · intro hw
      rw [hunf, spt_find_page_ok s s.spt addr hm, hp]
      simp only [malloc_page_heap, hpg]
      rw [if_neg hw, malloc_snd]

/-- C9 (witness). A write fault on a read-only page at `0x1000` is refused; a read fault on it
is the claim of that page. -/
theorem C9_fault_lookup_then_claim_witness :
    (spt_find_page { boot with page_heap := [anon_page_at 0x1000 false], spt := ⟨[0]⟩ } ⟨[0]⟩
      0x1000).1 = some 0 ∧
    ∃ pg, [anon_page_at 0x1000 false][0]? = some pg ∧
      holds_at [anon_page_at 0x1000 false] [0] (pg_round_down 0x1000) 0 ∧
      ((true = true ∧ pg.writable = false) →
        vm_try_handle_fault { boot with page_heap := [anon_page_at 0x1000 false], spt := ⟨[0]⟩ }
          USER_STACK 0x1000 true true true
          = some (false, { boot with page_heap := [anon_page_at 0x1000 false], spt := ⟨[0]⟩ })) :=
  ⟨by decide,
   ((C9_fault_lookup_then_claim
      { boot with page_heap := [anon_page_at 0x1000 false], spt := ⟨[0]⟩ }
      USER_STACK 0x1000 true true (by decide) (by decide) (by decide)).2 0 (by decide)).imp
      (fun _ h => ⟨h.1, h.2.1, h.2.2.1⟩)⟩

/-- C10 (counterexample). On the empty machine (two free user pages, so a frame is obtainable)
a user-mode write fault at `USER_STACK - 8` with `rsp = USER_STACK` returns false (a) when
`pml4_set_page` fails: the page object is freed, stays chained in the SPT and is not mapped;
(b) when the `malloc` of the page object fails: no page is added; (c) when the scratch `malloc`
of the handler's lookup fails: the page is added but not claimed. -/
theorem C10_counterexample :
    USER_STACK - 2 ^ 20 ≤ USER_STACK - 8 ∧ USER_STACK - 8 < USER_STACK ∧
    (vm_get_frame boot).map (fun r => r.1) = some (some 0) ∧
    (vm_try_handle_fault { boot with set_page_plan := [false] } USER_STACK (USER_STACK - 8)
        true true true).map
      (fun r => (r.1, r.2.spt.hash_table, r.2.freed_pages, pml4_get_page r.2.pml4 (USER_STACK - 8)))
      = some (false, [0], [0], 0) ∧
    (vm_try_handle_fault { boot with malloc_plan := [true, false] } USER_STACK (USER_STACK - 8)
        true true true).map (fun r => (r.1, r.2.spt.hash_table)) = some (false, []) ∧
    (vm_try_handle_fault { boot with malloc_plan := [true, true, true, false] } USER_STACK
        (USER_STACK - 8) true true true).map
      (fun r => (r.1, r.2.spt.hash_table, r.2.page_heap.map (fun pg => pg.frame)))
      = some (false, [0], [none]) := by
  refine ⟨by decide, by decide, by rfl, by rfl, by rfl, by rfl⟩

/-- The stack-growth fault succeeds when the `malloc` of the page object, the scratch `malloc`
of the handler's lookup and `pml4_set_page` succeed and a frame is obtainable. -/
theorem stack_fault_succeeds (s sg s4 : VM) (rsp f : Nat) (write : Bool)
    (hlo : USER_STACK - 2 ^ 20 ≤ rsp - 8) (hhi : rsp - 8 < USER_STACK)
    (habs : ∀ q, ¬ holds_at s.page_heap s.spt.hash_table (pg_round_down (rsp - 8)) q)
    (hmiss : pml4_lookup s.pml4 (rsp - 8) = none)
    (hv : spt_pointers_valid s)
    (hm2 : (malloc (malloc s).2).1 = true)
    (hsp : s.set_page_plan.head? ≠ some false)
    (hgrow : vm_stack_growth s (rsp - 8) = some sg)
    (hm_sg : (malloc sg).1 = true)
    (hf : vm_get_frame (spt_find_page sg sg.spt (rsp - 8)).2 = some (some f, s4)) :
    ∃ s1, vm_try_handle_fault s rsp (rsp - 8) true write true = some (true, s1) ∧
      hash_find s1.page_heap s1.spt.hash_table (pg_round_down (rsp - 8))
        = some s.page_heap.length ∧
      ∃ pg fr, s1.page_heap[s.page_heap.length]? = some pg ∧
        pg.va = pg_round_down (rsp - 8) ∧ pg.writable = true ∧
        pg.operations = .anon_ops ∧ page_get_type pg = VM_ANON ∧
        pg.frame = some f ∧ s1.frame_heap[f]? = some fr ∧ fr.page = some s.page_heap.length ∧
        pml4_lookup s1.pml4 (rsp - 8) = some ⟨fr.kva, true, false, false⟩ := by
  have hUS : USER_STACK = 0x47480000 := rfl
  have hKB : KERN_BASE = 0x8004000000 := rfl
  have h8 : 8 ≤ rsp := by rw [hUS] at hlo; omega
  have haddr0 : rsp - 8 ≠ 0 := by rw [hUS] at hlo; omega
  have hK : pg_round_down (rsp - 8) ≤ rsp - 8 := by unfold pg_round_down; omega
  have hkern : ¬ is_kernel_vaddr (rsp - 8) = true := by
    unfold is_kernel_vaddr
    rw [hUS] at hhi
    rw [hKB]
    simp only [decide_eq_true_eq]
    omega
  have huK : is_user_vaddr (pg_round_down (rsp - 8)) = true := by
    unfold is_user_vaddr is_kernel_vaddr
    rw [hUS] at hhi
    rw [hKB]
    simp only [Bool.not_eq_true', decide_eq_false_iff_not]
    omega
  have haK : pg_ofs (pg_round_down (rsp - 8)) = 0 := by
    unfold pg_ofs
    rw [pg_round_down_eq_mul]
    exact Nat.mul_mod_right _ _
  have hps : ptr_sub rsp 8 = rsp - 8 := by
    unfold ptr_sub PTR_MOD
    rw [hUS] at hhi
    norm_num
    omega
  have hcond : stack_growth_cond rsp (rsp - 8) = true := by
    unfold stack_growth_cond
    rw [hps]
    have h1 : USER_STACK - (1 <<< 20) ≤ rsp - 8 := by
      have : (1 <<< 20 : Nat) = 2 ^ 20 := by decide
      rw [this]; exact hlo
    simp only [h1, le_refl, Nat.le_of_lt hhi, decide_True, Bool.and_self]
  -- the stack growth allocates the page
  have halloc := alloc_absent s (VM_ANON ||| VM_MARKER_0) (pg_round_down (rsp - 8)) true none none
    (Or.inl stack_type_anon) haK huK habs hv hm2
  have hsg : sg = with_new_page s (pending_page (VM_ANON ||| VM_MARKER_0)
      (pg_round_down (rsp - 8)) true none none (initializer_of (VM_ANON ||| VM_MARKER_0))) := by
    unfold vm_stack_growth vm_alloc_page at hgrow
    rw [halloc] at hgrow
    exact (Option.some.inj hgrow).symm
  have hget : sg.page_heap[s.page_heap.length]? = some (pending_page (VM_ANON ||| VM_MARKER_0)
      (pg_round_down (rsp - 8)) true none none (initializer_of (VM_ANON ||| VM_MARKER_0))) := by
    rw [hsg]
    simp [with_new_page]
  have hspt_sg : sg.spt.hash_table = s.page_heap.length :: s.spt.hash_table := by
    rw [hsg]; rfl
  have hfind : hash_find sg.page_heap sg.spt.hash_table (pg_round_down (rsp - 8))
      = some s.page_heap.length := by
    rw [hspt_sg, hash_find_cons_some _ _ _ _ _ hget]
    simp [pending_page, uninit_new]
  have hfp : spt_find_page sg sg.spt (rsp - 8) = (some s.page_heap.length, (malloc sg).2) := by
    rw [spt_find_page_ok sg sg.spt _ hm_sg, hfind]
  rw [hfp] at hf
  simp only at hf
  have hget2 : (malloc sg).2.page_heap[s.page_heap.length]? = some (pending_page
      (VM_ANON ||| VM_MARKER_0) (pg_round_down (rsp - 8)) true none none
      (initializer_of (VM_ANON ||| VM_MARKER_0))) := by
    rw [malloc_page_heap]; exact hget
  have hmiss2 : pml4_lookup (malloc sg).2.pml4 (pending_page (VM_ANON ||| VM_MARKER_0)
      (pg_round_down (rsp - 8)) true none none (initializer_of (VM_ANON ||| VM_MARKER_0))).va
      = none := by
    have e : (malloc sg).2.pml4 = s.pml4 := by rw [malloc_snd, hsg]; rfl
    rw [e]
    show pml4_lookup s.pml4 (pg_round_down (rsp - 8)) = none
    rw [pml4_lookup_same_page s.pml4 (rsp - 8) _ (pg_round_down_idem _)]
    exact hmiss
  have hsp2 : (malloc sg).2.set_page_plan.head? ≠ some false := by
    have e : (malloc sg).2.set_page_plan = s.set_page_plan := by rw [malloc_snd, hsg]; rfl
    rw [e]; exact hsp
  obtain ⟨fr, hfr, hfrp, hheap4, hspt4, hclaim⟩ := claim_pending_anon (malloc sg).2 s4
    s.page_heap.length f _ hf hget2 rfl rfl rfl hmiss2 hsp2
  have hflt : f < s4.frame_heap.length := by
    rcases Nat.lt_or_ge f s4.frame_heap.length with h1 | h1
    · exact h1
    · rw [List.getElem?_eq_none h1] at hfr; cases hfr
  have hplt : s.page_heap.length < s4.page_heap.length := by
    rw [hheap4, malloc_page_heap, hsg]
    simp [with_new_page]
  -- the handler
  have hres : vm_try_handle_fault s rsp (rsp - 8) true write true
      = some (true, bound_state s4 s.page_heap.length f (pending_page (VM_ANON ||| VM_MARKER_0)
          (pg_round_down (rsp - 8)) true none none (initializer_of (VM_ANON ||| VM_MARKER_0)))
          fr) := by
    unfold vm_try_handle_fault
    rw [if_neg haddr0, if_neg hkern, if_pos rfl]
    have hrsp : (if (!true) = true then s.stack_rsp else rsp) = rsp := rfl
    simp only [hrsp, hcond, if_true, hgrow, hfp, hget2]
    rw [if_neg (by rintro ⟨_, h⟩; exact Bool.noConfusion h)]
    exact hclaim
  have hgetb : (bound_state s4 s.page_heap.length f (pending_page (VM_ANON ||| VM_MARKER_0)
      (pg_round_down (rsp - 8)) true none none (initializer_of (VM_ANON ||| VM_MARKER_0)))
      fr).page_heap[s.page_heap.length]?
      = some { pending_page (VM_ANON ||| VM_MARKER_0) (pg_round_down (rsp - 8)) true none none
          (initializer_of (VM_ANON ||| VM_MARKER_0)) with
          frame := some f, operations := .anon_ops } := by
    simp [bound_state, hplt]
  refine ⟨_, hres, ?_, _, { fr with page := some s.page_heap.length }, hgetb, rfl, rfl, rfl, rfl,
    rfl, ?_, rfl, ?_⟩
  · have e : (bound_state s4 s.page_heap.length f (pending_page
        (VM_ANON ||| VM_MARKER_0) (pg_round_down (rsp - 8)) true none none
        (initializer_of (VM_ANON ||| VM_MARKER_0))) fr).spt.hash_table
        = s.page_heap.length :: s.spt.hash_table := by
      show s4.spt.hash_table = _
      rw [hspt4, malloc_spt, hspt_sg]
    rw [e, hash_find_cons_some _ _ _ _ _ hgetb]
    simp [pending_page, uninit_new]
  · simp [bound_state, hflt]
  · show pml4_lookup ((pg_round_down (pg_round_down (rsp - 8)), _) :: _) (rsp - 8) = _
    rw [pml4_lookup, if_pos (pg_round_down_idem _)]
    rfl

/-- C10 (amended). For every stack pointer `rsp` with `USER_STACK - 2^20 <= rsp - 8 < USER_STACK`,
a user-mode missing-translation fault at address `rsp - 8` whose page is not yet in the SPT,
with a frame obtainable (`vm_get_frame`, called where the handler calls it, yields a frame `f`;
the table being well formed: its entries point to allocated page objects): provided the
`malloc` of the page object, the scratch `malloc` of the handler's lookup and `pml4_set_page`
succeed, the fault returns true and leaves in the SPT a writable anonymous page at
`pg_round_down (rsp - 8)` that is resident (bound to `f`, and mapped to the `kva` of `f` in the
translation table); when one of the three fails the fault returns false. -/
theorem C10_stack_fault_grows (s sg s4 : VM) (rsp f : Nat) (write : Bool)
    (hlo : USER_STACK - 2 ^ 20 ≤ rsp - 8) (hhi : rsp - 8 < USER_STACK)
    (habs : ∀ q, ¬ holds_at s.page_heap s.spt.hash_table (pg_round_down (rsp - 8)) q)
    (hmiss : pml4_lookup s.pml4 (rsp - 8) = none)
    (hv : spt_pointers_valid s)
    (hgrow : vm_stack_growth s (rsp - 8) = some sg)
    (hf : vm_get_frame (spt_find_page sg sg.spt (rsp - 8)).2 = some (some f, s4)) :
    ((malloc (malloc s).2).1 = true → (malloc sg).1 = true →
      s.set_page_plan.head? ≠ some false →
      ∃ s1, vm_try_handle_fault s rsp (rsp - 8) true write true = some (true, s1) ∧
        hash_find s1.page_heap s1.spt.hash_table (pg_round_down (rsp - 8))
          = some s.page_heap.length ∧
        ∃ pg fr, s1.page_heap[s.page_heap.length]? = some pg ∧
          pg.va = pg_round_down (rsp - 8) ∧ pg.writable = true ∧
          pg.operations = .anon_ops ∧ page_get_type pg = VM_ANON ∧
          pg.frame = some f ∧ s1.frame_heap[f]? = some fr ∧ fr.page = some s.page_heap.length ∧
          pml4_lookup s1.pml4 (rsp - 8) = some ⟨fr.kva, true, false, false⟩) ∧
    (((malloc (malloc s).2).1 = false ∨ (malloc sg).1 = false ∨
        s.set_page_plan.head? = some false) →
      ∃ s1, vm_try_handle_fault s rsp (rsp - 8) true write true = some (false, s1)) :=
  ⟨fun hm2 hm_sg hsp =>
      stack_fault_succeeds s sg s4 rsp f write hlo hhi habs hmiss hv hm2 hsp hgrow hm_sg hf,
    fun hfail => stack_fault_fails s sg s4 rsp f write hlo hhi habs hmiss hv hgrow hf hfail⟩

/-- C10 (witness). On the empty machine, a write fault at `USER_STACK - 8` with
`rsp = USER_STACK`: the handler returns true and page 0, bound to frame 0, is in the SPT. -/
theorem C10_stack_fault_grows_witness :
    ∃ s1, vm_try_handle_fault boot USER_STACK (USER_STACK - 8) true true true = some (true, s1) ∧
      hash_find s1.page_heap s1.spt.hash_table (pg_round_down (USER_STACK - 8))
        = some boot.page_heap.length :=
  ((C10_stack_fault_grows boot _ _ USER_STACK 0 true (by decide) (by decide)
    (by rintro q ⟨hq, _⟩; simp [boot] at hq) rfl
    (by intro q hq; simp [boot] at hq) rfl rfl).1 (by decide) (by decide) (by decide)).imp
    (fun _ h => ⟨h.1, h.2.1⟩)

/-- C11 (failing input). A user-mode fault at the address `USER_STACK` itself, with
`rsp = USER_STACK`: the handler returns true and the SPT now holds a page at
`va = USER_STACK`, which is not below `USER_STACK`. -/
theorem C11_fault_at_stack_top :
    stack_growth_cond USER_STACK USER_STACK = true ∧
    (vm_try_handle_fault boot USER_STACK USER_STACK true true true).map
      (fun r => (r.1, r.2.spt.hash_table, r.2.page_heap.map (fun pg => pg.va)))
      = some (true, [0], [USER_STACK]) := by
  refine ⟨by decide, by rfl⟩

/-- C12 (failing input). A page at `0x1000` is allocated and claimed; the address is then mapped
(`pml4_get_page` is not null).  A second `vm_claim_page` returns true, for an anonymous page
and for a file-backed one. -/
theorem C12_claim_of_mapped_page_succeeds :
    (((vm_alloc_page_with_initializer boot VM_ANON 0x1000 true none none).bind
        (fun r => vm_claim_page r.2 0x1000)).bind
      (fun r => (vm_claim_page r.2 0x1000).map
        (fun r2 => (pml4_get_page r.2.pml4 0x1000, r2.1)))) = some (0x8004100000, true) ∧
    (((vm_alloc_page_with_initializer boot VM_FILE 0x1000 true (some .lazy_load_segment)
          (some ⟨0, 0, 3, 4093⟩)).bind
        (fun r => vm_claim_page r.2 0x1000)).bind
      (fun r => (vm_claim_page r.2 0x1000).map
        (fun r2 => (pml4_get_page r.2.pml4 0x1000, r2.1)))) = some (0x8004100000, true) := by
  refine ⟨by rfl, by rfl⟩

/-- C13 (failing input). (a) `pml4_set_page` fails during the claim of the page at `0x1000`:
the claim returns false, the page object is freed but still chained in the SPT, it is still
bound to frame 0, and frame 0 is in the frame table naming the page as its owner.  (b) The
loader fails (the file has 3 bytes, 10 are asked for): the claim returns false, the physical
page is back in the user pool, yet the page is still bound to frame 0, frame 0 still names it
and the address is still mapped to the freed physical page. -/
theorem C13_failed_claim_keeps_binding :
    ((vm_alloc_page_with_initializer { boot with set_page_plan := [false] } VM_ANON 0x1000 true
        none none).bind (fun r => vm_claim_page r.2 0x1000)).map
      (fun r => (r.1, r.2.spt.hash_table, r.2.freed_pages,
        r.2.page_heap.map (fun pg => pg.frame), r.2.frame_table, r.2.frame_heap))
      = some (false, [0], [0], [some 0], [0], [⟨0x8004100000, some 0⟩]) ∧
    ((vm_alloc_page_with_initializer boot VM_ANON 0x1000 true (some .lazy_load_segment)
        (some ⟨0, 0, 10, 4086⟩)).bind (fun r => vm_claim_page r.2 0x1000)).map
      (fun r => (r.1, r.2.spt.hash_table, r.2.page_heap.map (fun pg => pg.frame),
        r.2.frame_table, r.2.frame_heap, r.2.user_pool, pml4_get_page r.2.pml4 0x1000))
      = some (false, [0], [some 0], [0], [⟨0x8004100000, some 0⟩],
          [0x8004100000, 0x8004101000], 0x8004100000) := by
  refine ⟨by rfl, by rfl⟩

/-- C15 (failing input). No free user page and an empty frame table: `vm_get_frame` does not
return (`vm_evict_frame` dereferences the null victim), and neither does the `vm_claim_page`
of a pending page. -/
theorem C15_no_victim_stops_kernel :
    ({ boot with user_pool := [] } : VM).frame_table = [] ∧
    vm_get_frame { boot with user_pool := [] } = none ∧
    ((vm_alloc_page_with_initializer { boot with user_pool := [] } VM_ANON 0x1000 true
        none none).bind (fun r => vm_claim_page r.2 0x1000)) = none := by
  refine ⟨by rfl, by rfl, by rfl⟩

/-- C16 (failing input). One user page; the file-backed page at `0x1000` is resident in frame 0.
`vm_get_frame` then finds the pool exhausted, evicts and returns frame 0 (no owning page, frame
table unchanged), but the victim page is still bound to frame 0 and `0x1000` is still
mapped. -/
theorem C16_victim_stays_resident :
    (((vm_alloc_page_with_initializer { boot with user_pool := [0x8004100000] } VM_FILE 0x1000
          true (some .lazy_load_segment) (some ⟨0, 0, 3, 4093⟩)).bind
        (fun r => vm_claim_page r.2 0x1000)).bind
      (fun r => (vm_get_frame r.2).map
        (fun r2 => (r.2.frame_table, r2.1, r2.2.frame_table, r2.2.frame_heap[0]?,
          r2.2.page_heap.map (fun pg => (pg.va, pg.frame)), pml4_get_page r2.2.pml4 0x1000))))
      = some ([0], some 0, [0], some ⟨0x8004100000, none⟩, [(0x1000, some 0)], 0x8004100000) := by
  rfl

/-- C17 (failing input). The victim is the file-backed page of frame 0 and its `swap_out`
returns false; `vm_evict_frame` returns frame 0 all the same. -/
theorem C17_evict_ignores_swap_out :
    (((vm_alloc_page_with_initializer
          { boot with user_pool := [0x8004100000], indet := [true, false] } VM_FILE 0x1000
          true (some .lazy_load_segment) (some ⟨0, 0, 3, 4093⟩)).bind
        (fun r => vm_claim_page r.2 0x1000)).bind
      (fun r => some ((swap_out r.2 0).map (fun r2 => r2.1),
        (vm_evict_frame r.2).map (fun r2 => r2.1))))
      = some (some false, some (some 0)) := by
  rfl

/-- C19 (failing input). The parent holds a pending file-backed page at `0x1000` (as `do_mmap`
creates it).  The copy returns true; the page it leaves in the child's table has the same
loader, context and writable flag, but its target type is `VM_ANON` and its initializer is
`anon_initializer`. -/
theorem C19_copy_pending_file_page :
    (supplemental_page_table_copy
        { boot with page_heap := [pending_page VM_FILE 0x1000 true (some .lazy_load_segment)
            (some ⟨0, 0, 3, 4093⟩) .file_backed_initializer] }
        .current ⟨[0]⟩).map
      (fun r => (r.1, r.2.spt.hash_table, (r.2.page_heap[0]?).map page_get_type,
        r.2.page_heap[1]?, (r.2.page_heap[1]?).map page_get_type))
      = some (true, [1], some VM_FILE,
          some (pending_page VM_ANON 0x1000 true (some .lazy_load_segment) (some ⟨0, 0, 3, 4093⟩)
            .anon_initializer), some VM_ANON) := by
  rfl

theorem bytes_write_whole (old data : List Nat) (h : data.length = old.length) :
    bytes_write old 0 data = data := by
  unfold bytes_write
  simp [h]

theorem page_image_length (b : Nat) : (page_image b).length = PGSIZE := by
  rw [page_image, List.length_cons, List.length_replicate]
  rfl

theorem image_A_length : image_A.length = PGSIZE := by
  unfold image_A
  exact page_image_length _

theorem one_page_file_length : file_length one_page_file 0 = PGSIZE := by
  show image_A.length = PGSIZE
  exact image_A_length

theorem long_file_length : file_length long_file 0 = PGSIZE + 1 := by
  show (image_A ++ [7]).length = PGSIZE + 1
  rw [List.length_append, image_A_length]
  rfl

theorem image_B_length : image_B.length = PGSIZE := by
  unfold image_B
  exact page_image_length _

theorem fork_full_copy_run :
    (supplemental_page_table_copy (fork_full image_A image_B) .current ⟨[0, 1]⟩).map
      (fun r => (r.1, r.2.spt.hash_table, r.2.page_heap[2]?, r.2.frame_heap[0]?,
        mem_read r.2.mem 0x8004100000))
      = some (true, [3, 2], some (resident_anon_page 0x1000 0), some ⟨0x8004100000, some 3⟩,
          bytes_write (bytes_write image_A 0 (image_A.take PGSIZE)) 0 (image_B.take PGSIZE)) := by
  rfl

/-- C20 (failing input). The parent has resident anonymous pages at `0x1000` (contents
`image_A`, first byte `0xAA`, in frame 0) and `0x2000` (contents `image_B`, first byte `0xBB`)
and no user page is free.  The copy returns true.  Both claims went through eviction and took
frame 0: the child's page at `0x1000` (page 2) is bound to frame 0, and frame 0 now holds
`image_B`, not the `image_A` that the source page's frame held at the moment of the call. -/
theorem C20_copy_under_eviction :
    mem_read (fork_full image_A image_B).mem 0x8004100000 = image_A ∧
    image_A.head? = some 0xAA ∧ image_B.head? = some 0xBB ∧
    ∃ s1, supplemental_page_table_copy (fork_full image_A image_B) .current ⟨[0, 1]⟩
        = some (true, s1) ∧
      s1.spt.hash_table = [3, 2] ∧
      s1.page_heap[2]? = some (resident_anon_page 0x1000 0) ∧
      s1.frame_heap[0]? = some ⟨0x8004100000, some 3⟩ ∧
      mem_read s1.mem 0x8004100000 = image_B := by
  have hrun := fork_full_copy_run
  refine ⟨rfl, by unfold image_A; rfl, by unfold image_B; rfl, ?_⟩
  rcases hc : supplemental_page_table_copy (fork_full image_A image_B) .current ⟨[0, 1]⟩
    with _ | ⟨b, s1⟩
  · rw [hc] at hrun; cases hrun
  · rw [hc] at hrun
    simp only [Option.map_some', Option.some.injEq, Prod.mk.injEq] at hrun
    obtain ⟨h1, h2, h3, h4, h5⟩ := hrun
    subst h1
    refine ⟨s1, rfl, h2, h3, h4, ?_⟩
    rw [h5, List.take_of_length_le (Nat.le_of_eq image_B_length),
      List.take_of_length_le (Nat.le_of_eq image_A_length),
      bytes_write_whole image_A image_A rfl,
      bytes_write_whole _ _ (by rw [image_A_length, image_B_length])]

/-- C14 (counterexample). The user pool has a free page but the `malloc` of the frame object
fails: `vm_get_frame` stores through the null pointer and does not return. -/
theorem C14_counterexample :
    (palloc_get_page boot).1 = 0x8004100000 ∧
    vm_get_frame { boot with malloc_plan := [false] } = none := by
  refine ⟨by rfl, by rfl⟩

/-- C14 (amended). When the `malloc` of the frame object succeeds and the physical allocator
returns a page `k`, `vm_get_frame` returns a new frame holding that page with no owning page,
and the frame table afterwards is the previous table with exactly that frame appended at the
end: every previously registered frame, their order and their owners are unchanged (as is
everything else but the user pool and the consumed `malloc` outcome). -/
theorem C14_get_frame_appends (s : VM) (k : Nat) (rest : List Nat)
    (hm : (malloc s).1 = true) (hpool : s.user_pool = k :: rest) (hk : k ≠ 0) :
    vm_get_frame s = some (some s.frame_heap.length,
      { s with malloc_plan := s.malloc_plan.tail, user_pool := rest,
               frame_heap := s.frame_heap ++ [⟨k, none⟩],
               frame_table := s.frame_table ++ [s.frame_heap.length] }) ∧
    (s.frame_heap ++ [(⟨k, none⟩ : frame)])[s.frame_heap.length]? = some ⟨k, none⟩ ∧
    (∀ g, g < s.frame_heap.length →
      (s.frame_heap ++ [(⟨k, none⟩ : frame)])[g]? = s.frame_heap[g]?) := by
  refine ⟨?_, by simp, fun g hg => List.getElem?_append_left hg⟩
  unfold vm_get_frame
  rcases hms : malloc s with ⟨b, s1⟩
  have hs1 : s1 = { s with malloc_plan := s.malloc_plan.tail } := by
    have := malloc_snd s
    rw [hms] at this
    exact this
  rw [hms] at hm
  simp only at hm
  subst hm
  subst hs1
  simp only [palloc_get_page, hpool, if_neg hk]

/-- C14 (witness). On the empty machine `vm_get_frame` returns frame 0 holding the first free
user page, and the frame table becomes `[0]`. -/
theorem C14_get_frame_appends_witness :
    (vm_get_frame boot).map (fun r => (r.1, r.2.frame_heap, r.2.frame_table))
      = some (some 0, [⟨0x8004100000, none⟩], [0]) :=
  (congrArg (Option.map (fun r => (r.1, r.2.frame_heap, r.2.frame_table)))
    (C14_get_frame_appends boot 0x8004100000 [0x8004101000] (by decide) rfl (by decide)).1).trans
    rfl

/-! ### A claim changes one page object only -/

theorem claim_keeps_refl (p : Nat) (s : VM) : claim_keeps p s s :=
  ⟨rfl, rfl, fun _ _ => rfl, fun pg h => ⟨pg, h, rfl, rfl⟩, fun _ h => h⟩

theorem claim_keeps_trans (p : Nat) (a b c : VM) (h1 : claim_keeps p a b)
    (h2 : claim_keeps p b c) : claim_keeps p a c := by
  obtain ⟨a1, a2, a3, a4, a5⟩ := h1
  obtain ⟨b1, b2, b3, b4, b5⟩ := h2
  refine ⟨b1.trans a1, b2.trans a2, fun i hi => (b3 i hi).trans (a3 i hi), ?_,
    fun x hx => a5 x (b5 x hx)⟩
  intro pg hpg
  obtain ⟨pg1, hpg1, hva1, hw1⟩ := a4 pg hpg
  obtain ⟨pg2, hpg2, hva2, hw2⟩ := b4 pg1 hpg1
  exact ⟨pg2, hpg2, hva2.trans hva1, hw2.trans hw1⟩

theorem claim_keeps_of_eq (p : Nat) (s s1 : VM) (h1 : s1.spt = s.spt)
    (h2 : s1.page_heap = s.page_heap) (h3 : s1.malloc_plan = s.malloc_plan) :
    claim_keeps p s s1 :=
  ⟨h1, by rw [h2], fun _ _ => by rw [h2], fun pg h => ⟨pg, by rw [h2]; exact h, rfl, rfl⟩,
    fun b hb => by rw [h3] at hb; exact hb⟩

theorem claim_keeps_set_page (p : Nat) (s : VM) (pg pg1 : page)
    (hp : s.page_heap[p]? = some pg) (hva : pg1.va = pg.va) (hw : pg1.writable = pg.writable) :
    claim_keeps p s (set_page s p pg1) := by
  have hlt : p < s.page_heap.length := by
    rcases Nat.lt_or_ge p s.page_heap.length with h1 | h1
    · exact h1
    · rw [List.getElem?_eq_none h1] at hp; cases hp
  refine ⟨rfl, by simp [set_page], ?_, ?_, fun _ h => h⟩
  · intro i hi
    simp [set_page, List.getElem?_set, Ne.symm hi]
  · intro pg0 hpg0
    rw [hp] at hpg0
    cases hpg0
    exact ⟨pg1, by simp [set_page, hlt], hva, hw⟩

theorem indeterminate_keeps (p : Nat) (s : VM) : claim_keeps p s (indeterminate s).2 := by
  unfold indeterminate
  cases s.indet with
  | nil => exact claim_keeps_refl p s
  | cons b rest => exact claim_keeps_of_eq p _ _ rfl rfl rfl

theorem lazy_load_segment_keeps (p : Nat) (s : VM) (aux : Option lazy_load_arg) (r : Bool × VM)
    (h : lazy_load_segment s p aux = some r) : claim_keeps p s r.2 := by
  unfold lazy_load_segment at h
  cases aux with
  | none => cases h
  | some a =>
    simp only [] at h
    cases hpg : s.page_heap[p]? with
    | none => rw [hpg] at h; cases h
    | some pg =>
      rw [hpg] at h
      simp only [] at h
      cases hf : pg.frame with
      | none => rw [hf] at h; cases h
      | some f =>
        rw [hf] at h
        simp only [] at h
        cases hfr : s.frame_heap[f]? with
        | none => rw [hfr] at h; cases h
        | some fr =>
          rw [hfr] at h
          simp only [] at h
          split at h
          · cases h
            exact claim_keeps_of_eq p _ _ rfl rfl rfl
          · cases h
            exact claim_keeps_of_eq p _ _ rfl rfl rfl

theorem uninit_initialize_keeps (p : Nat) (s : VM) (pg : page) (r : Bool × VM)
    (hp : s.page_heap[p]? = some pg) (h : uninit_initialize s p pg = some r) :
    claim_keeps p s r.2 := by
  unfold uninit_initialize at h
  cases hpi : pg.uninit.page_initializer with
  | none => rw [hpi] at h; cases h
  | some pi =>
    rw [hpi] at h
    simp only [] at h
    have hk : claim_keeps p s (match pi with
        | .anon_initializer => anon_initializer s p pg
        | .file_backed_initializer => file_backed_initializer s p pg).2 := by
      cases pi with
      | anon_initializer =>
        exact claim_keeps_set_page p s pg { pg with operations := .anon_ops } hp rfl rfl
      | file_backed_initializer =>
        exact claim_keeps_trans p s (set_page s p { pg with operations := .file_ops }) _
          (claim_keeps_set_page p s pg { pg with operations := .file_ops } hp rfl rfl)
          (indeterminate_keeps p (set_page s p { pg with operations := .file_ops }))
    split at h
    · split at h
      · exact claim_keeps_trans p s _ _ hk (lazy_load_segment_keeps p _ _ r h)
      · cases h
        exact hk
    · cases h
      exact hk

theorem swap_in_keeps (p : Nat) (s : VM) (kva : Nat) (r : Bool × VM)
    (h : swap_in s p kva = some r) : claim_keeps p s r.2 := by
  unfold swap_in at h
  cases hpg : s.page_heap[p]? with
  | none => rw [hpg] at h; cases h
  | some pg =>
    rw [hpg] at h
    simp only [] at h
    cases hop : pg.operations with
    | uninit_ops =>
      rw [hop] at h
      exact uninit_initialize_keeps p s pg r hpg h
    | anon_ops =>
      rw [hop] at h
      cases h
      unfold anon_swap_in
      split
      · exact claim_keeps_of_eq p _ _ rfl rfl rfl
      · exact claim_keeps_refl p s
    | file_ops =>
      rw [hop] at h
      cases h
      exact indeterminate_keeps p s

theorem clock_scan_plan (l : List Nat) :
    ∀ (s : VM) (v : Option Nat) (r : Bool × Option Nat × Option Nat × VM),
      clock_scan s l v = some r → r.2.2.2.malloc_plan = s.malloc_plan := by
  induction l with
  | nil =>
    intro s v r h
    simp [clock_scan] at h
    subst h
    rfl
  | cons f rest ih =>
    intro s v r h
    unfold clock_scan at h
    cases hfr : s.frame_heap[f]? with
    | none => rw [hfr] at h; cases h
    | some fr =>
      rw [hfr] at h
      simp only [] at h
      cases hpp : fr.page with
      | none => rw [hpp] at h; cases h
      | some p =>
        rw [hpp] at h
        simp only [] at h
        cases hpg : s.page_heap[p]? with
        | none => rw [hpg] at h; cases h
        | some pg =>
          rw [hpg] at h
          simp only [] at h
          by_cases hacc : pml4_is_accessed s.pml4 pg.va = true
          · rw [if_pos hacc] at h
            have := ih _ _ r h
            exact this
          · rw [if_neg hacc] at h
            cases h
            rfl

theorem vm_get_victim_plan (s : VM) (r : Option Nat × VM)
    (h : vm_get_victim s = some r) : r.2.malloc_plan = s.malloc_plan := by
  unfold vm_get_victim at h
  cases h1 : clock_scan s (frames_from s.frame_table s.clock_ref) none with
  | none => rw [h1] at h; cases h
  | some r1 =>
    obtain ⟨b, victim, c, s1⟩ := r1
    have hu1 := clock_scan_plan _ _ _ _ h1
    rw [h1] at h
    cases b with
    | true =>
      simp only [] at h
      cases h
      exact hu1
    | false =>
      simp only [] at h
      cases h2 : clock_scan { s1 with clock_ref := c } s1.frame_table victim with
      | none => rw [h2] at h; cases h
      | some r2 =>
        obtain ⟨b2, victim2, c2, s3⟩ := r2
        have hu2 := clock_scan_plan _ _ _ _ h2
        rw [h2] at h
        cases h
        exact hu2.trans hu1

theorem indeterminate_plan (s : VM) : (indeterminate s).2.malloc_plan = s.malloc_plan := by
  unfold indeterminate
  cases s.indet with
  | nil => rfl
  | cons b rest => rfl

theorem swap_out_plan (s : VM) (p : Nat) (r : Bool × VM)
    (h : swap_out s p = some r) : r.2.malloc_plan = s.malloc_plan := by
  unfold swap_out at h
  cases hpg : s.page_heap[p]? with
  | none => rw [hpg] at h; cases h
  | some pg =>
    rw [hpg] at h
    simp only [] at h
    cases hop : pg.operations with
    | uninit_ops => rw [hop] at h; cases h
    | anon_ops =>
      rw [hop] at h
      simp only [anon_swap_out] at h
      cases hf : pg.frame with
      | none => rw [hf] at h; cases h
      | some f =>
        rw [hf] at h
        simp only [] at h
        cases hfr : s.frame_heap[f]? with
        | none => rw [hfr] at h; cases h
        | some fr =>
          rw [hfr] at h
          cases h
          rfl
    | file_ops =>
      rw [hop] at h
      cases h
      exact indeterminate_plan s

theorem vm_evict_frame_plan (s : VM) (r : Option Nat × VM)
    (h : vm_evict_frame s = some r) : r.2.malloc_plan = s.malloc_plan := by
  unfold vm_evict_frame at h
  cases h1 : vm_get_victim s with
  | none => rw [h1] at h; cases h
  | some r1 =>
    obtain ⟨v, s1⟩ := r1
    have hu1 := vm_get_victim_plan s _ h1
    rw [h1] at h
    cases v with
    | none => cases h
    | some v =>
      simp only [] at h
      cases hfr : s1.frame_heap[v]? with
      | none => rw [hfr] at h; cases h
      | some fr =>
        rw [hfr] at h
        simp only [] at h
        cases hpp : fr.page with
        | none => rw [hpp] at h; cases h
        | some p =>
          rw [hpp] at h
          simp only [] at h
          cases hso : swap_out s1 p with
          | none => rw [hso] at h; cases h
          | some r2 =>
            rw [hso] at h
            cases h
            exact (swap_out_plan s1 p r2 hso).trans hu1

/-- Whenever `vm_get_frame` returns it returns a frame, and it consumed one `malloc` outcome. -/
theorem vm_get_frame_some (s s1 : VM) (r : Option Nat) (h : vm_get_frame s = some (r, s1)) :
    (∃ f, r = some f) ∧ s1.malloc_plan = s.malloc_plan.tail := by
  unfold vm_get_frame at h
  have hmp : (malloc s).2.malloc_plan = s.malloc_plan.tail := by rw [malloc_snd]
  rcases hm : malloc s with ⟨b, sa⟩
  rw [hm] at h hmp
  simp only at hmp
  cases b with
  | false => cases h
  | true =>
    simp only [] at h
    have hpp : (palloc_get_page sa).2.malloc_plan = sa.malloc_plan := by
      unfold palloc_get_page
      cases sa.user_pool with
      | nil => rfl
      | cons k rest => rfl
    rcases hpa : palloc_get_page sa with ⟨kva, sb⟩
    rw [hpa] at h hpp
    simp only [] at h hpp
    by_cases hk : kva = 0
    · rw [if_pos hk] at h
      cases he : vm_evict_frame { sb with frame_heap := sb.frame_heap ++ [⟨kva, none⟩] } with
      | none => rw [he] at h; cases h
      | some r1 =>
        obtain ⟨v, s4⟩ := r1
        have hu := vm_evict_frame_plan _ _ he
        rw [he] at h
        cases v with
        | none => cases h
        | some v =>
          simp only [] at h
          cases hfr : s4.frame_heap[v]? with
          | none => rw [hfr] at h; cases h
          | some fr =>
            rw [hfr] at h
            simp only [Option.some.injEq, Prod.mk.injEq] at h
            obtain ⟨h1, h2⟩ := h
            subst h1
            subst h2
            refine ⟨⟨v, rfl⟩, ?_⟩
            show s4.malloc_plan = _
            rw [hu]
            show sb.malloc_plan = _
            rw [hpp, hmp]
    · rw [if_neg hk] at h
      simp only [Option.some.injEq, Prod.mk.injEq] at h
      obtain ⟨h1, h2⟩ := h
      subst h1
      subst h2
      refine ⟨⟨_, rfl⟩, ?_⟩
      show sb.malloc_plan = _
      rw [hpp, hmp]

theorem vm_dealloc_page_eq (s s1 : VM) (p : Nat) (h : vm_dealloc_page s p = some s1) :
    s1 = free_page s p := by
  unfold vm_dealloc_page destroy at h
  cases hpg : s.page_heap[p]? with
  | none => rw [hpg] at h; cases h
  | some pg =>
    rw [hpg] at h
    cases h
    rfl

/-- A claim, whatever its result, changes no page object but the claimed one, which keeps its
address and writable flag, and leaves the table as it is. -/
theorem vm_do_claim_page_keeps (s s1 : VM) (p : Nat) (b : Bool)
    (h : vm_do_claim_page s p = some (b, s1)) : claim_keeps p s s1 := by
  unfold vm_do_claim_page at h
  cases hg : vm_get_frame s with
  | none => rw [hg] at h; cases h
  | some r =>
    obtain ⟨fo, sa⟩ := r
    obtain ⟨⟨f, hf⟩, hplan⟩ := vm_get_frame_some s sa fo hg
    subst hf
    obtain ⟨⟨hheap, _, hspt, _, _⟩, _⟩ := vm_get_frame_props s sa f hg
    have hka : claim_keeps p s sa :=
      ⟨hspt, by rw [hheap], fun _ _ => by rw [hheap],
        fun pg hpg => ⟨pg, by rw [hheap]; exact hpg, rfl, rfl⟩,
        fun x hx => by rw [hplan] at hx; exact List.mem_of_mem_tail hx⟩
    rw [hg] at h
    simp only [] at h
    cases hfr : sa.frame_heap[f]? with
    | none => rw [hfr] at h; simp at h
    | some fr =>
      cases hpg : sa.page_heap[p]? with
      | none => rw [hfr, hpg] at h; simp at h
      | some pg =>
        rw [hfr, hpg] at h
        simp only [] at h
        have hkb : claim_keeps p sa
            (set_page (set_frame sa f { fr with page := some p }) p { pg with frame := some f }) :=
          claim_keeps_trans p sa (set_frame sa f { fr with page := some p }) _
            (claim_keeps_of_eq p _ _ rfl rfl rfl)
            (claim_keeps_set_page p _ pg _ hpg rfl rfl)
        have hkab := claim_keeps_trans p s sa _ hka hkb
        split at h
        · -- the address is not mapped yet
          have hkc : claim_keeps p
              (set_page (set_frame sa f { fr with page := some p }) p { pg with frame := some f })
              (pml4_set_page (set_page (set_frame sa f { fr with page := some p }) p
                { pg with frame := some f }) pg.va fr.kva pg.writable).2 := by
            unfold pml4_set_page
            simp only []
            split
            · exact claim_keeps_of_eq p _ _ rfl rfl rfl
            · exact claim_keeps_of_eq p _ _ rfl rfl rfl
          rcases hsp : pml4_set_page (set_page (set_frame sa f { fr with page := some p }) p
              { pg with frame := some f }) pg.va fr.kva pg.writable with ⟨ok, sc⟩
          rw [hsp] at h hkc
          simp only [] at hkc
          cases ok with
          | false =>
            simp only [] at h
            cases hd : vm_dealloc_page sc p with
            | none => rw [hd] at h; cases h
            | some sd =>
              rw [hd] at h
              cases h
              rw [vm_dealloc_page_eq sc _ p hd]
              exact claim_keeps_trans p s _ _ (claim_keeps_trans p s _ _ hkab hkc)
                (claim_keeps_of_eq p sc (free_page sc p) rfl rfl rfl)
          | true =>
            simp only [] at h
            exact claim_keeps_trans p s _ _ (claim_keeps_trans p s _ _ hkab hkc)
              (swap_in_keeps p sc fr.kva (b, s1) h)
        · exact claim_keeps_trans p s _ _ hkab (swap_in_keeps p _ fr.kva (b, s1) h)

/-! ### The copy loop -/

theorem forall2_imp_mem {R R1 : Nat → Nat → Prop} :
    ∀ (l1 l2 : List Nat), List.Forall₂ R l1 l2 →
      (∀ p ∈ l1, ∀ q, R p q → R1 p q) → List.Forall₂ R1 l1 l2 := by
  intro l1 l2 h
  induction h with
  | nil => intro _; exact List.Forall₂.nil
  | cons hab _ ih =>
    intro himp
    exact List.Forall₂.cons (himp _ (List.mem_cons_self _ _) _ hab)
      (ih (fun p hp q hr => himp p (List.mem_cons_of_mem _ hp) q hr))

theorem forall2_left_exists {R : Nat → Nat → Prop} :
    ∀ (l1 l2 : List Nat), List.Forall₂ R l1 l2 → ∀ p ∈ l1, ∃ q ∈ l2, R p q := by
  intro l1 l2 h
  induction h with
  | nil => intro p hp; cases hp
  | cons hab _ ih =>
    intro p hp
    rcases List.mem_cons.mp hp with rfl | hin
    · exact ⟨_, List.mem_cons_self _ _, hab⟩
    · obtain ⟨q, hq, hr⟩ := ih p hin
      exact ⟨q, List.mem_cons_of_mem _ hq, hr⟩

theorem forall2_right_exists {R : Nat → Nat → Prop} :
    ∀ (l1 l2 : List Nat), List.Forall₂ R l1 l2 → ∀ q ∈ l2, ∃ p ∈ l1, R p q := by
  intro l1 l2 h
  induction h with
  | nil => intro q hq; cases hq
  | cons hab _ ih =>
    intro q hq
    rcases List.mem_cons.mp hq with rfl | hin
    · exact ⟨_, List.mem_cons_self _ _, hab⟩
    · obtain ⟨p, hp, hr⟩ := ih q hin
      exact ⟨p, List.mem_cons_of_mem _ hp, hr⟩

theorem getElem?_lt_of_some (heap : List page) (i : Nat) (pg : page) (h : heap[i]? = some pg) :
    i < heap.length := by
  rcases Nat.lt_or_ge i heap.length with h1 | h1
  · exact h1
  · rw [List.getElem?_eq_none h1] at h; cases h

/-- The address of the next source entry is not yet a key of the current table. -/
theorem copy_inv_absent (heap0 : List page) (done rest : List Nat) (q : Nat) (pg0 : page)
    (s : VM) (hsrc : src_ok heap0 (done ++ q :: rest)) (hinv : copy_inv heap0 done s)
    (hq : heap0[q]? = some pg0) :
    ∀ p, ¬ holds_at s.page_heap s.spt.hash_table pg0.va p := by
  rintro p ⟨hmem, pg1, hpg1, hva⟩
  obtain ⟨q1, hq1, pg1', pg0', h1, h0, hva', _⟩ := forall2_left_exists _ _ hinv.1 p hmem
  rw [hpg1] at h1
  cases h1
  have hq1d : q1 ∈ done := List.mem_reverse.mp hq1
  have hnd := hsrc.2
  rw [List.map_append, List.map_cons] at hnd
  have hdisj := (List.nodup_append.mp hnd).2.2
  have hm1 : (heap0[q1]?).map (fun pg => pg.va)
      ∈ done.map (fun q => (heap0[q]?).map (fun pg => pg.va)) :=
    List.mem_map.mpr ⟨q1, hq1d, rfl⟩
  have hm2 : (heap0[q1]?).map (fun pg => pg.va)
      ∈ ((heap0[q]?).map (fun pg => pg.va))
        :: rest.map (fun q => (heap0[q]?).map (fun pg => pg.va)) := by
    rw [h0, hq]
    simp only [Option.map_some']
    rw [← hva', hva]
    exact List.mem_cons_self _ _
  exact hdisj hm1 hm2

/-- The invariant survives the arrival of the copy of source entry `q` at the head of the
current table. -/
theorem copy_inv_extend (heap0 : List page) (done : List Nat) (q : Nat) (pg0 : page)
    (s s2 : VM) (hinv : copy_inv heap0 done s) (hq : heap0[q]? = some pg0)
    (hspt : s2.spt.hash_table = s.page_heap.length :: s.spt.hash_table)
    (hlen : s2.page_heap.length = s.page_heap.length + 1)
    (hold : ∀ i : Nat, i < s.page_heap.length → s2.page_heap[i]? = s.page_heap[i]?)
    (hnew : ∃ pg1, s2.page_heap[s.page_heap.length]? = some pg1 ∧ pg1.va = pg0.va ∧
      pg1.writable = pg0.writable)
    (hplan : ∀ b ∈ s2.malloc_plan, b ∈ s.malloc_plan) :
    copy_inv heap0 (done ++ [q]) s2 := by
  obtain ⟨i1, i2, i3, i4, i5⟩ := hinv
  refine ⟨?_, ?_, ?_, ?_, ?_⟩
  · rw [hspt, List.reverse_append, List.reverse_singleton, List.singleton_append]
    obtain ⟨pg1, h1, h2, h3⟩ := hnew
    refine List.Forall₂.cons ⟨pg1, pg0, h1, hq, h2, h3⟩ ?_
    apply forall2_imp_mem _ _ i1
    rintro p hp q1 ⟨x1, x0, hx1, hx0, hxva, hxw⟩
    exact ⟨x1, x0, by rw [hold p (i4 p hp).2]; exact hx1, hx0, hxva, hxw⟩
  · intro i hi
    rw [hold i (Nat.lt_of_lt_of_le hi i3)]
    exact i2 i hi
  · rw [hlen]
    exact Nat.le_succ_of_le i3
  · intro p hp
    rw [hspt] at hp
    rw [hlen]
    rcases List.mem_cons.mp hp with rfl | hin
    · exact ⟨i3, Nat.lt_succ_self _⟩
    · exact ⟨(i4 p hin).1, Nat.lt_succ_of_lt (i4 p hin).2⟩
  · intro b hb
    exact i5 b (hplan b hb)

theorem malloc_fst_of_never_fails (s : VM) (h : malloc_never_fails s) : (malloc s).1 = true := by
  unfold malloc
  cases hp : s.malloc_plan with
  | nil => rfl
  | cons b rest => exact h b (by simp [hp])

theorem malloc_plan_sub (s : VM) : ∀ b ∈ (malloc s).2.malloc_plan, b ∈ s.malloc_plan := by
  rw [malloc_snd]
  intro b hb
  exact List.mem_of_mem_tail hb

theorem malloc_never_fails_tail (s : VM) (h : malloc_never_fails s) :
    malloc_never_fails (malloc s).2 :=
  fun b hb => h b (malloc_plan_sub s b hb)

theorem with_new_page_plan_sub (s : VM) (pg : page) :
    ∀ b ∈ (with_new_page s pg).malloc_plan, b ∈ s.malloc_plan := by
  intro b hb
  exact List.mem_of_mem_tail (List.mem_of_mem_tail (List.mem_of_mem_tail hb))

/-- The loop of `supplemental_page_table_copy` into the current table keeps `copy_inv`. -/
theorem copy_loop_inv (heap0 : List page) :
    ∀ (rest done : List Nat) (s s1 : VM),
      src_ok heap0 (done ++ rest) → copy_inv heap0 done s →
      copy_loop s .current rest = some (true, s1) → copy_inv heap0 (done ++ rest) s1 := by
  intro rest
  induction rest with
  | nil =>
    intro done s s1 _ hinv h
    simp only [copy_loop, Option.some.injEq, Prod.mk.injEq, true_and] at h
    subst h
    rw [List.append_nil]
    exact hinv
  | cons q rest ih =>
    intro done s s1 hsrc hinv h
    obtain ⟨pg0, hq, ha, hu⟩ := hsrc.1 q (by simp)
    have hqlt := getElem?_lt_of_some heap0 q pg0 hq
    have hqs : s.page_heap[q]? = some pg0 := by rw [hinv.2.1 q hqlt]; exact hq
    have habs := copy_inv_absent heap0 done rest q pg0 s hsrc hinv hq
    have hv : spt_pointers_valid s := fun p hp => (hinv.2.2.2.1 p hp).2
    have hm2 : (malloc (malloc s).2).1 = true :=
      malloc_fst_of_never_fails _ (malloc_never_fails_tail s hinv.2.2.2.2)
    have hsrc1 : src_ok heap0 ((done ++ [q]) ++ rest) := by
      rw [List.append_assoc, List.singleton_append]
      exact hsrc
    have hgoal : ∀ s2, copy_inv heap0 (done ++ [q]) s2 →
        copy_loop s2 .current rest = some (true, s1) → copy_inv heap0 (done ++ q :: rest) s1 := by
      intro s2 hi2 h2
      have := ih (done ++ [q]) s2 s1 hsrc1 hi2 h2
      rw [List.append_assoc, List.singleton_append] at this
      exact this
    rw [copy_loop] at h
    simp only [hqs] at h
    by_cases ht : pg0.operations.type = VM_UNINIT
    · rw [if_pos ht] at h
      rw [alloc_absent s VM_ANON pg0.va pg0.writable _ _ (Or.inl rfl) ha hu habs hv hm2] at h
      simp only [] at h
      exact hgoal _ (copy_inv_extend heap0 done q pg0 s _ hinv hq rfl
        (by simp [with_new_page]) (fun i hi => getElem?_append_one_lt _ _ i hi)
        ⟨pending_page VM_ANON pg0.va pg0.writable pg0.uninit.init pg0.uninit.aux
            (initializer_of VM_ANON), by simp [with_new_page], rfl, rfl⟩
        (with_new_page_plan_sub s _)) h
    · rw [if_neg ht] at h
      have hty : VM_TYPE pg0.operations.type = VM_ANON ∨ VM_TYPE pg0.operations.type = VM_FILE := by
        cases hop : pg0.operations with
        | uninit_ops => rw [hop] at ht; exact absurd rfl ht
        | anon_ops => exact Or.inl rfl
        | file_ops => exact Or.inr rfl
      have hal := alloc_absent s pg0.operations.type pg0.va pg0.writable none none hty ha hu habs
        hv hm2
      unfold vm_alloc_page at h
      rw [hal] at h
      simp only [] at h
      generalize hpgn : pending_page pg0.operations.type pg0.va pg0.writable none none
        (initializer_of pg0.operations.type) = pgn at h
      have hpva : pgn.va = pg0.va := by rw [← hpgn]; rfl
      have hpw : pgn.writable = pg0.writable := by rw [← hpgn]; rfl
      have hnfn : malloc_never_fails (with_new_page s pgn) :=
        fun b hb => hinv.2.2.2.2 b (with_new_page_plan_sub s pgn b hb)
      have hmn := malloc_fst_of_never_fails _ hnfn
      have hgetn : (with_new_page s pgn).page_heap[s.page_heap.length]? = some pgn := by
        simp [with_new_page]
      have hfind : spt_find_page (with_new_page s pgn) (with_new_page s pgn).spt pg0.va
          = (some s.page_heap.length, (malloc (with_new_page s pgn)).2) := by
        rw [spt_find_page_ok _ _ _ hmn, pg_round_down_of_aligned _ ha]
        have : (with_new_page s pgn).spt.hash_table
            = s.page_heap.length :: s.spt.hash_table := rfl
        rw [this, hash_find_cons_some _ _ _ _ pgn hgetn, if_pos hpva]
      unfold vm_claim_page at h
      rw [hfind] at h
      simp only [] at h
      cases hcl : vm_do_claim_page (malloc (with_new_page s pgn)).2 s.page_heap.length with
      | none => rw [hcl] at h; cases h
      | some r =>
        obtain ⟨b, s2⟩ := r
        rw [hcl] at h
        cases b with
        | false => simp at h
        | true =>
          simp only [] at h
          obtain ⟨k1, k2, k3, k4, k5⟩ := vm_do_claim_page_keeps _ _ _ _ hcl
          have hsnd := spt_find_page_snd s2 (spt_ref.get s2 .current) pg0.va
          rcases hfp : spt_find_page s2 (spt_ref.get s2 .current) pg0.va with ⟨r3, s3⟩
          rw [hfp] at h hsnd
          simp only at hsnd
          subst hsnd
          cases r3 with
          | none => simp at h
          | some dp =>
            simp only [] at h
            cases hx1 : (malloc s2).2.page_heap[dp]? with
            | none => rw [hx1] at h; cases h
            | some dst_page =>
              rw [hx1] at h
              simp only [] at h
              cases hx2 : dst_page.frame with
              | none => rw [hx2] at h; cases h
              | some df =>
                rw [hx2] at h
                simp only [] at h
                cases hx3 : (malloc s2).2.frame_heap[df]? with
                | none => rw [hx3] at h; cases h
                | some dfr =>
                  rw [hx3] at h
                  simp only [] at h
                  cases hx4 : (malloc s2).2.page_heap[q]? with
                  | none => rw [hx4] at h; cases h
                  | some sp =>
                    rw [hx4] at h
                    simp only [] at h
                    cases hx5 : sp.frame with
                    | none => rw [hx5] at h; cases h
                    | some sf =>
                      rw [hx5] at h
                      simp only [] at h
                      cases hx6 : (malloc s2).2.frame_heap[sf]? with
                      | none => rw [hx6] at h; cases h
                      | some sfr =>
                        rw [hx6] at h
                        simp only [] at h
                        have hheap4 : (memcpy_page (malloc s2).2 dfr.kva sfr.kva).page_heap
                            = s2.page_heap := by
                          show (malloc s2).2.page_heap = _
                          exact malloc_page_heap s2
                        have hlen2 : s2.page_heap.length = s.page_heap.length + 1 := by
                          rw [k2, malloc_page_heap]
                          simp [with_new_page]
                        refine hgoal _ (copy_inv_extend heap0 done q pg0 s _ hinv hq ?_ ?_ ?_ ?_ ?_) h
                        · show (malloc s2).2.spt.hash_table = _
                          rw [malloc_spt, k1, malloc_spt]
                          rfl
                        · rw [hheap4]
                          exact hlen2
                        · intro i hi
                          rw [hheap4, k3 i (Nat.ne_of_lt hi), malloc_page_heap]
                          exact getElem?_append_one_lt _ _ i hi
                        · obtain ⟨pg1, h1, h2, h3⟩ := k4 pgn (by rw [malloc_page_heap]; exact hgetn)
                          exact ⟨pg1, by rw [hheap4]; exact h1, h2.trans hpva, h3.trans hpw⟩
                        · intro x hx
                          have hx1 : x ∈ (malloc s2).2.malloc_plan := hx
                          exact with_new_page_plan_sub s pgn x
                            (malloc_plan_sub _ x (k5 x (malloc_plan_sub s2 x hx1)))

/-- C18 (counterexample). The source table holds one pending page, at `0x1000`.  (a) With a
destination table that is not the current thread's, the copy returns true and the table
passed as first argument is still empty: the page went into the current thread's table.
(b) With the current thread's table as destination and the `malloc` of the page object
failing, the copy returns true and the destination is empty. -/
theorem C18_counterexample :
    holds_at [anon_page_at 0x1000 true] [0] 0x1000 0 ∧
    (supplemental_page_table_copy { boot with page_heap := [anon_page_at 0x1000 true] }
        (.other ⟨[]⟩) ⟨[0]⟩).map
      (fun r => (r.1, (spt_ref.get r.2 (.other ⟨[]⟩)).hash_table, r.2.spt.hash_table))
      = some (true, [], [1]) ∧
    (supplemental_page_table_copy
        { boot with page_heap := [anon_page_at 0x1000 true], malloc_plan := [true, false] }
        .current ⟨[0]⟩).map
      (fun r => (r.1, (spt_ref.get r.2 .current).hash_table)) = some (true, []) := by
  refine ⟨⟨by simp, anon_page_at 0x1000 true, by simp, by decide⟩, by rfl, by rfl⟩

/-- C18 (amended). For every well-formed source table `src` (page-aligned user addresses, no
address twice), when the destination is the current thread's table, is empty, and no `malloc`
fails: if `supplemental_page_table_copy (dst, src)` returns true then the destination holds,
entry for entry, a page at the address of each source page and with its writable flag, so it
holds a page at exactly the same set of virtual addresses as `src`; and the page objects of
`src` are unchanged. -/
theorem C18_copy_same_addresses (s s1 : VM) (src : supplemental_page_table)
    (hempty : s.spt.hash_table = []) (hsrc : src_ok s.page_heap src.hash_table)
    (hnf : malloc_never_fails s)
    (hcopy : supplemental_page_table_copy s .current src = some (true, s1)) :
    List.Forall₂ (copy_rel s.page_heap s1.page_heap)
      (spt_ref.get s1 .current).hash_table src.hash_table.reverse ∧
    (∀ va, (∃ p, holds_at s1.page_heap (spt_ref.get s1 .current).hash_table va p) ↔
      (∃ q, holds_at s.page_heap src.hash_table va q)) ∧
    (∀ q ∈ src.hash_table, s1.page_heap[q]? = s.page_heap[q]?) := by
  have hinv0 : copy_inv s.page_heap [] s := by
    refine ⟨?_, fun _ _ => rfl, Nat.le_refl _, ?_, hnf⟩
    · rw [hempty]
      exact List.Forall₂.nil
    · intro p hp
      rw [hempty] at hp
      cases hp
  have hinv := copy_loop_inv s.page_heap src.hash_table [] s s1
    (by rw [List.nil_append]; exact hsrc) hinv0 hcopy
  rw [List.nil_append] at hinv
  obtain ⟨i1, i2, _, _, _⟩ := hinv
  refine ⟨i1, ?_, ?_⟩
  · intro va
    constructor
    · rintro ⟨p, hmem, pg1, hpg1, hva⟩
      obtain ⟨q, hq, x1, x0, hx1, hx0, hxva, _⟩ := forall2_left_exists _ _ i1 p hmem
      have hx : x1 = pg1 := by
        have h1 : s1.page_heap[p]? = some x1 := hx1
        rw [hpg1] at h1
        exact (Option.some.inj h1).symm
      subst hx
      exact ⟨q, List.mem_reverse.mp hq, x0, hx0, hxva.symm.trans hva⟩
    · rintro ⟨q, hmem, pg0, hpg0, hva⟩
      obtain ⟨p, hp, x1, x0, hx1, hx0, hxva, _⟩ := forall2_right_exists _ _ i1 q
        (List.mem_reverse.mpr hmem)
      have hx : x0 = pg0 := by
        have h0 : s.page_heap[q]? = some x0 := hx0
        rw [hpg0] at h0
        exact (Option.some.inj h0).symm
      subst hx
      exact ⟨p, hp, x1, hx1, hxva.trans hva⟩
  · intro q hq
    obtain ⟨pg0, hpg0, _, _⟩ := hsrc.1 q hq
    exact i2 q (getElem?_lt_of_some _ q pg0 hpg0)

/-- C18 (witness). A source with a pending page at `0x1000` and a resident anonymous page at
`0x2000`, copied into the empty current table of a machine with two free user pages. -/
theorem C18_copy_same_addresses_witness :
    ∃ s1, supplemental_page_table_copy
        { boot with page_heap := [anon_page_at 0x1000 false, resident_anon_page 0x2000 0],
                    frame_heap := [⟨0x8004200000, some 1⟩], frame_table := [0] }
        .current ⟨[0, 1]⟩ = some (true, s1) ∧
      List.Forall₂ (copy_rel [anon_page_at 0x1000 false, resident_anon_page 0x2000 0]
        s1.page_heap) (spt_ref.get s1 .current).hash_table [1, 0] :=
  ⟨_, rfl,
   (C18_copy_same_addresses
      { boot with page_heap := [anon_page_at 0x1000 false, resident_anon_page 0x2000 0],
                  frame_heap := [⟨0x8004200000, some 1⟩], frame_table := [0] }
      _ ⟨[0, 1]⟩ rfl
      ⟨by
        intro q hq
        have h01 : q = 0 ∨ q = 1 := by simpa using hq
        rcases h01 with rfl | rfl
        · exact ⟨anon_page_at 0x1000 false, rfl, by decide, by decide⟩
        · exact ⟨resident_anon_page 0x2000 0, rfl, by decide, by decide⟩,
       by decide⟩
      (by intro b hb; cases hb) rfl).1⟩

/-- C21 (failing input). The parent has a resident anonymous page at `0x1000` in frame 0 and no
user page is free; the child's table is empty.  The copy returns true.  The claim of the
child's page went through eviction and took frame 0, to which the parent's page is still bound:
after the call the source page (page 0) and the destination page (page 1, the page found at
`0x1000` in the destination) have the same frame, whose `kva` is `0x8004100000`. -/
theorem C21_copy_shares_frame :
    (supplemental_page_table_copy
        { boot with page_heap := [resident_anon_page 0x1000 0],
                    frame_heap := [⟨0x8004100000, some 0⟩], frame_table := [0],
                    user_pool := [] }
        .current ⟨[0]⟩).map
      (fun r => (r.1, hash_find r.2.page_heap (spt_ref.get r.2 .current).hash_table 0x1000,
        (r.2.page_heap[0]?).map (fun pg => pg.frame),
        (r.2.page_heap[1]?).map (fun pg => pg.frame),
        (r.2.frame_heap[0]?).map (fun fr => fr.kva)))
      = some (true, some 1, some (some 0), some (some 0), some 0x8004100000) := by
  rfl

/-- C22 (failing input). The source holds one Uninitialized page at `0x1000` and the `malloc`
of the page object fails.  The `vm_alloc_page_with_initializer` call the copy performs returns
false, yet the copy returns true and the destination is empty. -/
theorem C22_copy_ignores_failed_alloc :
    (vm_alloc_page_with_initializer
        { boot with page_heap := [anon_page_at 0x1000 true], malloc_plan := [true, false] }
        VM_ANON 0x1000 true none none).map (fun r => r.1) = some false ∧
    (supplemental_page_table_copy
        { boot with page_heap := [anon_page_at 0x1000 true], malloc_plan := [true, false] }
        .current ⟨[0]⟩).map
      (fun r => (r.1, (spt_ref.get r.2 .current).hash_table)) = some (true, []) := by
  refine ⟨by rfl, by rfl⟩

/-- C27 (failing input). File 0 is mapped at `0x1000` and the page claimed: page 0 is a resident
file-backed page in frame 0.  After `spt_remove_page` the table is empty and the page object is
freed, but frame 0 is still in the frame table and still names page 0 as its page; the
translation of `0x1000` is still there. -/
theorem C27_removed_page_keeps_frame :
    (mapped_and_claimed boot 0x1000 3 0).bind
      (fun s => (spt_remove_page s s.spt 0).map
        (fun r => (s.spt.hash_table, s.page_heap[0]?, r.1.hash_table,
          hash_find r.2.page_heap r.1.hash_table 0x1000, r.2.freed_pages, r.2.frame_table,
          r.2.frame_heap[0]?, pml4_get_page r.2.pml4 0x1000)))
      = some ([0], some (resident_file_page 0x1000 0 ⟨0, 0, 3, 4093⟩), [], none, [0], [0],
          some ⟨0x8004100000, some 0⟩, 0x8004100000) := by
  rfl

/-- C28 (counterexample). With the type `VM_UNINIT`, alone or with a marker bit, the call does
not return false: the `ASSERT` stops the kernel. -/
theorem C28_counterexample :
    VM_TYPE VM_UNINIT = VM_UNINIT ∧
    vm_alloc_page_with_initializer boot VM_UNINIT 0x1000 true none none = none ∧
    VM_TYPE (VM_UNINIT ||| VM_MARKER_0) = VM_UNINIT ∧
    vm_alloc_page_with_initializer boot (VM_UNINIT ||| VM_MARKER_0) 0x1000 true none none
      = none := by
  refine ⟨by rfl, by rfl, by rfl, by rfl⟩

/-- C28 (amended). Called with a type whose base type is `VM_UNINIT`,
`vm_alloc_page_with_initializer` does not return: its `ASSERT` stops the kernel, before
anything is looked up in or added to the SPT. -/
theorem C28_alloc_uninit_stops (s : VM) (type upage : Nat) (writable : Bool)
    (init : Option vm_initializer) (aux : Option lazy_load_arg)
    (h : VM_TYPE type = VM_UNINIT) :
    vm_alloc_page_with_initializer s type upage writable init aux = none := by
  unfold vm_alloc_page_with_initializer
  rw [if_pos h]

/-- C28 (witness). The type `VM_UNINIT | VM_MARKER_0` on the empty machine. -/
theorem C28_alloc_uninit_stops_witness :
    vm_alloc_page_with_initializer boot (VM_UNINIT ||| VM_MARKER_0) 0x1000 true
      (some .lazy_load_segment) (some ⟨0, 0, 3, 4093⟩) = none :=
  C28_alloc_uninit_stops boot (VM_UNINIT ||| VM_MARKER_0) 0x1000 true _ _ (by rfl)

/-- C29 (failing input). Page 0 is a file-backed page whose bytes are the first 3 bytes
`[1, 2, 3]` of file 0; the frame at `0x8004101000` holds stale bytes.  `file_backed_swap_in`
changes no byte of memory (in any state): the frame still holds the stale bytes.  Its body has
no `return` statement, so the value the caller sees is not fixed: it can be false. -/
theorem C29_swap_in_reads_nothing :
    (∀ (s : VM) (p kva : Nat), (file_backed_swap_in s p kva).2.mem = s.mem) ∧
    file_read_at boot 0 0 3 = [1, 2, 3] ∧
    mem_read (file_backed_swap_in
        { boot with page_heap := [resident_file_page 0x1000 0 ⟨0, 0, 3, 4093⟩],
                    frame_heap := [⟨0x8004101000, some 0⟩],
                    mem := [(0x8004101000, [9, 9, 9, 9])] }
        0 0x8004101000).2.mem 0x8004101000 = [9, 9, 9, 9] ∧
    (file_backed_swap_in
        { boot with page_heap := [resident_file_page 0x1000 0 ⟨0, 0, 3, 4093⟩],
                    frame_heap := [⟨0x8004101000, some 0⟩],
                    mem := [(0x8004101000, [9, 9, 9, 9])], indet := [false] }
        0 0x8004101000).1 = false := by
  refine ⟨?_, by rfl, by rfl, by rfl⟩
  intro s p kva
  unfold file_backed_swap_in indeterminate
  cases s.indet <;> rfl


theorem mem_read_mem_write (s : VM) (kva off : Nat) (data : List Nat) :
    mem_read (mem_write s kva off data).mem kva = bytes_write (mem_read s.mem kva) off data := by
  simp [mem_write, mem_read]

/-- C30. For a page bound to a frame and a loader context `a` that describes a range within
one page, `lazy_load_segment` returns; it returns true exactly when the file yields all
`a.read_bytes` bytes at offset `a.ofs` (on a short read it returns false); and when it returns
true the frame holds the bytes read at offsets `[0, read_bytes)` followed by zero bytes at
`[read_bytes, read_bytes + zero_bytes)`. -/
theorem C30_lazy_load_segment (s : VM) (p f : Nat) (a : lazy_load_arg) (pg : page) (fr : frame)
    (hp : s.page_heap[p]? = some pg) (hf : pg.frame = some f)
    (hfr : s.frame_heap[f]? = some fr) (_hsz : a.read_bytes + a.zero_bytes ≤ PGSIZE) :
    ∃ b s1, lazy_load_segment s p (some a) = some (b, s1) ∧
      (b = true ↔ (file_read_at s a.file a.ofs a.read_bytes).length = a.read_bytes) ∧
      (b = true →
        (mem_read s1.mem fr.kva).take a.read_bytes = file_read_at s a.file a.ofs a.read_bytes ∧
        ((mem_read s1.mem fr.kva).drop a.read_bytes).take a.zero_bytes
          = List.replicate a.zero_bytes 0) := by
  by_cases hlen : (file_read_at s a.file a.ofs a.read_bytes).length = a.read_bytes
  · refine ⟨true, mem_write (mem_write s fr.kva 0 (file_read_at s a.file a.ofs a.read_bytes))
        fr.kva a.read_bytes (List.replicate a.zero_bytes 0), ?_,
      ⟨fun _ => hlen, fun _ => rfl⟩, fun _ => ?_⟩
    · simp only [lazy_load_segment, hp, hf, hfr]
      rw [if_neg (not_not.mpr hlen)]
    · rw [mem_read_mem_write, mem_read_mem_write]
      generalize file_read_at s a.file a.ofs a.read_bytes = data at hlen
      generalize mem_read s.mem fr.kva = old
      rw [← hlen]
      constructor
      · simp [bytes_write]
      · simp [bytes_write]
  · refine ⟨false, palloc_free_page
        (mem_write s fr.kva 0 (file_read_at s a.file a.ofs a.read_bytes)) fr.kva, ?_,
      ⟨fun h => Bool.noConfusion h, fun h => absurd h hlen⟩, fun h => Bool.noConfusion h⟩
    simp only [lazy_load_segment, hp, hf, hfr]
    rw [if_pos hlen]

/-- C30 (witness). A page bound to a frame, loading the 3 bytes of file 0. -/
theorem C30_lazy_load_segment_witness :
    ∃ b s1, lazy_load_segment
        { boot with page_heap := [{ anon_page_at 0x1000 true with frame := some 0 }],
                    frame_heap := [⟨0x8004100000, some 0⟩] }
        0 (some ⟨0, 0, 3, 4093⟩) = some (b, s1) ∧
      (b = true ↔ (file_read_at
        { boot with page_heap := [{ anon_page_at 0x1000 true with frame := some 0 }],
                    frame_heap := [⟨0x8004100000, some 0⟩] } 0 0 3).length = 3) ∧
      (b = true →
        (mem_read s1.mem 0x8004100000).take 3 = file_read_at
          { boot with page_heap := [{ anon_page_at 0x1000 true with frame := some 0 }],
                      frame_heap := [⟨0x8004100000, some 0⟩] } 0 0 3 ∧
        ((mem_read s1.mem 0x8004100000).drop 3).take 4093 = List.replicate 4093 0) :=
  C30_lazy_load_segment
    { boot with page_heap := [{ anon_page_at 0x1000 true with frame := some 0 }],
                frame_heap := [⟨0x8004100000, some 0⟩] }
    0 0 ⟨0, 0, 3, 4093⟩ _ ⟨0x8004100000, some 0⟩ rfl rfl rfl (by decide)


/-- C24 (failing input). File 0 is mapped at `0x1000` by `do_mmap` and the page claimed, then
`do_munmap (0x1000)` runs to its end.  The translation of `0x1000` is gone, but the page is
still in the SPT: `spt_find_page` finds page 0, the table is unchanged, and a new `do_mmap` at
`0x1000` is refused. -/
theorem C24_munmap_keeps_entries :
    (mapped_and_claimed boot 0x1000 3 0).bind
      (fun s => (do_munmap 2 s 0x1000).value.map
        (fun s1 => (s.spt.hash_table, pml4_get_page s.pml4 0x1000, pml4_get_page s1.pml4 0x1000,
          (spt_find_page s1 s1.spt 0x1000).1, s1.spt.hash_table,
          (do_mmap 2 s1 0x1000 3 true 0 0).value.map (fun r => r.1))))
      = some ([0], 0x8004100000, 0, some 0, [0], some 0) := by
  rfl

/-- C25 (failing input). (a) File 0 is mapped at `0x1000` and an anonymous page sits right
behind the mapping, at `0x2000`; both are resident.  `do_munmap (0x1000)` walks on into the
anonymous page and clears its translation.  (b) The state `two_mappings` is what two `do_mmap`
calls and two claims build, with the dirty bit of `0x2000` set by a store.  (c) There
`do_munmap (0x1000)` goes on into the second mapping: it writes its page to file 1, whose
contents change from `[4, 5, 6]` to `[9, 5, 6]`, and clears the page's dirty bit and
translation. -/
theorem C25_munmap_walks_on :
    mapping_then_anon.bind (fun s => (do_munmap 3 s 0x1000).value.map
      (fun s1 => ((s.page_heap[1]?).map (fun pg => (pg.va, page_get_type pg)),
        pml4_lookup s.pml4 0x2000, pml4_lookup s1.pml4 0x2000)))
      = some (some (0x2000, VM_ANON), some ⟨0x8004101000, true, false, false⟩, none) ∧
    ((mapped_and_claimed { boot with files := [[1, 2, 3], [4, 5, 6]] } 0x1000 3 0).bind
        (fun s => mapped_and_claimed s 0x2000 3 1)).map
      (fun s => (s.page_heap, s.frame_heap, s.frame_table, s.user_pool, s.spt,
        pml4_set_dirty s.pml4 0x2000 true, s.files))
      = some (two_mappings.page_heap, two_mappings.frame_heap, two_mappings.frame_table,
          two_mappings.user_pool, two_mappings.spt, two_mappings.pml4, two_mappings.files) ∧
    (do_munmap 4 two_mappings 0x1000).value.map
      (fun s1 => (pml4_lookup s1.pml4 0x2000, s1.file_writes, s1.files[1]?))
      = some (none, [⟨1, 0x2000, 3, 0⟩], some [9, 5, 6]) := by
  refine ⟨by rfl, by rfl, by rfl⟩


/-! ### The loop of `do_mmap` -/

theorem insert_not_user (s : VM) (spt : supplemental_page_table) (p : Nat) (pg : page)
    (hp : s.page_heap[p]? = some pg) (hu : is_user_vaddr pg.va = false) :
    spt_insert_page s spt p = some (false, spt, s) := by
  simp only [spt_insert_page, hp, hu]
  rfl

/-- A successful `vm_alloc_page_with_initializer` at a page-aligned address, when no `malloc`
fails: the address is a user address that was absent from the table, and the state afterwards
is the old one with the new page. -/
theorem alloc_true_shape (s s1 : VM) (type va : Nat) (writable : Bool)
    (init : Option vm_initializer) (aux : Option lazy_load_arg)
    (ht : VM_TYPE type = VM_ANON ∨ VM_TYPE type = VM_FILE) (ha : pg_ofs va = 0)
    (hv : spt_pointers_valid s) (hnf : malloc_never_fails s)
    (h : vm_alloc_page_with_initializer s type va writable init aux = some (true, s1)) :
    is_user_vaddr va = true ∧ (∀ q, ¬ holds_at s.page_heap s.spt.hash_table va q) ∧
    s1 = with_new_page s (pending_page type va writable init aux (initializer_of type)) := by
  have hne := VM_TYPE_ne_uninit type ht
  have hrd := pg_round_down_of_aligned va ha
  have hm0 := malloc_fst_of_never_fails s hnf
  have hm1 := malloc_fst_of_never_fails _ (malloc_never_fails_tail s hnf)
  have habs : ∀ q, ¬ holds_at s.page_heap s.spt.hash_table va q := by
    intro q hq
    rw [alloc_present s type va writable init aux hne hm0 ⟨q, by rw [hrd]; exact hq⟩] at h
    cases h
  have hu : is_user_vaddr va = true := by
    cases hu : is_user_vaddr va with
    | true => rfl
    | false =>
      exfalso
      have h1 : spt_find_page s s.spt va = (none, (malloc s).2) :=
        spt_find_page_absent s s.spt va (by rw [hrd]; exact habs)
      unfold vm_alloc_page_with_initializer at h
      rw [if_neg hne, h1] at h
      simp only [] at h
      rcases hms : malloc (malloc s).2 with ⟨b, s2⟩
      rw [hms] at h
      cases b with
      | false => cases h
      | true =>
        simp only [] at h
        cases hni : (if VM_TYPE type = VM_ANON then some page_initializer.anon_initializer
            else if VM_TYPE type = VM_FILE then some page_initializer.file_backed_initializer
            else none) with
        | none => rw [hni] at h; cases h
        | some ni =>
          rw [hni] at h
          simp only [] at h
          have key := insert_not_user
            { s2 with page_heap := s2.page_heap ++ [pending_page type va writable init aux ni] }
            s2.spt s2.page_heap.length (pending_page type va writable init aux ni)
            (by simp) hu
          erw [key] at h
          cases h
  refine ⟨hu, habs, ?_⟩
  rw [alloc_absent s type va writable init aux ht ha hu habs hv hm1] at h
  cases h
  rfl

theorem size_sub_of_le (a b : Nat) (hb : b ≤ a) (ha : a < PTR_MOD) : size_sub a b = a - b := by
  unfold size_sub
  have hb2 : b % PTR_MOD = b := Nat.mod_eq_of_lt (Nat.lt_of_le_of_lt hb ha)
  rw [hb2]
  have : a + PTR_MOD - b = (a - b) + PTR_MOD := by omega
  rw [this, Nat.add_mod_right]
  exact Nat.mod_eq_of_lt (by omega)

theorem spt_pointers_valid_malloc (s : VM) (h : spt_pointers_valid s) :
    spt_pointers_valid (malloc s).2 := by
  intro q hq
  rw [malloc_page_heap]
  rw [malloc_spt] at hq
  exact h q hq

theorem spt_pointers_valid_new (s : VM) (pg : page) (h : spt_pointers_valid s) :
    spt_pointers_valid (with_new_page s pg) := by
  intro q hq
  have hq2 : q = s.page_heap.length ∨ q ∈ s.spt.hash_table := by
    simpa [with_new_page] using hq
  have hl : (with_new_page s pg).page_heap.length = s.page_heap.length + 1 := by
    simp [with_new_page]
  rw [hl]
  rcases hq2 with rfl | hq3
  · exact Nat.lt_succ_self _
  · exact Nat.lt_succ_of_lt (h q hq3)

theorem malloc_never_fails_new (s : VM) (pg : page) (h : malloc_never_fails s) :
    malloc_never_fails (with_new_page s pg) :=
  fun b hb => h b (with_new_page_plan_sub s pg b hb)

/-- Narrowing leaves the sum of an `off_t` and a size as it is when the sum does not exceed
the largest `off_t`. -/
theorem off_t_value_add (p n : Nat) (h : off_t_value p + (n : Int) < 2 ^ 31) :
    off_t_value ((p + n) % OFF_MOD) = off_t_value p + (n : Int) := by
  unfold off_t_value OFF_MOD at *
  simp only [Nat.mod_mod] at *
  norm_num at *
  split_ifs at * <;> omega

/-- The loop of `do_mmap`, when no `malloc` fails and the loop runs to its end: the pages
added are laid out as `mmap_layout` says, their pointers head the table, and their `read_bytes`
add up to the `read_bytes` the loop started with. -/
theorem mmap_loop_inv (file : Nat) (writable : Bool) :
    ∀ (fuel : Nat) (s s1 : VM) (v : mmap_vars),
      spt_pointers_valid s → malloc_never_fails s → pg_ofs v.addr = 0 →
      v.read_bytes < PTR_MOD →
      off_t_value v.offset + (v.read_bytes : Int) < 2 ^ 31 →
      mmap_loop file writable fuel s v = .returned (true, s1) →
      ∃ l, s1.page_heap = s.page_heap ++ l ∧
        s1.spt.hash_table = (List.range' s.page_heap.length l.length).reverse ++ s.spt.hash_table ∧
        mmap_layout file writable v.addr (off_t_value v.offset) l ∧
        mapped_bytes l = v.read_bytes := by
  intro fuel
  induction fuel with
  | zero =>
    intro s s1 v _ _ _ _ _ h
    unfold mmap_loop at h
    by_cases hc : 0 < v.read_bytes ∨ 0 < v.zero_bytes
    · rw [if_pos hc] at h; cases h
    · rw [if_neg hc] at h
      cases h
      refine ⟨[], by simp, by simp, trivial, ?_⟩
      simp only [mapped_bytes, List.map_nil, List.sum_nil]
      omega
  | succ n ih =>
    intro s s1 v hv hnf ha hlt hoff h
    unfold mmap_loop at h
    by_cases hc : 0 < v.read_bytes ∨ 0 < v.zero_bytes
    · rw [if_pos hc] at h
      simp only [] at h
      generalize hprb_def : (if v.read_bytes < PGSIZE then v.read_bytes else PGSIZE) = prb at h
      have hprb : prb ≤ v.read_bytes := by rw [← hprb_def]; split <;> omega
      have hprb2 : prb ≤ PGSIZE := by rw [← hprb_def]; split <;> omega
      have hm0 := malloc_fst_of_never_fails s hnf
      rcases hms : malloc s with ⟨b, sm⟩
      rw [hms] at h hm0
      simp only at hm0
      subst hm0
      have hsm : sm = (malloc s).2 := by rw [hms]
      simp only [] at h
      generalize hal : vm_alloc_page_with_initializer sm VM_FILE v.addr writable _ _ = r at h
      cases r with
      | none => cases h
      | some r =>
        obtain ⟨b, s2⟩ := r
        cases b with
        | false => simp only [] at h; cases h
        | true =>
          simp only [] at h
          have hvm : spt_pointers_valid sm := by rw [hsm]; exact spt_pointers_valid_malloc s hv
          have hnfm : malloc_never_fails sm := by rw [hsm]; exact malloc_never_fails_tail s hnf
          obtain ⟨hu, _, hs2⟩ := alloc_true_shape sm s2 VM_FILE v.addr writable _ _
            (Or.inr rfl) ha hvm hnfm hal
          have hkb : KERN_BASE + PGSIZE ≤ PTR_MOD := by decide
          have hlt_addr : v.addr < KERN_BASE := by
            simpa [is_user_vaddr, is_kernel_vaddr] using hu
          have haddr : (v.addr + PGSIZE) % PTR_MOD = v.addr + PGSIZE :=
            Nat.mod_eq_of_lt (by omega)
          have ha2 : pg_ofs (v.addr + PGSIZE) = 0 := by
            unfold pg_ofs at ha ⊢
            rw [Nat.add_mod_right]
            exact ha
          rw [haddr, size_sub_of_le _ _ hprb hlt] at h
          have hv2 : spt_pointers_valid s2 := by rw [hs2]; exact spt_pointers_valid_new sm _ hvm
          have hnf2 : malloc_never_fails s2 := by rw [hs2]; exact malloc_never_fails_new sm _ hnfm
          have hlt2 : v.read_bytes - prb < PTR_MOD := Nat.lt_of_le_of_lt (Nat.sub_le _ _) hlt
          have hoff1 : off_t_value ((v.offset + prb) % OFF_MOD)
              = off_t_value v.offset + (prb : Int) :=
            off_t_value_add v.offset prb (by omega)
          have hoff2 : off_t_value ((v.offset + prb) % OFF_MOD)
              + ((v.read_bytes - prb : Nat) : Int) < 2 ^ 31 := by
            rw [hoff1]; omega
          obtain ⟨l, h1, h2, h3, h4⟩ := ih s2 s1
            ⟨v.addr + PGSIZE, (v.offset + prb) % OFF_MOD, v.read_bytes - prb,
              size_sub v.zero_bytes (PGSIZE - prb)⟩ hv2 hnf2 ha2 hlt2 hoff2 h
          have hheap2 : s2.page_heap = s.page_heap ++ [pending_page VM_FILE v.addr writable
              (some .lazy_load_segment) (some ⟨file, v.offset, prb, PGSIZE - prb⟩)
              (initializer_of VM_FILE)] := by
            rw [hs2, hsm]
            show (malloc s).2.page_heap ++ _ = _
            rw [malloc_page_heap]
          have hspt2 : s2.spt.hash_table = s.page_heap.length :: s.spt.hash_table := by
            rw [hs2, hsm]
            show (malloc s).2.page_heap.length :: (malloc s).2.spt.hash_table = _
            rw [malloc_page_heap, malloc_spt]
          simp only [] at h3 h4
          refine ⟨pending_page VM_FILE v.addr writable (some .lazy_load_segment)
            (some ⟨file, v.offset, prb, PGSIZE - prb⟩) (initializer_of VM_FILE) :: l,
            ?_, ?_, ?_, ?_⟩
          · rw [h1, hheap2, List.append_assoc]
            rfl
          · rw [h2, hspt2, hheap2]
            simp [List.range'_succ]
          · rw [hoff1] at h3
            refine ⟨rfl, rfl, rfl, by rfl, rfl, rfl, _, rfl, rfl, rfl, ?_, h3⟩
            show prb + (PGSIZE - prb) = PGSIZE
            omega
          · show prb + mapped_bytes l = v.read_bytes
            rw [h4]
            omega
    · rw [if_neg hc] at h
      cases h
      refine ⟨[], by simp, by simp, trivial, ?_⟩
      simp only [mapped_bytes, List.map_nil, List.sum_nil]
      omega

theorem file_reopen_some (s : VM) (file f : Nat) (h : file_reopen s file = some f) : f = file := by
  unfold file_reopen at h
  cases hf : s.files[file]? with
  | none => rw [hf] at h; cases h
  | some c => rw [hf] at h; cases h; rfl

/-- C23 (counterexample). (a) A page is already mapped at `0x1000` and the `malloc`s inside the
two lookups of the allocation fail (second and fourth `malloc` of the call).  `do_mmap` returns
`addr`, and the SPT is as before: no page was added, while `min (length, file length)` is 3.
(b) The `PGSIZE + 1` bytes of file 0 of `long_file` are mapped with `offset = 0x7FFFF000`
(page-aligned; `offset + PGSIZE` is `2 ^ 31`, one more than the largest `off_t`).  `do_mmap`
returns `addr`; the first page has the offset `2147479552` and `read_bytes = PGSIZE`, and the
second page, with the last byte, has the offset `-2147483648`, not
`2147479552 + 4096 = 2147483648`: the sum was narrowed to 32 bits. -/
theorem C23_counterexample :
    ((do_mmap 2
        { boot with page_heap := [pending_page VM_FILE 0x1000 true (some .lazy_load_segment)
                      (some ⟨0, 0, 3, 4093⟩) .file_backed_initializer],
                    spt := ⟨[0]⟩, malloc_plan := [true, false, true, false] }
        0x1000 3 true 0 0).value.map (fun r => (r.1, r.2.spt.hash_table))
      = some (0x1000, [0]) ∧
     min 3 (file_length boot 0) = 3) ∧
    (0x7FFFF000 % PGSIZE = 0 ∧ off_t_value 0x7FFFF000 = 2147479552 ∧
     file_length long_file 0 = PGSIZE + 1 ∧
     (do_mmap 3 long_file 0x1000 (PGSIZE + 1) true 0 0x7FFFF000).value.map
       (fun r => (r.1, r.2.page_heap.map (fun pg =>
         pg.uninit.aux.map (fun a => (off_t_value a.ofs, a.read_bytes)))))
       = some (0x1000, [some (2147479552, 4096), some (-2147483648, 1)])) := by
  refine ⟨⟨by rfl, by rfl⟩, by decide, by decide, long_file_length, ?_⟩
  have hre : file_reopen long_file 0 = some 0 := rfl
  simp only [do_mmap, hre, long_file_length]
  rfl

/-- C23 (amended). When no `malloc` fails and `offset + min (length, file length)` does not
exceed the largest `off_t`: if `do_mmap (addr, length, writable, file, offset)` returns a
non-null pointer, that pointer is `addr`, and the pages it added to the SPT (the list `l`,
appended to the page heap, their pointers heading the table) sit at the consecutive page
addresses `addr`, `addr + PGSIZE`, ...; each is an Uninitialized file-backed page with the
given writable flag whose descriptor has `read_bytes + zero_bytes = PGSIZE` and a file offset
equal to `offset` plus the `read_bytes` of the pages before it; and the `read_bytes` of all
pages sum to `min (length, file length)`.  (`offset` is the pattern of the `off_t` argument,
`off_t_value offset` its value, which may be negative.) -/
theorem C23_mmap_pages (fuel : Nat) (s s1 : VM) (addr length : Nat) (writable : Bool)
    (file offset r : Nat) (hlen : length < PTR_MOD)
    (hoff : off_t_value offset + ((min length (file_length s file) : Nat) : Int) < 2 ^ 31)
    (hv : spt_pointers_valid s) (hnf : malloc_never_fails s)
    (hrun : do_mmap fuel s addr length writable file offset = .returned (r, s1))
    (hr : r ≠ 0) :
    r = addr ∧
    ∃ l, s1.page_heap = s.page_heap ++ l ∧
      s1.spt.hash_table
        = (List.range' s.page_heap.length l.length).reverse ++ s.spt.hash_table ∧
      mmap_layout file writable addr (off_t_value offset) l ∧
      mapped_bytes l = min length (file_length s file) := by
  unfold do_mmap at hrun
  cases hf : file_reopen s file with
  | none => rw [hf] at hrun; cases hrun
  | some f =>
    have hff := file_reopen_some s file f hf
    subst hff
    rw [hf] at hrun
    simp only [] at hrun
    generalize hrb : (if file_length s f < length then file_length s f else length) = rb
      at hrun
    have hrb_min : rb = min length (file_length s f) := by
      rw [← hrb]
      split <;> omega
    have hrb_lt : rb < PTR_MOD := by omega
    by_cases h1 : (rb + (PGSIZE - rb % PGSIZE)) % PTR_MOD % PGSIZE ≠ 0
    · rw [if_pos h1] at hrun; cases hrun
    · rw [if_neg h1] at hrun
      by_cases h2 : pg_ofs addr ≠ 0
      · rw [if_pos h2] at hrun; cases hrun
      · rw [if_neg h2] at hrun
        by_cases h3 : offset % PGSIZE ≠ 0
        · rw [if_pos h3] at hrun; cases hrun
        · rw [if_neg h3] at hrun
          have ha2 : pg_ofs addr = 0 := not_not.mp h2
          generalize hl : mmap_loop f writable fuel s _ = res at hrun
          cases res with
          | stopped => cases hrun
          | unfinished => cases hrun
          | returned x =>
            obtain ⟨b, s2⟩ := x
            cases b with
            | false =>
              simp only [] at hrun
              cases hrun
              exact absurd rfl hr
            | true =>
              simp only [] at hrun
              cases hrun
              refine ⟨rfl, ?_⟩
              obtain ⟨l, h1, h2, h3, h4⟩ := mmap_loop_inv f writable fuel s s1
                ⟨addr, offset, rb, PGSIZE - rb % PGSIZE⟩ hv hnf ha2 hrb_lt
                (by rw [hrb_min]; exact hoff) hl
              exact ⟨l, h1, h2, h3, by rw [h4]; exact hrb_min⟩

/-- C23 (witness). The 3 bytes of file 0 mapped at `0x1000` on the empty machine. -/
theorem C23_mmap_pages_witness :
    ∃ s1, do_mmap 2 boot 0x1000 3 true 0 0 = .returned (0x1000, s1) ∧
      ∃ l, s1.page_heap = boot.page_heap ++ l ∧
        s1.spt.hash_table
          = (List.range' boot.page_heap.length l.length).reverse ++ boot.spt.hash_table ∧
        mmap_layout 0 true 0x1000 (off_t_value 0) l ∧
        mapped_bytes l = min 3 (file_length boot 0) :=
  ⟨_, rfl, (C23_mmap_pages 2 boot _ 0x1000 3 true 0 0 0x1000 (by decide) (by decide)
    (by intro q hq; cases hq) (by intro b hb; cases hb) rfl (by decide)).2⟩

/-! ### The loop of `do_munmap` -/

theorem pml4_lookup_update_none (l : List (Nat × pte)) (va va' : Nat) :
    pml4_lookup (pml4_update l va none) va'
      = if pg_round_down va' = pg_round_down va then none else pml4_lookup l va' := by
  induction l with
  | nil => simp [pml4_update, pml4_lookup]
  | cons x rest ih =>
    obtain ⟨k, old⟩ := x
    by_cases hk : k = pg_round_down va
    · by_cases hv : pg_round_down va' = pg_round_down va
      · simp [pml4_update, hk, hv, ih]
      · have hv2 : ¬ pg_round_down va = pg_round_down va' := fun h => hv h.symm
        simp [pml4_update, pml4_lookup, hk, hv, hv2, ih]
    · by_cases hv : pg_round_down va' = pg_round_down va
      · have hk2 : ¬ k = pg_round_down va' := by rw [hv]; exact hk
        simp [pml4_update, pml4_lookup, hk, hv, ih]
      · by_cases hk3 : k = pg_round_down va'
        · simp [pml4_update, pml4_lookup, hk, hv, hk3]
        · simp [pml4_update, pml4_lookup, hk, hv, hk3, ih]

theorem pml4_is_dirty_clear_other (l : List (Nat × pte)) (va va' : Nat)
    (h : pg_round_down va' ≠ pg_round_down va) :
    pml4_is_dirty (pml4_clear_page l va) va' = pml4_is_dirty l va' := by
  unfold pml4_is_dirty pml4_clear_page
  rw [pml4_lookup_update_none, if_neg h]

theorem pml4_is_dirty_set_other (l : List (Nat × pte)) (va va' : Nat) (b : Bool)
    (h : pg_round_down va' ≠ pg_round_down va) :
    pml4_is_dirty (pml4_set_dirty l va b) va' = pml4_is_dirty l va' := by
  unfold pml4_set_dirty
  cases hl : pml4_lookup l va with
  | none => rfl
  | some e =>
    simp only []
    unfold pml4_is_dirty
    rw [pml4_lookup_update_some, if_neg h]

theorem pml4_is_dirty_set_same (l : List (Nat × pte)) (va : Nat) (b : Bool)
    (h : pml4_is_dirty l va = true) : pml4_is_dirty (pml4_set_dirty l va b) va = b := by
  unfold pml4_is_dirty at h
  unfold pml4_set_dirty
  cases hl : pml4_lookup l va with
  | none => rw [hl] at h; cases h
  | some e =>
    simp only []
    unfold pml4_is_dirty
    rw [pml4_lookup_update_some, if_pos rfl, hl]
    rfl

theorem pg_round_down_ne_of_aligned (a b : Nat) (ha : pg_ofs a = 0) (hb : pg_ofs b = 0)
    (h : a ≠ b) : pg_round_down a ≠ pg_round_down b := by
  rw [pg_round_down_of_aligned a ha, pg_round_down_of_aligned b hb]
  exact h

theorem pg_ofs_add_page (a : Nat) (ha : pg_ofs a = 0) : pg_ofs (a + PGSIZE) = 0 := by
  unfold pg_ofs at ha ⊢
  rw [Nat.add_mod_right]
  exact ha

/-- The write-back owed to the page at an aligned address `B` is the same in two states with
the same pages and table whose dirty bits agree at `B`. -/
theorem page_writeback_congr (s c : VM) (B : Nat)
    (hh : c.page_heap = s.page_heap) (hs : c.spt = s.spt)
    (hd : pml4_is_dirty c.pml4 B = pml4_is_dirty s.pml4 B) :
    page_writeback c B = page_writeback s B := by
  unfold page_writeback
  rw [hh, hs]
  cases hf : hash_find s.page_heap s.spt.hash_table B with
  | none => rfl
  | some p =>
    simp only []
    cases hp : s.page_heap[p]? with
    | none => rfl
    | some pg =>
      simp only []
      have hva : pg.va = B := by
        obtain ⟨_, x, hx, hk⟩ := hash_find_some _ _ _ _ hf
        rw [hp] at hx
        cases hx
        exact hk
      rw [hva, hd]

theorem expected_writes_congr (s c : VM) (A : Nat)
    (hh : c.page_heap = s.page_heap) (hs : c.spt = s.spt)
    (hd : ∀ va, A < va → pg_ofs va = 0 → pml4_is_dirty c.pml4 va = pml4_is_dirty s.pml4 va) :
    ∀ (n B : Nat), A < B → pg_ofs B = 0 → expected_writes c B n = expected_writes s B n := by
  intro n
  induction n with
  | zero => intro B _ _; rfl
  | succ n ih =>
    intro B hB hBa
    unfold expected_writes
    rw [page_writeback_congr s c B hh hs (hd B hB hBa),
      ih (B + PGSIZE) (Nat.lt_of_lt_of_le hB (Nat.le_add_right _ _)) (pg_ofs_add_page B hBa)]

theorem pages_at_congr (s c : VM) (A : Nat) (hA : pg_ofs A = 0)
    (hh : c.page_heap = s.page_heap) (hs : c.spt = s.spt)
    (hd : ∀ va, A < va → pg_ofs va = 0 → pml4_is_dirty c.pml4 va = pml4_is_dirty s.pml4 va)
    (n : Nat) (h : pages_at c (A + PGSIZE) n) : pages_at s (A + PGSIZE) n := by
  intro k hk
  obtain ⟨p, pg, h1, h2, h3⟩ := h k hk
  rw [hh, hs] at h1
  rw [hh] at h2
  refine ⟨p, pg, h1, h2, ?_⟩
  have hva : pg.va = A + PGSIZE + k * PGSIZE := by
    obtain ⟨_, x, hx, hk⟩ := hash_find_some _ _ _ _ h1
    rw [h2] at hx
    cases hx
    exact hk
  have hal : pg_ofs (A + PGSIZE + k * PGSIZE) = 0 := by
    unfold pg_ofs at hA ⊢
    rw [Nat.add_mul_mod_self_right, Nat.add_mod_right]
    exact hA
  have hlt : A < A + PGSIZE + k * PGSIZE := by
    have : 0 < PGSIZE := by decide
    omega
  rw [hva, ← hd _ hlt hal, ← hva]
  exact h3

theorem do_munmap_stop (m : Nat) (s : VM) (addr : Nat)
    (h : (spt_find_page s s.spt addr).1 = none) :
    do_munmap (m + 1) s addr = .returned (malloc s).2 := by
  have h2 := spt_find_page_snd s s.spt addr
  unfold do_munmap
  rcases hfp : spt_find_page s s.spt addr with ⟨r, sm⟩
  rw [hfp] at h h2
  simp only at h h2
  subst h h2
  rfl

theorem do_munmap_dirty (m : Nat) (s : VM) (addr p : Nat) (pg : page) (a : lazy_load_arg)
    (hm : (malloc s).1 = true)
    (hf : hash_find s.page_heap s.spt.hash_table (pg_round_down addr) = some p)
    (hp : s.page_heap[p]? = some pg) (hd : pml4_is_dirty s.pml4 pg.va = true)
    (haux : pg.uninit.aux = some a) :
    do_munmap (m + 1) s addr = do_munmap m (after_writeback s a addr pg.va) addr := by
  have hp2 : (malloc s).2.page_heap[p]? = some pg := by rw [malloc_page_heap]; exact hp
  have hd2 : pml4_is_dirty (malloc s).2.pml4 pg.va = true := by rw [malloc_snd]; exact hd
  rw [do_munmap, spt_find_page_ok s s.spt addr hm, hf]
  simp only [hp2, hd2, haux, if_true]
  rfl

theorem do_munmap_clean (m : Nat) (s : VM) (addr p : Nat) (pg : page)
    (hm : (malloc s).1 = true)
    (hf : hash_find s.page_heap s.spt.hash_table (pg_round_down addr) = some p)
    (hp : s.page_heap[p]? = some pg) (hd : pml4_is_dirty s.pml4 pg.va = false) :
    do_munmap (m + 1) s addr
      = do_munmap m (after_unmap s pg.va) ((addr + PGSIZE) % PTR_MOD) := by
  have hp2 : (malloc s).2.page_heap[p]? = some pg := by rw [malloc_page_heap]; exact hp
  have hd2 : pml4_is_dirty (malloc s).2.pml4 pg.va = false := by rw [malloc_snd]; exact hd
  rw [do_munmap, spt_find_page_ok s s.spt addr hm, hf]
  simp only [hp2, hd2]
  rfl

theorem do_munmap_no_aux (m : Nat) (s : VM) (addr p : Nat) (pg : page)
    (hm : (malloc s).1 = true)
    (hf : hash_find s.page_heap s.spt.hash_table (pg_round_down addr) = some p)
    (hp : s.page_heap[p]? = some pg) (hd : pml4_is_dirty s.pml4 pg.va = true)
    (haux : pg.uninit.aux = none) :
    do_munmap (m + 1) s addr = .stopped := by
  have hp2 : (malloc s).2.page_heap[p]? = some pg := by rw [malloc_page_heap]; exact hp
  have hd2 : pml4_is_dirty (malloc s).2.pml4 pg.va = true := by rw [malloc_snd]; exact hd
  rw [do_munmap, spt_find_page_ok s s.spt addr hm, hf]
  simp only [hp2, hd2, haux, if_true]

theorem do_munmap_bad_pointer (m : Nat) (s : VM) (addr p : Nat)
    (hm : (malloc s).1 = true)
    (hf : hash_find s.page_heap s.spt.hash_table (pg_round_down addr) = some p)
    (hp : s.page_heap[p]? = none) :
    do_munmap (m + 1) s addr = .stopped := by
  have hp2 : (malloc s).2.page_heap[p]? = none := by rw [malloc_page_heap]; exact hp
  rw [do_munmap, spt_find_page_ok s s.spt addr hm, hf]
  simp only [hp2]

theorem spt_user_pages_congr (s c : VM) (hh : c.page_heap = s.page_heap) (hs : c.spt = s.spt)
    (h : spt_user_pages s) : spt_user_pages c := by
  intro p hp pg hpg
  rw [hs] at hp
  rw [hh] at hpg
  exact h p hp pg hpg

theorem after_writeback_page_heap (s : VM) (a : lazy_load_arg) (addr va : Nat) :
    (after_writeback s a addr va).page_heap = s.page_heap := by
  show (malloc s).2.page_heap = _
  rw [malloc_page_heap]

theorem after_writeback_spt (s : VM) (a : lazy_load_arg) (addr va : Nat) :
    (after_writeback s a addr va).spt = s.spt := by
  show (malloc s).2.spt = _
  rw [malloc_spt]

theorem after_writeback_pml4 (s : VM) (a : lazy_load_arg) (addr va : Nat) :
    (after_writeback s a addr va).pml4 = pml4_set_dirty s.pml4 va false := by
  show pml4_set_dirty (malloc s).2.pml4 va false = _
  rw [malloc_snd]

theorem after_writeback_file_writes (s : VM) (a : lazy_load_arg) (addr va : Nat) :
    (after_writeback s a addr va).file_writes
      = ⟨a.file, addr, a.read_bytes, a.ofs⟩ :: s.file_writes := by
  show _ :: (malloc s).2.file_writes = _
  rw [malloc_snd]

theorem after_unmap_page_heap (s : VM) (va : Nat) :
    (after_unmap s va).page_heap = s.page_heap := by
  show (malloc s).2.page_heap = _
  rw [malloc_page_heap]

theorem after_unmap_spt (s : VM) (va : Nat) : (after_unmap s va).spt = s.spt := by
  show (malloc s).2.spt = _
  rw [malloc_spt]

theorem after_unmap_pml4 (s : VM) (va : Nat) :
    (after_unmap s va).pml4 = pml4_clear_page s.pml4 va := by
  show pml4_clear_page (malloc s).2.pml4 va = _
  rw [malloc_snd]

theorem after_unmap_file_writes (s : VM) (va : Nat) :
    (after_unmap s va).file_writes = s.file_writes := by
  show (malloc s).2.file_writes = _
  rw [malloc_snd]

theorem after_unmap_files (s : VM) (va : Nat) : (after_unmap s va).files = s.files := by
  show (malloc s).2.files = _
  rw [malloc_snd]

theorem page_writeback_found (s : VM) (addr p : Nat) (pg : page)
    (hf : hash_find s.page_heap s.spt.hash_table addr = some p)
    (hp : s.page_heap[p]? = some pg) :
    page_writeback s addr
      = if pml4_is_dirty s.pml4 pg.va then
          (match pg.uninit.aux with
           | some a => [⟨a.file, pg.va, a.read_bytes, a.ofs⟩]
           | none => [])
        else [] := by
  unfold page_writeback
  rw [hf]
  simp only [hp]

/-- What a finished run of `do_munmap` from a page-aligned address has written: it visited
`n` pages at consecutive page addresses and made, in that order, the write-backs owed to
them; without a write-back the files are as before.  When no `malloc` fails the walk ended at
an address without page. -/
theorem munmap_writes : ∀ (fuel : Nat) (s s1 : VM) (addr : Nat),
    pg_ofs addr = 0 → spt_user_pages s → do_munmap fuel s addr = .returned s1 →
    ∃ n, pages_at s addr n ∧
      s1.file_writes = (expected_writes s addr n).reverse ++ s.file_writes ∧
      (expected_writes s addr n = [] → s1.files = s.files) ∧
      (malloc_never_fails s →
        hash_find s.page_heap s.spt.hash_table (addr + n * PGSIZE) = none) := by
  intro fuel
  induction fuel with
  | zero =>
    intro s s1 addr _ _ h
    unfold do_munmap at h
    cases h
  | succ m ih =>
    intro s s1 addr ha hu h
    have hrd := pg_round_down_of_aligned addr ha
    have hstop : ∀ s0 : VM,
        (malloc_never_fails s →
          hash_find s.page_heap s.spt.hash_table (addr + 0 * PGSIZE) = none) →
        (loop_result.returned (malloc s).2 = loop_result.returned s0) →
        ∃ n, pages_at s addr n ∧
          s0.file_writes = (expected_writes s addr n).reverse ++ s.file_writes ∧
          (expected_writes s addr n = [] → s0.files = s.files) ∧
          (malloc_never_fails s →
            hash_find s.page_heap s.spt.hash_table (addr + n * PGSIZE) = none) := by
      intro s0 hend h0
      cases h0
      refine ⟨0, fun k hk => absurd hk (Nat.not_lt_zero k), ?_, fun _ => ?_, hend⟩
      · rw [malloc_snd]; rfl
      · rw [malloc_snd]
    cases hm : (malloc s).1 with
    | false =>
      rw [do_munmap_stop m s addr (by rw [spt_find_page_fail s s.spt addr hm])] at h
      exact hstop s1 (fun hnf => by
        have := malloc_fst_of_never_fails s hnf
        rw [hm] at this
        cases this) h
    | true =>
      cases hf : hash_find s.page_heap s.spt.hash_table addr with
      | none =>
        rw [do_munmap_stop m s addr (by rw [spt_find_page_ok s s.spt addr hm, hrd, hf])] at h
        exact hstop s1 (fun _ => by rw [Nat.zero_mul, Nat.add_zero]; exact hf) h
      | some p =>
        have hf2 : hash_find s.page_heap s.spt.hash_table (pg_round_down addr) = some p := by
          rw [hrd]; exact hf
        cases hp : s.page_heap[p]? with
        | none =>
          rw [do_munmap_bad_pointer m s addr p hm hf2 hp] at h
          cases h
        | some pg =>
          obtain ⟨hmem, x, hx, hva⟩ := hash_find_some _ _ _ _ hf
          rw [hp] at hx
          cases hx
          have huser : is_user_vaddr addr = true := by rw [← hva]; exact hu p hmem pg hp
          have hlt_addr : addr < KERN_BASE := by
            simpa [is_user_vaddr, is_kernel_vaddr] using huser
          have hkb : KERN_BASE + PGSIZE ≤ PTR_MOD := by decide
          have hpos : 0 < PGSIZE := by decide
          have hother : ∀ va, addr < va → pg_ofs va = 0 →
              pg_round_down va ≠ pg_round_down pg.va := by
            intro va hlt hal
            rw [hva]
            exact pg_round_down_ne_of_aligned va addr hal ha (Nat.ne_of_gt hlt)
          cases hd : pml4_is_dirty s.pml4 pg.va with
          | true =>
            cases haux : pg.uninit.aux with
            | none =>
              rw [do_munmap_no_aux m s addr p pg hm hf2 hp hd haux] at h
              cases h
            | some a =>
              rw [do_munmap_dirty m s addr p pg a hm hf2 hp hd haux] at h
              have hh := after_writeback_page_heap s a addr pg.va
              have hs := after_writeback_spt s a addr pg.va
              have hdirty : ∀ va, addr < va → pg_ofs va = 0 →
                  pml4_is_dirty (after_writeback s a addr pg.va).pml4 va
                    = pml4_is_dirty s.pml4 va := by
                intro va hlt hal
                rw [after_writeback_pml4]
                exact pml4_is_dirty_set_other _ _ _ _ (hother va hlt hal)
              have hclean : pml4_is_dirty (after_writeback s a addr pg.va).pml4 pg.va = false := by
                rw [after_writeback_pml4]
                exact pml4_is_dirty_set_same _ _ _ hd
              obtain ⟨n2, hv2, hw2, _, he2⟩ := ih _ s1 addr ha
                (spt_user_pages_congr s _ hh hs hu) h
              have hend2 : malloc_never_fails s →
                  hash_find s.page_heap s.spt.hash_table (addr + n2 * PGSIZE) = none := by
                intro hnf
                have h5 := he2 (fun b hb => hnf b (malloc_plan_sub s b hb))
                rw [hh, hs] at h5
                exact h5
              have hwb : page_writeback s addr = [⟨a.file, addr, a.read_bytes, a.ofs⟩] := by
                rw [page_writeback_found s addr p pg hf hp, hd, haux, hva]
                rfl
              have hwb2 : page_writeback (after_writeback s a addr pg.va) addr = [] := by
                rw [page_writeback_found _ addr p pg (by rw [hh, hs]; exact hf)
                  (by rw [hh]; exact hp), hclean]
                rfl
              have h0 : ∃ p0 pg0, hash_find s.page_heap s.spt.hash_table (addr + 0 * PGSIZE)
                  = some p0 ∧ s.page_heap[p0]? = some pg0 ∧
                  (pml4_is_dirty s.pml4 pg0.va = true → ∃ a0, pg0.uninit.aux = some a0) :=
                ⟨p, pg, by rw [Nat.zero_mul, Nat.add_zero]; exact hf, hp, fun _ => ⟨a, haux⟩⟩
              cases n2 with
              | zero =>
                refine ⟨1, ?_, ?_, ?_, ?_⟩
                · intro k hk
                  have hk0 : k = 0 := by omega
                  subst hk0
                  exact h0
                · rw [hw2, after_writeback_file_writes]
                  show _ = (page_writeback s addr ++ []).reverse ++ _
                  rw [hwb]
                  rfl
                · intro he
                  exfalso
                  have : page_writeback s addr ++ [] = [] := he
                  rw [hwb] at this
                  cases this
                · intro hnf
                  exfalso
                  have h5 := hend2 hnf
                  rw [Nat.zero_mul, Nat.add_zero, hf] at h5
                  cases h5
              | succ n3 =>
                have hrest := expected_writes_congr s _ addr hh hs hdirty n3 (addr + PGSIZE)
                  (by omega) (pg_ofs_add_page addr ha)
                have hv3 : pages_at s (addr + PGSIZE) n3 := by
                  apply pages_at_congr s _ addr ha hh hs hdirty
                  intro k hk
                  have := hv2 (k + 1) (by omega)
                  rw [show addr + (k + 1) * PGSIZE = addr + PGSIZE + k * PGSIZE from by
                    rw [Nat.add_mul, Nat.one_mul]; omega] at this
                  exact this
                refine ⟨n3 + 1, ?_, ?_, ?_, ?_⟩
                · intro k hk
                  cases k with
                  | zero => exact h0
                  | succ k =>
                    have := hv3 k (by omega)
                    rw [show addr + (k + 1) * PGSIZE = addr + PGSIZE + k * PGSIZE from by
                      rw [Nat.add_mul, Nat.one_mul]; omega]
                    exact this
                · rw [hw2, after_writeback_file_writes]
                  show (page_writeback _ addr ++ expected_writes _ (addr + PGSIZE) n3).reverse
                      ++ _ = (page_writeback s addr ++ expected_writes s (addr + PGSIZE) n3).reverse
                      ++ _
                  rw [hwb2, hwb, hrest]
                  simp
                · intro he
                  exfalso
                  have : page_writeback s addr ++ expected_writes s (addr + PGSIZE) n3 = [] := he
                  rw [hwb] at this
                  cases this
                · exact hend2
          | false =>
            rw [do_munmap_clean m s addr p pg hm hf2 hp hd,
              Nat.mod_eq_of_lt (show addr + PGSIZE < PTR_MOD by omega)] at h
            have hh := after_unmap_page_heap s pg.va
            have hs := after_unmap_spt s pg.va
            have hdirty : ∀ va, addr < va → pg_ofs va = 0 →
                pml4_is_dirty (after_unmap s pg.va).pml4 va = pml4_is_dirty s.pml4 va := by
              intro va hlt hal
              rw [after_unmap_pml4]
              exact pml4_is_dirty_clear_other _ _ _ (hother va hlt hal)
            obtain ⟨n2, hv2, hw2, hfl2, he2⟩ := ih _ s1 (addr + PGSIZE) (pg_ofs_add_page addr ha)
              (spt_user_pages_congr s _ hh hs hu) h
            have hrest := expected_writes_congr s _ addr hh hs hdirty n2 (addr + PGSIZE)
              (by omega) (pg_ofs_add_page addr ha)
            have hwb : page_writeback s addr = [] := by
              rw [page_writeback_found s addr p pg hf hp, hd]
              rfl
            have hv3 := pages_at_congr s _ addr ha hh hs hdirty n2 hv2
            refine ⟨n2 + 1, ?_, ?_, ?_, ?_⟩
            · intro k hk
              cases k with
              | zero =>
                exact ⟨p, pg, by rw [Nat.zero_mul, Nat.add_zero]; exact hf, hp,
                  fun h1 => by rw [hd] at h1; cases h1⟩
              | succ k =>
                have := hv3 k (by omega)
                rw [show addr + (k + 1) * PGSIZE = addr + PGSIZE + k * PGSIZE from by
                  rw [Nat.add_mul, Nat.one_mul]; omega]
                exact this
            · rw [hw2, after_unmap_file_writes, hrest]
              show _ = (page_writeback s addr ++ expected_writes s (addr + PGSIZE) n2).reverse
                ++ _
              rw [hwb]
              rfl
            · intro he
              have he2 : page_writeback s addr ++ expected_writes s (addr + PGSIZE) n2 = [] := he
              rw [hwb, List.nil_append] at he2
              rw [hfl2 (by rw [hrest]; exact he2), after_unmap_files]
            · intro hnf
              have h5 := he2 (fun b hb => hnf b (malloc_plan_sub s b hb))
              rw [hh, hs] at h5
              rw [show addr + (n2 + 1) * PGSIZE = addr + PGSIZE + n2 * PGSIZE from by
                rw [Nat.add_mul, Nat.one_mul]; omega]
              exact h5

theorem two_mappings_user : spt_user_pages two_mappings := by
  intro p hp pg hpg
  have h01 : p = 1 ∨ p = 0 := by simpa [two_mappings] using hp
  rcases h01 with rfl | rfl
  · have : pg = resident_file_page 0x2000 1 ⟨1, 0, 3, 4093⟩ := by
      have h2 : some (resident_file_page 0x2000 1 ⟨1, 0, 3, 4093⟩) = some pg := hpg
      exact (Option.some.inj h2).symm
    subst this
    decide
  · have : pg = resident_file_page 0x1000 0 ⟨0, 0, 3, 4093⟩ := by
      have h2 : some (resident_file_page 0x1000 0 ⟨0, 0, 3, 4093⟩) = some pg := hpg
      exact (Option.some.inj h2).symm
    subst this
    decide

/-- C26 (counterexample). `do_munmap (0x2001)` on `two_mappings`: the page at `0x2000` is dirty
and its first `read_bytes = 3` bytes are `9, 5, 6`.  The write-back owed to it takes its bytes
from `0x2000`; the call `do_munmap` makes passes the loop variable `addr = 0x2001` as the
buffer, so the bytes `5, 6, 0` from inside the page go to the file, which ends as `[5, 6, 0]`
and not as the page's contents `[9, 5, 6]`. -/
theorem C26_counterexample :
    pg_ofs 0x2001 ≠ 0 ∧ pml4_is_dirty two_mappings.pml4 0x2001 = true ∧
    user_read two_mappings 0x2000 3 = [9, 5, 6] ∧
    page_writeback two_mappings 0x2000 = [⟨1, 0x2000, 3, 0⟩] ∧
    (do_munmap 3 two_mappings 0x2001).value.map (fun r => (r.file_writes, r.files))
      = some ([⟨1, 0x2001, 3, 0⟩], [[1, 2, 3], [5, 6, 0]]) := by
  refine ⟨by decide, rfl, rfl, rfl, rfl⟩

/-- C26 (amended). For a run of `do_munmap` from a page-aligned address that returns (the pages
of the table being at user addresses): it visited the pages at `n` consecutive page addresses
from `addr` on (when no `malloc` fails these are all the pages up to the first address that
has no page in the SPT), and the calls of `file_write_at` it made are exactly the write-backs
owed to those pages, in address order: one call for each visited page whose dirty bit is set,
taking `read_bytes` bytes from the page's address to the page's offset in the page's file, and
none for a visited page whose dirty bit is clear.  (No pass touches the bit of a page further
on, so the bit in `s` is the bit the page has when the walk reaches it.)  When no write-back
is owed, no call is made and the files are unchanged. -/
theorem C26_munmap_writes_back_dirty_pages (fuel : Nat) (s s1 : VM) (addr : Nat)
    (ha : pg_ofs addr = 0) (hu : spt_user_pages s)
    (hrun : do_munmap fuel s addr = .returned s1) :
    ∃ n, pages_at s addr n ∧
      (malloc_never_fails s →
        hash_find s.page_heap s.spt.hash_table (addr + n * PGSIZE) = none) ∧
      s1.file_writes = (expected_writes s addr n).reverse ++ s.file_writes ∧
      (expected_writes s addr n = [] → s1.file_writes = s.file_writes ∧ s1.files = s.files) := by
  obtain ⟨n, h1, h2, h3, h4⟩ := munmap_writes fuel s s1 addr ha hu hrun
  refine ⟨n, h1, h4, h2, fun he => ⟨?_, h3 he⟩⟩
  rw [h2, he]
  rfl

/-- C26 (witness). The two mappings of `two_mappings`, the second one dirty: the walk from
`0x1000` visits both pages and makes one call, for the second page. -/
theorem C26_munmap_writes_back_dirty_pages_witness :
    ∃ s1, do_munmap 4 two_mappings 0x1000 = .returned s1 ∧
      ∃ n, pages_at two_mappings 0x1000 n ∧
        (malloc_never_fails two_mappings →
          hash_find two_mappings.page_heap two_mappings.spt.hash_table (0x1000 + n * PGSIZE)
            = none) ∧
        s1.file_writes = (expected_writes two_mappings 0x1000 n).reverse
          ++ two_mappings.file_writes ∧
        (expected_writes two_mappings 0x1000 n = [] →
          s1.file_writes = two_mappings.file_writes ∧ s1.files = two_mappings.files) :=
  ⟨_, rfl, C26_munmap_writes_back_dirty_pages 4 two_mappings _ 0x1000 (by decide)
    two_mappings_user rfl⟩

/-! ### lib/kernel/bitmap.c -/

theorem and_bit_mask (w k : Nat) : decide (w &&& bit_mask k ≠ 0) = w.testBit (k % ELEM_BITS) := by
  unfold bit_mask
  rw [Nat.one_shiftLeft, Nat.and_two_pow]
  cases h : w.testBit (k % ELEM_BITS) <;> simp

theorem elem_in_range (b : bitmap) (hok : bitmap_ok b) (idx : Nat) (h : idx < b.bit_cnt) :
    idx / ELEM_BITS < b.bits.length := by
  have h1 := hok.1
  apply Nat.div_lt_of_lt_mul
  omega

theorem bitmap_test_eq (b : bitmap) (hok : bitmap_ok b) (idx : Nat) (h : idx < b.bit_cnt) :
    bitmap_test b idx = some (bit_value b idx) := by
  have hlt := elem_in_range b hok idx h
  unfold bitmap_test bit_value elem_idx
  rw [if_pos h, List.getElem?_eq_getElem hlt]
  simp only [and_bit_mask]

theorem bit_cnt_lt (b : bitmap) (hok : bitmap_ok b) : b.bit_cnt < SIZE_MOD := by
  have := hok.2
  unfold BITMAP_ERROR at this
  unfold SIZE_MOD
  omega

theorem contains_loop_spec (b : bitmap) (hok : bitmap_ok b) (start : Nat) (value : Bool) :
    ∀ (n i : Nat), start + i + n ≤ b.bit_cnt →
      ∃ r, contains_loop b start value n i = some r ∧
        (r = true ↔ ∃ j, i ≤ j ∧ j < i + n ∧ bit_value b (start + j) = value) := by
  intro n
  induction n with
  | zero =>
    intro i _
    refine ⟨false, rfl, ⟨fun h => Bool.noConfusion h, ?_⟩⟩
    rintro ⟨j, h1, h2, _⟩
    omega
  | succ n ih =>
    intro i hle
    have hlt : start + i < b.bit_cnt := by omega
    have hmod : (start + i) % SIZE_MOD = start + i :=
      Nat.mod_eq_of_lt (Nat.lt_trans hlt (bit_cnt_lt b hok))
    unfold contains_loop
    rw [hmod, bitmap_test_eq b hok _ hlt]
    simp only []
    by_cases hv : bit_value b (start + i) = value
    · rw [if_pos hv]
      exact ⟨true, rfl, ⟨fun _ => ⟨i, Nat.le_refl _, by omega, hv⟩, fun _ => rfl⟩⟩
    · rw [if_neg hv]
      obtain ⟨r, hr, hiff⟩ := ih (i + 1) (by omega)
      refine ⟨r, hr, ⟨fun h => ?_, fun h => ?_⟩⟩
      · obtain ⟨j, h1, h2, h3⟩ := hiff.mp h
        exact ⟨j, by omega, by omega, h3⟩
      · obtain ⟨j, h1, h2, h3⟩ := h
        apply hiff.mpr
        have hne : j ≠ i := by
          intro he
          rw [he] at h3
          exact hv h3
        exact ⟨j, by omega, by omega, h3⟩

theorem bitmap_contains_spec (b : bitmap) (hok : bitmap_ok b) (start cnt : Nat) (value : Bool)
    (h : start + cnt ≤ b.bit_cnt) :
    ∃ r, bitmap_contains b start cnt value = some r ∧
      (r = true ↔ ∃ j, j < cnt ∧ bit_value b (start + j) = value) := by
  have hmod : (start + cnt) % SIZE_MOD = start + cnt :=
    Nat.mod_eq_of_lt (Nat.lt_of_le_of_lt h (bit_cnt_lt b hok))
  unfold bitmap_contains
  rw [if_pos (by omega : start ≤ b.bit_cnt), hmod, if_pos h]
  obtain ⟨r, hr, hiff⟩ := contains_loop_spec b hok start value cnt 0 (by omega)
  refine ⟨r, hr, ⟨fun h1 => ?_, fun h1 => ?_⟩⟩
  · obtain ⟨j, _, h2, h3⟩ := hiff.mp h1
    exact ⟨j, by omega, h3⟩
  · obtain ⟨j, h2, h3⟩ := h1
    exact hiff.mpr ⟨j, Nat.zero_le _, by omega, h3⟩

/-- A group check of `bitmap_scan`: `!bitmap_contains (b, i, cnt, !value)` holds exactly when
the `cnt` bits from `i` on all equal `value`. -/
theorem group_check (b : bitmap) (hok : bitmap_ok b) (i cnt : Nat) (value : Bool)
    (h : i + cnt ≤ b.bit_cnt) :
    ∃ r, bitmap_contains b i cnt (!value) = some r ∧ (r = false ↔ group_at b i cnt value) := by
  obtain ⟨r, hr, hiff⟩ := bitmap_contains_spec b hok i cnt (!value) h
  refine ⟨r, hr, ⟨fun h1 => ⟨h, fun j hj => ?_⟩, fun h1 => ?_⟩⟩
  · cases hb : bit_value b (i + j) <;> cases value <;> first
      | rfl
      | (exfalso
         have : r = true := hiff.mpr ⟨j, hj, by rw [hb]; rfl⟩
         rw [h1] at this
         exact Bool.noConfusion this)
  · cases hr2 : r with
    | false => rfl
    | true =>
      exfalso
      obtain ⟨j, hj, hv⟩ := hiff.mp hr2
      have := h1.2 j hj
      rw [this] at hv
      cases value <;> exact Bool.noConfusion hv

theorem scan_loop_spec (b : bitmap) (hok : bitmap_ok b) (cnt : Nat) (value : Bool) :
    ∀ (n i : Nat), (n = 0 ∨ i + n + cnt ≤ b.bit_cnt + 1) →
      ∃ r, scan_loop b cnt value n i = some r ∧
        ((r = BITMAP_ERROR ∧ ∀ k, i ≤ k → k < i + n → ¬ group_at b k cnt value) ∨
         (i ≤ r ∧ r < i + n ∧ group_at b r cnt value ∧
           ∀ k, i ≤ k → k < r → ¬ group_at b k cnt value)) := by
  intro n
  induction n with
  | zero =>
    intro i _
    exact ⟨BITMAP_ERROR, rfl, Or.inl ⟨rfl, fun k h1 h2 => by omega⟩⟩
  | succ n ih =>
    intro i hle
    obtain ⟨r, hr, hiff⟩ := group_check b hok i cnt value (by omega)
    unfold scan_loop
    rw [hr]
    cases r with
    | false =>
      exact ⟨i, rfl, Or.inr ⟨Nat.le_refl _, by omega, hiff.mp rfl, fun k h1 h2 => by omega⟩⟩
    | true =>
      have hno : ¬ group_at b i cnt value := fun hg => Bool.noConfusion (hiff.mpr hg)
      obtain ⟨r2, hr2, hcase⟩ := ih (i + 1) (by omega)
      refine ⟨r2, hr2, ?_⟩
      rcases hcase with ⟨he, hall⟩ | ⟨h1, h2, h3, h4⟩
      · refine Or.inl ⟨he, fun k hk1 hk2 => ?_⟩
        by_cases hki : k = i
        · rw [hki]; exact hno
        · exact hall k (by omega) (by omega)
      · refine Or.inr ⟨by omega, by omega, h3, fun k hk1 hk2 => ?_⟩
        by_cases hki : k = i
        · rw [hki]; exact hno
        · exact h4 k (by omega) hk2

/-- What `bitmap_scan` returns for `start` within the bitmap. -/
theorem bitmap_scan_spec (b : bitmap) (hok : bitmap_ok b) (start cnt : Nat) (value : Bool)
    (hs : start ≤ b.bit_cnt) :
    ∃ r, bitmap_scan b start cnt value = some r ∧
      ((r = BITMAP_ERROR ∧ ∀ k, start ≤ k → ¬ group_at b k cnt value) ∨
       (r ≠ BITMAP_ERROR ∧ start ≤ r ∧ group_at b r cnt value ∧
         ∀ k, start ≤ k → k < r → ¬ group_at b k cnt value)) := by
  unfold bitmap_scan
  rw [if_pos hs]
  by_cases hc : cnt ≤ b.bit_cnt
  · rw [if_pos hc]
    simp only []
    obtain ⟨r, hr, hcase⟩ := scan_loop_spec b hok cnt value (b.bit_cnt - cnt + 1 - start) start
      (by omega)
    refine ⟨r, hr, ?_⟩
    rcases hcase with ⟨he, hall⟩ | ⟨h1, h2, h3, h4⟩
    · refine Or.inl ⟨he, fun k hk hg => ?_⟩
      have := hg.1
      exact hall k hk (by omega) hg
    · refine Or.inr ⟨?_, h1, h3, h4⟩
      have h5 := h3.1
      have h6 := hok.2
      omega
  · rw [if_neg hc]
    refine ⟨BITMAP_ERROR, rfl, Or.inl ⟨rfl, fun k _ hg => ?_⟩⟩
    have := hg.1
    omega

theorem bit_value_set (b : bitmap) (idx : Nat) (w1 : Nat) (x : Nat)
    (hlt : idx / ELEM_BITS < b.bits.length) :
    bit_value { b with bits := b.bits.set (idx / ELEM_BITS) w1 } x
      = if x / ELEM_BITS = idx / ELEM_BITS then w1.testBit (x % ELEM_BITS)
        else bit_value b x := by
  unfold bit_value
  simp only [List.getElem?_set]
  by_cases hq : x / ELEM_BITS = idx / ELEM_BITS
  · rw [if_pos hq.symm, if_pos hlt, if_pos hq]
  · rw [if_neg (fun h => hq h.symm), if_neg hq]

theorem same_elem_same_bit (x idx : Nat) (hq : x / ELEM_BITS = idx / ELEM_BITS) :
    idx % ELEM_BITS = x % ELEM_BITS ↔ x = idx := by
  have h1 := Nat.div_add_mod x ELEM_BITS
  have h2 := Nat.div_add_mod idx ELEM_BITS
  constructor
  · intro h
    rw [hq] at h1
    omega
  · intro h
    rw [h]

theorem bit_lt_elem_bits (x : Nat) : x % ELEM_BITS < 64 := Nat.mod_lt _ (by decide)

/-- What `bitmap_set` does to a bit inside the bitmap: that bit gets `value`, every other bit
and the size stay. -/
theorem bitmap_set_spec (b : bitmap) (hok : bitmap_ok b) (idx : Nat) (value : Bool)
    (h : idx < b.bit_cnt) :
    ∃ b1, bitmap_set b idx value = some b1 ∧ b1.bit_cnt = b.bit_cnt ∧
      b1.bits.length = b.bits.length ∧
      ∀ x, bit_value b1 x = if x = idx then value else bit_value b x := by
  have hlt := elem_in_range b hok idx h
  have hget : b.bits[idx / ELEM_BITS]? = some (b.bits[idx / ELEM_BITS]) :=
    List.getElem?_eq_getElem hlt
  unfold bitmap_set
  rw [if_pos h]
  cases value with
  | true =>
    simp only [if_true, bitmap_mark, elem_idx, hget]
    refine ⟨_, rfl, rfl, by simp, fun x => ?_⟩
    rw [bit_value_set b idx _ x hlt]
    by_cases hq : x / ELEM_BITS = idx / ELEM_BITS
    · rw [if_pos hq, Nat.testBit_or, bit_mask, Nat.one_shiftLeft, Nat.testBit_two_pow]
      have hb : bit_value b x = (b.bits[idx / ELEM_BITS]).testBit (x % ELEM_BITS) := by
        unfold bit_value
        rw [hq, hget]
      by_cases hx : x = idx
      · rw [if_pos hx, hx]
        simp
      · rw [if_neg hx, hb]
        have : ¬ idx % ELEM_BITS = x % ELEM_BITS := fun he =>
          hx ((same_elem_same_bit x idx hq).mp he)
        simp [this]
    · rw [if_neg hq]
      have hx : x ≠ idx := fun he => hq (by rw [he])
      rw [if_neg hx]
  | false =>
    simp only [Bool.false_eq_true, if_false, bitmap_reset, elem_idx, hget]
    refine ⟨_, rfl, rfl, by simp, fun x => ?_⟩
    rw [bit_value_set b idx _ x hlt]
    by_cases hq : x / ELEM_BITS = idx / ELEM_BITS
    · rw [if_pos hq, Nat.testBit_and, Nat.testBit_xor, bit_mask, Nat.one_shiftLeft,
        Nat.testBit_two_pow, SIZE_MOD, Nat.testBit_two_pow_sub_one]
      have hb : bit_value b x = (b.bits[idx / ELEM_BITS]).testBit (x % ELEM_BITS) := by
        unfold bit_value
        rw [hq, hget]
      have h64 := bit_lt_elem_bits x
      by_cases hx : x = idx
      · rw [if_pos hx, hx]
        simp [bit_lt_elem_bits idx]
      · rw [if_neg hx, hb]
        have : ¬ idx % ELEM_BITS = x % ELEM_BITS := fun he =>
          hx ((same_elem_same_bit x idx hq).mp he)
        simp [this, h64]
    · rw [if_neg hq]
      have hx : x ≠ idx := fun he => hq (by rw [he])
      rw [if_neg hx]

theorem set_multiple_loop_spec (start : Nat) (value : Bool) :
    ∀ (n i : Nat) (b : bitmap), bitmap_ok b → start + i + n ≤ b.bit_cnt →
      ∃ b1, set_multiple_loop start value n i b = some b1 ∧ b1.bit_cnt = b.bit_cnt ∧
        b1.bits.length = b.bits.length ∧
        ∀ x, bit_value b1 x
          = if start + i ≤ x ∧ x < start + i + n then value else bit_value b x := by
  intro n
  induction n with
  | zero =>
    intro i b _ _
    refine ⟨b, rfl, rfl, rfl, fun x => ?_⟩
    rw [if_neg (by omega)]
  | succ n ih =>
    intro i b hok hle
    have hlt : start + i < b.bit_cnt := by omega
    have hmod : (start + i) % SIZE_MOD = start + i :=
      Nat.mod_eq_of_lt (Nat.lt_trans hlt (bit_cnt_lt b hok))
    obtain ⟨b1, h1, h2, h3, h4⟩ := bitmap_set_spec b hok (start + i) value hlt
    have hok1 : bitmap_ok b1 := by
      unfold bitmap_ok
      rw [h2, h3]
      exact hok
    obtain ⟨b2, g1, g2, g3, g4⟩ := ih (i + 1) b1 hok1 (by rw [h2]; omega)
    unfold set_multiple_loop
    rw [hmod, h1]
    refine ⟨b2, g1, by rw [g2, h2], by rw [g3, h3], fun x => ?_⟩
    rw [g4 x, h4 x]
    by_cases hx : x = start + i
    · rw [if_pos hx, if_neg (by omega), if_pos (by omega)]
    · rw [if_neg hx]
      by_cases hr : start + (i + 1) ≤ x ∧ x < start + (i + 1) + n
      · rw [if_pos hr, if_pos (by omega)]
      · rw [if_neg hr, if_neg (by omega)]

theorem bitmap_set_multiple_spec (b : bitmap) (hok : bitmap_ok b) (start cnt : Nat)
    (value : Bool) (h : start + cnt ≤ b.bit_cnt) :
    ∃ b1, bitmap_set_multiple b start cnt value = some b1 ∧ b1.bit_cnt = b.bit_cnt ∧
      b1.bits.length = b.bits.length ∧
      ∀ x, bit_value b1 x = if start ≤ x ∧ x < start + cnt then value else bit_value b x := by
  have hmod : (start + cnt) % SIZE_MOD = start + cnt :=
    Nat.mod_eq_of_lt (Nat.lt_of_le_of_lt h (bit_cnt_lt b hok))
  unfold bitmap_set_multiple
  rw [if_pos (by omega : start ≤ b.bit_cnt), hmod, if_pos h]
  exact set_multiple_loop_spec start value cnt 0 b hok (by omega)

/-- C31 (counterexample). A bitmap of 8 bits, all false, scanned from `start = 9`: no index
`i >= 9` starts a group inside the bitmap, yet `bitmap_scan` does not return `BITMAP_ERROR`: its
`ASSERT (start <= b->bit_cnt)` stops the kernel. -/
theorem C31_counterexample :
    bitmap_scan ⟨8, [0]⟩ 9 1 false = none ∧
    ¬ ∃ i, 9 ≤ i ∧ group_at ⟨8, [0]⟩ i 1 false := by
  refine ⟨by rfl, ?_⟩
  rintro ⟨i, hi, hg, _⟩
  have h8 : i + 1 ≤ 8 := hg
  omega

/-- C31 (amended). For `start <= bit_cnt`, `bitmap_scan (b, start, cnt, value)` returns the
smallest index `i >= start` such that `i + cnt <= bit_cnt` and the bits `i .. i+cnt-1` all
equal `value`, and returns `BITMAP_ERROR` exactly when no such index exists.  (The function
yields an index only: the bitmap is the same before and after.) -/
theorem C31_bitmap_scan (b : bitmap) (start cnt : Nat) (value : Bool)
    (hok : bitmap_ok b) (hs : start ≤ b.bit_cnt) :
    ∃ r, bitmap_scan b start cnt value = some r ∧
      (r = BITMAP_ERROR ↔ ¬ ∃ i, start ≤ i ∧ group_at b i cnt value) ∧
      (r ≠ BITMAP_ERROR →
        start ≤ r ∧ group_at b r cnt value ∧
        ∀ i, start ≤ i → group_at b i cnt value → r ≤ i) := by
  obtain ⟨r, hr, hcase⟩ := bitmap_scan_spec b hok start cnt value hs
  refine ⟨r, hr, ?_⟩
  rcases hcase with ⟨he, hall⟩ | ⟨hne, h1, h2, h3⟩
  · refine ⟨⟨fun _ => ?_, fun _ => he⟩, fun hne => absurd he hne⟩
    rintro ⟨i, hi, hg⟩
    exact hall i hi hg
  · refine ⟨⟨fun he => absurd he hne, fun hno => absurd ⟨r, h1, h2⟩ hno⟩, fun _ => ⟨h1, h2, ?_⟩⟩
    intro i hi hg
    by_contra hlt
    exact h3 i hi (by omega) hg

/-- C31 (witness). A bitmap of 70 bits with bits 0, 1, 3 and 69 set, scanned from 0 for two
clear bits. -/
theorem C31_bitmap_scan_witness :
    ∃ r, bitmap_scan ⟨70, [0b1011, 0b100000]⟩ 0 2 false = some r ∧
      (r = BITMAP_ERROR ↔ ¬ ∃ i, 0 ≤ i ∧ group_at ⟨70, [0b1011, 0b100000]⟩ i 2 false) ∧
      (r ≠ BITMAP_ERROR →
        0 ≤ r ∧ group_at ⟨70, [0b1011, 0b100000]⟩ r 2 false ∧
        ∀ i, 0 ≤ i → group_at ⟨70, [0b1011, 0b100000]⟩ i 2 false → r ≤ i) :=
  C31_bitmap_scan ⟨70, [0b1011, 0b100000]⟩ 0 2 false ⟨by decide, by decide⟩ (by decide)

/-- C32 (counterexample). A bitmap of 8 bits, all false, and `start = 9`: `bitmap_scan` would
have to return `BITMAP_ERROR` (no group starts at or after 9) and the bitmap stay unchanged,
but neither function returns: the `ASSERT (start <= b->bit_cnt)` stops the kernel. -/
theorem C32_counterexample :
    bitmap_scan_and_flip ⟨8, [0]⟩ 9 1 false = none ∧
    bitmap_scan ⟨8, [0]⟩ 9 1 false = none ∧
    ¬ ∃ i, 9 ≤ i ∧ group_at ⟨8, [0]⟩ i 1 false := by
  refine ⟨by rfl, by rfl, ?_⟩
  rintro ⟨i, hi, hg, _⟩
  have h8 : i + 1 ≤ 8 := hg
  omega

/-- C32 (amended). For `start <= bit_cnt`, `bitmap_scan_and_flip (b, start, cnt, value)`
returns the index `bitmap_scan` returns for the same arguments; when that index is not
`BITMAP_ERROR` the bitmap afterwards has the same size and differs from the bitmap before in
exactly the bits `idx .. idx+cnt-1`, which now all equal `!value`; when it is `BITMAP_ERROR`
the bitmap is unchanged. -/
theorem C32_bitmap_scan_and_flip (b : bitmap) (start cnt : Nat) (value : Bool)
    (hok : bitmap_ok b) (hs : start ≤ b.bit_cnt) :
    ∃ idx b1, bitmap_scan_and_flip b start cnt value = some (idx, b1) ∧
      bitmap_scan b start cnt value = some idx ∧
      (idx ≠ BITMAP_ERROR →
        b1.bit_cnt = b.bit_cnt ∧
        (∀ x, bit_value b1 x ≠ bit_value b x ↔ idx ≤ x ∧ x < idx + cnt) ∧
        ∀ x, idx ≤ x → x < idx + cnt → bit_value b1 x = !value) ∧
      (idx = BITMAP_ERROR → b1 = b) := by
  obtain ⟨r, hr, hcase⟩ := bitmap_scan_spec b hok start cnt value hs
  unfold bitmap_scan_and_flip
  rw [hr]
  simp only []
  rcases hcase with ⟨he, _⟩ | ⟨hne, h1, h2, _⟩
  · rw [if_neg (not_not.mpr he)]
    exact ⟨r, b, rfl, rfl, fun hne => absurd he hne, fun _ => rfl⟩
  · rw [if_pos hne]
    obtain ⟨b1, g1, g2, _, g4⟩ := bitmap_set_multiple_spec b hok r cnt (!value) h2.1
    rw [g1]
    refine ⟨r, b1, rfl, rfl, fun _ => ⟨g2, fun x => ?_, fun x hx1 hx2 => ?_⟩,
      fun he => absurd he hne⟩
    · rw [g4 x]
      by_cases hx : r ≤ x ∧ x < r + cnt
      · rw [if_pos hx]
        have hv : bit_value b x = value := by
          have := h2.2 (x - r) (by omega)
          rw [show r + (x - r) = x from by omega] at this
          exact this
        rw [hv]
        constructor
        · intro _; exact hx
        · intro _; cases value <;> decide
      · rw [if_neg hx]
        constructor
        · intro h; exact absurd rfl h
        · intro h; exact absurd h hx
    · rw [g4 x, if_pos ⟨hx1, hx2⟩]

/-- C32 (witness). A bitmap of 70 bits with bits 0, 1, 3 and 69 set: the six clear bits from
60 on, which lie in two elements, are found and set. -/
theorem C32_bitmap_scan_and_flip_witness :
    ∃ idx b1, bitmap_scan_and_flip ⟨70, [0b1011, 0b100000]⟩ 60 6 false = some (idx, b1) ∧
      bitmap_scan ⟨70, [0b1011, 0b100000]⟩ 60 6 false = some idx ∧
      (idx ≠ BITMAP_ERROR →
        b1.bit_cnt = (⟨70, [0b1011, 0b100000]⟩ : bitmap).bit_cnt ∧
        (∀ x, bit_value b1 x ≠ bit_value ⟨70, [0b1011, 0b100000]⟩ x ↔
          idx ≤ x ∧ x < idx + 6) ∧
        ∀ x, idx ≤ x → x < idx + 6 → bit_value b1 x = !false) ∧
      (idx = BITMAP_ERROR → b1 = ⟨70, [0b1011, 0b100000]⟩) :=
  C32_bitmap_scan_and_flip ⟨70, [0b1011, 0b100000]⟩ 60 6 false ⟨by decide, by decide⟩
    (by decide)

/-! ### `validate_segment` -/

theorem and_PGMASK (x : Nat) : x &&& PGMASK = pg_ofs x := by
  have h := Nat.and_pow_two_sub_one_eq_mod x 12
  unfold PGMASK pg_ofs PGSIZE
  exact h

theorem is_user_vaddr_iff (va : Nat) : is_user_vaddr va = true ↔ va < KERN_BASE := by
  simp [is_user_vaddr, is_kernel_vaddr]

/-- C33. For a program header whose `p_memsz` is a `uint64_t` value,
`validate_segment` returns true if and only if `p_offset` and `p_vaddr` have the same page
offset, `p_offset <= file length`, `p_memsz >= p_filesz`, `p_memsz != 0`, `p_vaddr >= PGSIZE`,
and both `p_vaddr` and `p_vaddr + p_memsz`, the sum taken without wraparound, are user
addresses; hence every address of an accepted segment `[p_vaddr, p_vaddr + p_memsz)` is a user
address at or above `PGSIZE`. -/
theorem C33_validate_segment (s : VM) (phdr : Phdr) (file : Nat)
    (hm : phdr.p_memsz < PTR_MOD) :
    (validate_segment s phdr file = true ↔
      (pg_ofs phdr.p_offset = pg_ofs phdr.p_vaddr ∧ phdr.p_offset ≤ file_length s file ∧
       phdr.p_filesz ≤ phdr.p_memsz ∧ phdr.p_memsz ≠ 0 ∧ PGSIZE ≤ phdr.p_vaddr ∧
       is_user_vaddr phdr.p_vaddr = true ∧
       is_user_vaddr (phdr.p_vaddr + phdr.p_memsz) = true)) ∧
    (validate_segment s phdr file = true →
      ∀ a, phdr.p_vaddr ≤ a → a < phdr.p_vaddr + phdr.p_memsz →
        PGSIZE ≤ a ∧ is_user_vaddr a = true) := by
  have hkb : KERN_BASE < PTR_MOD := by decide
  have hiff : validate_segment s phdr file = true ↔
      (pg_ofs phdr.p_offset = pg_ofs phdr.p_vaddr ∧ phdr.p_offset ≤ file_length s file ∧
       phdr.p_filesz ≤ phdr.p_memsz ∧ phdr.p_memsz ≠ 0 ∧ PGSIZE ≤ phdr.p_vaddr ∧
       is_user_vaddr phdr.p_vaddr = true ∧
       is_user_vaddr (phdr.p_vaddr + phdr.p_memsz) = true) := by
    unfold validate_segment
    rw [and_PGMASK, and_PGMASK, is_user_vaddr_iff, is_user_vaddr_iff]
    by_cases h1 : pg_ofs phdr.p_offset ≠ pg_ofs phdr.p_vaddr
    · rw [if_pos h1]
      constructor
      · intro h; exact Bool.noConfusion h
      · intro h; exact absurd h.1 h1
    rw [if_neg h1]
    by_cases h2 : phdr.p_offset > file_length s file
    · rw [if_pos h2]
      constructor
      · intro h; exact Bool.noConfusion h
      · intro h; omega
    rw [if_neg h2]
    by_cases h3 : phdr.p_memsz < phdr.p_filesz
    · rw [if_pos h3]
      constructor
      · intro h; exact Bool.noConfusion h
      · intro h; omega
    rw [if_neg h3]
    by_cases h4 : phdr.p_memsz = 0
    · rw [if_pos h4]
      constructor
      · intro h; exact Bool.noConfusion h
      · intro h; exact absurd h4 h.2.2.2.1
    rw [if_neg h4]
    by_cases h5 : phdr.p_vaddr < KERN_BASE
    · have h5b : (!is_user_vaddr phdr.p_vaddr) = false := by
        rw [(is_user_vaddr_iff _).mpr h5]; rfl
      rw [h5b]
      simp only [Bool.false_eq_true, if_false]
      by_cases hw : phdr.p_vaddr + phdr.p_memsz < PTR_MOD
      · rw [Nat.mod_eq_of_lt hw]
        by_cases h6 : phdr.p_vaddr + phdr.p_memsz < KERN_BASE
        · have h6b : (!is_user_vaddr (phdr.p_vaddr + phdr.p_memsz)) = false := by
            rw [(is_user_vaddr_iff _).mpr h6]; rfl
          rw [h6b]
          simp only [Bool.false_eq_true, if_false]
          rw [if_neg (by omega)]
          by_cases h8 : phdr.p_vaddr < PGSIZE
          · rw [if_pos h8]
            constructor
            · intro h; exact Bool.noConfusion h
            · intro h; omega
          · rw [if_neg h8]
            constructor
            · intro _
              exact ⟨not_not.mp h1, by omega, by omega, h4, by omega, h5, h6⟩
            · intro _; rfl
        · have h6b : (!is_user_vaddr (phdr.p_vaddr + phdr.p_memsz)) = true := by
            cases hu : is_user_vaddr (phdr.p_vaddr + phdr.p_memsz) with
            | false => rfl
            | true => exact absurd ((is_user_vaddr_iff _).mp hu) h6
          rw [h6b]
          simp only [if_true]
          constructor
          · intro h; exact Bool.noConfusion h
          · intro h; exact absurd h.2.2.2.2.2.2 h6
      · have hsum : (phdr.p_vaddr + phdr.p_memsz) % PTR_MOD
            = phdr.p_vaddr + phdr.p_memsz - PTR_MOD := by
          rw [Nat.mod_eq_sub_mod (by omega)]
          exact Nat.mod_eq_of_lt (by omega)
        rw [hsum]
        have hfalse : ¬ (phdr.p_vaddr + phdr.p_memsz < KERN_BASE) := by omega
        by_cases h6 : is_user_vaddr (phdr.p_vaddr + phdr.p_memsz - PTR_MOD) = true
        · rw [h6]
          simp only [Bool.not_true, Bool.false_eq_true, if_false]
          rw [if_pos (by omega)]
          constructor
          · intro h; exact Bool.noConfusion h
          · intro h; exact absurd h.2.2.2.2.2.2 hfalse
        · have h6b : is_user_vaddr (phdr.p_vaddr + phdr.p_memsz - PTR_MOD) = false := by
            cases hu : is_user_vaddr (phdr.p_vaddr + phdr.p_memsz - PTR_MOD) with
            | false => rfl
            | true => exact absurd hu h6
          rw [h6b]
          simp only [Bool.not_false, if_true]
          constructor
          · intro h; exact Bool.noConfusion h
          · intro h; exact absurd h.2.2.2.2.2.2 hfalse
    · have h5b : (!is_user_vaddr phdr.p_vaddr) = true := by
        cases hu : is_user_vaddr phdr.p_vaddr with
        | false => rfl
        | true => exact absurd ((is_user_vaddr_iff _).mp hu) h5
      rw [h5b]
      simp only [if_true]
      constructor
      · intro h; exact Bool.noConfusion h
      · intro h; exact absurd h.2.2.2.2.2.1 h5
  refine ⟨hiff, fun hval a ha1 ha2 => ?_⟩
  obtain ⟨_, _, _, _, h5, _, h7⟩ := hiff.mp hval
  have h7b := (is_user_vaddr_iff _).mp h7
  exact ⟨by omega, (is_user_vaddr_iff _).mpr (by omega)⟩

/-- C33 (witness). A segment of `0x2000` bytes at `0x400000`, at offset 0 of file 0. -/
theorem C33_validate_segment_witness :
    (validate_segment boot ⟨1, 5, 0, 0x400000, 0, 3, 0x2000, 0x1000⟩ 0 = true ↔
      (pg_ofs 0 = pg_ofs 0x400000 ∧ 0 ≤ file_length boot 0 ∧ 3 ≤ 0x2000 ∧ 0x2000 ≠ 0 ∧
       PGSIZE ≤ 0x400000 ∧ is_user_vaddr 0x400000 = true ∧
       is_user_vaddr (0x400000 + 0x2000) = true)) ∧
    (validate_segment boot ⟨1, 5, 0, 0x400000, 0, 3, 0x2000, 0x1000⟩ 0 = true →
      ∀ a, 0x400000 ≤ a → a < 0x400000 + 0x2000 → PGSIZE ≤ a ∧ is_user_vaddr a = true) :=
  C33_validate_segment boot ⟨1, 5, 0, 0x400000, 0, 3, 0x2000, 0x1000⟩ 0 (by decide)

/-! ### The clock scan of `vm_get_victim` -/

/-- C36 (failing input). The state `three_frames`: the frame table lists the frames 0, 1, 2,
only frame 0 has its accessed bit set, and `clock_ref` is as `vm_init` left it.  The first
`vm_get_victim` returns frame 1 (and clears the bit of frame 0); `clock_ref` is still
`list_end`, neither the position of frame 1 nor the one after it (frame 2).  The second
`vm_get_victim` starts at the head of the table again and returns frame 0, not frame 1 or
frame 2; `clock_ref` is `list_end` as before. -/
theorem C36_cursor_stays_at_list_end :
    boot.clock_ref = none ∧ three_frames.clock_ref = none ∧
    (vm_get_victim three_frames).map (fun r => (r.1, r.2.clock_ref, r.2.frame_table))
      = some (some 1, none, [0, 1, 2]) ∧
    (vm_get_victim three_frames).bind
      (fun r => (vm_get_victim r.2).map (fun r2 => (r2.1, r2.2.clock_ref)))
      = some (some 0, none) := by
  refine ⟨rfl, rfl, by rfl, by rfl⟩

theorem mmap_loop_finishes (file : Nat) (writable : Bool) :
    ∀ (n : Nat) (v : mmap_vars),
      ¬ (0 < (mmap_next^[n] v).read_bytes ∨ 0 < (mmap_next^[n] v).zero_bytes) →
      ∀ (fuel : Nat) (s : VM), n ≤ fuel → mmap_loop file writable fuel s v ≠ .unfinished := by
  intro n
  induction n with
  | zero =>
    intro v hm fuel s _
    rw [Function.iterate_zero, id] at hm
    cases fuel with
    | zero => rw [mmap_loop, if_neg hm]; exact fun h => by cases h
    | succ g => rw [mmap_loop, if_neg hm]; exact fun h => by cases h
  | succ n ih =>
    intro v hm fuel s hle
    rw [Function.iterate_succ_apply] at hm
    cases fuel with
    | zero => omega
    | succ g =>
      rw [mmap_loop]
      by_cases hc : 0 < v.read_bytes ∨ 0 < v.zero_bytes
      · rw [if_pos hc]
        simp only []
        rcases hms : malloc s with ⟨b, sm⟩
        cases b with
        | false => exact fun h => by cases h
        | true =>
          simp only []
          generalize hal : vm_alloc_page_with_initializer sm VM_FILE v.addr writable _ _ = r
          cases r with
          | none => exact fun h => by cases h
          | some r =>
            obtain ⟨b, s2⟩ := r
            cases b with
            | false => exact fun h => by cases h
            | true => exact ih (mmap_next v) hm g s2 (by omega)
      · rw [if_neg hc]; exact fun h => by cases h

theorem mmap_loop_needs (file : Nat) (writable : Bool) :
    ∀ (fuel : Nat) (s s1 : VM) (v : mmap_vars) (m : Nat),
      (∀ k, k < m → 0 < (mmap_next^[k] v).read_bytes ∨ 0 < (mmap_next^[k] v).zero_bytes) →
      mmap_loop file writable fuel s v = .returned (true, s1) → m ≤ fuel := by
  intro fuel
  induction fuel with
  | zero =>
    intro s s1 v m hm h
    cases m with
    | zero => exact Nat.le_refl _
    | succ m =>
      have hc := hm 0 (by omega)
      rw [Function.iterate_zero, id] at hc
      rw [mmap_loop, if_pos hc] at h
      cases h
  | succ g ih =>
    intro s s1 v m hm h
    cases m with
    | zero => omega
    | succ m =>
      have hc := hm 0 (by omega)
      rw [Function.iterate_zero, id] at hc
      rw [mmap_loop, if_pos hc] at h
      simp only [] at h
      rcases hms : malloc s with ⟨b, sm⟩
      rw [hms] at h
      cases b with
      | false => cases h
      | true =>
        simp only [] at h
        generalize hal : vm_alloc_page_with_initializer sm VM_FILE v.addr writable _ _ = r at h
        cases r with
        | none => cases h
        | some r =>
          obtain ⟨b, s2⟩ := r
          cases b with
          | false => simp only [] at h; cases h
          | true =>
            have := ih s2 s1 (mmap_next v) m (fun k hk => by
              have := hm (k + 1) (by omega)
              rw [Function.iterate_succ_apply] at this
              exact this) h
            omega

theorem mmap_next_read (v : mmap_vars) :
    (mmap_next v).read_bytes
      = size_sub v.read_bytes (if v.read_bytes < PGSIZE then v.read_bytes else PGSIZE) := rfl

theorem mmap_next_zero (v : mmap_vars) :
    (mmap_next v).zero_bytes
      = size_sub v.zero_bytes
          (PGSIZE - (if v.read_bytes < PGSIZE then v.read_bytes else PGSIZE)) := rfl

/-- While whole pages of `read_bytes` remain, a pass takes `PGSIZE` from `read_bytes` and
nothing from `zero_bytes`. -/
theorem mmap_next_iterate (v : mmap_vars) (hr : v.read_bytes < PTR_MOD)
    (hz : v.zero_bytes < PTR_MOD) :
    ∀ k, k * PGSIZE ≤ v.read_bytes →
      (mmap_next^[k] v).read_bytes = v.read_bytes - k * PGSIZE ∧
      (mmap_next^[k] v).zero_bytes = v.zero_bytes := by
  intro k
  induction k with
  | zero => intro _; simp
  | succ k ih =>
    intro hk
    have hP : PGSIZE = 4096 := rfl
    rw [hP] at hk
    obtain ⟨h1, h2⟩ := ih (by rw [hP]; omega)
    rw [Function.iterate_succ_apply', mmap_next_read, mmap_next_zero, h1, h2]
    rw [hP] at *
    have hnot : ¬ v.read_bytes - k * 4096 < 4096 := by omega
    rw [if_neg hnot, size_sub_of_le _ _ (by omega) (by omega),
      size_sub_of_le _ _ (by omega) hz]
    constructor <;> omega

/-- The last pass: fewer than `PGSIZE` bytes are left to read, and `zero_bytes` is what fills
the page. -/
theorem mmap_next_last (v : mmap_vars) (hr : v.read_bytes < PGSIZE)
    (hz : v.zero_bytes = PGSIZE - v.read_bytes) :
    (mmap_next v).read_bytes = 0 ∧ (mmap_next v).zero_bytes = 0 := by
  have hP : PGSIZE = 4096 := rfl
  have hM : PGSIZE < PTR_MOD := by decide
  rw [mmap_next_read, mmap_next_zero, if_pos hr, hz,
    size_sub_of_le _ _ (Nat.le_refl _) (by omega),
    size_sub_of_le _ _ (Nat.le_refl _) (by omega)]
  constructor <;> omega

/-- C38 (amended). In `do_mmap`, for every `length` and file length with `read_bytes + PGSIZE` below
`2 ^ 64`: `read_bytes + zero_bytes` does not overflow and the assertion
`(read_bytes + zero_bytes) % PGSIZE == 0` holds.  With `n = (read_bytes + zero_bytes) / PGSIZE`:
before each of the first `n` passes the loop condition holds, and in the pass
`page_read_bytes <= read_bytes` and `page_zero_bytes <= zero_bytes`, so neither subtraction
wraps; after `n` passes that reached the end of the loop body both variables are zero and the
loop condition fails.  Hence from any state the loop is over within `n` passes, and so is
`do_mmap`; and a run of the loop that no pass leaves early (the loop ends with its condition
false) makes no fewer than `n` passes, so exactly `n`. -/
theorem C38_mmap_loop_passes (s : VM) (addr length : Nat) (writable : Bool) (file offset : Nat)
    (hover : (mmap_entry s addr length file offset).read_bytes + PGSIZE < PTR_MOD) :
    let v := mmap_entry s addr length file offset
    let n := (v.read_bytes + v.zero_bytes) / PGSIZE
    v.read_bytes + v.zero_bytes < PTR_MOD ∧
    (v.read_bytes + v.zero_bytes) % PTR_MOD % PGSIZE = 0 ∧
    (∀ k, k < n →
      (0 < (mmap_next^[k] v).read_bytes ∨ 0 < (mmap_next^[k] v).zero_bytes) ∧
      (if (mmap_next^[k] v).read_bytes < PGSIZE then (mmap_next^[k] v).read_bytes else PGSIZE)
        ≤ (mmap_next^[k] v).read_bytes ∧
      PGSIZE - (if (mmap_next^[k] v).read_bytes < PGSIZE then (mmap_next^[k] v).read_bytes
          else PGSIZE) ≤ (mmap_next^[k] v).zero_bytes) ∧
    (mmap_next^[n] v).read_bytes = 0 ∧ (mmap_next^[n] v).zero_bytes = 0 ∧
    (∀ fuel s0, n ≤ fuel → mmap_loop file writable fuel s0 v ≠ .unfinished) ∧
    (∀ fuel s0 s1, mmap_loop file writable fuel s0 v = .returned (true, s1) → n ≤ fuel) ∧
    (∀ fuel, n ≤ fuel → do_mmap fuel s addr length writable file offset ≠ .unfinished) := by
  intro v n
  have hP : PGSIZE = 4096 := rfl
  have hz : v.zero_bytes = PGSIZE - v.read_bytes % PGSIZE := rfl
  have hr : v.read_bytes < PTR_MOD := by
    have : v.read_bytes + PGSIZE < PTR_MOD := hover
    omega
  have hzlt : v.zero_bytes < PTR_MOD := by
    have : PGSIZE < PTR_MOD := by decide
    rw [hz]; omega
  have hn : n = v.read_bytes / PGSIZE + 1 := by
    show (v.read_bytes + v.zero_bytes) / PGSIZE = _
    rw [hz, hP]; omega
  have hsum : v.read_bytes + v.zero_bytes < PTR_MOD := by
    have : v.read_bytes + PGSIZE < PTR_MOD := hover
    rw [hz]; rw [hP] at this ⊢; omega
  have hiter := mmap_next_iterate v hr hzlt
  have hpasses : ∀ k, k < n →
      (0 < (mmap_next^[k] v).read_bytes ∨ 0 < (mmap_next^[k] v).zero_bytes) ∧
      (if (mmap_next^[k] v).read_bytes < PGSIZE then (mmap_next^[k] v).read_bytes else PGSIZE)
        ≤ (mmap_next^[k] v).read_bytes ∧
      PGSIZE - (if (mmap_next^[k] v).read_bytes < PGSIZE then (mmap_next^[k] v).read_bytes
          else PGSIZE) ≤ (mmap_next^[k] v).zero_bytes := by
    intro k hk
    have hk2 : k * PGSIZE ≤ v.read_bytes := by
      rw [hn] at hk
      have := Nat.div_mul_le_self v.read_bytes PGSIZE
      have : k * PGSIZE ≤ v.read_bytes / PGSIZE * PGSIZE :=
        Nat.mul_le_mul_right _ (by omega)
      omega
    obtain ⟨h1, h2⟩ := hiter k hk2
    rw [h1, h2, hz]
    rw [hP] at hk2 ⊢
    rw [hn, hP] at hk
    refine ⟨Or.inr (by omega), by split <;> omega, ?_⟩
    split <;> omega
  have hlast : (mmap_next^[n] v).read_bytes = 0 ∧ (mmap_next^[n] v).zero_bytes = 0 := by
    rw [hn, Function.iterate_succ_apply']
    have hq : v.read_bytes / PGSIZE * PGSIZE ≤ v.read_bytes := Nat.div_mul_le_self _ _
    obtain ⟨h1, h2⟩ := hiter _ hq
    apply mmap_next_last
    · rw [h1, hP]; rw [hP] at hq; omega
    · rw [h1, h2, hz, hP]; rw [hP] at hq; omega
  have hfin : ∀ fuel s0, n ≤ fuel → mmap_loop file writable fuel s0 v ≠ .unfinished :=
    fun fuel s0 hle => mmap_loop_finishes file writable n v
      (by rw [hlast.1, hlast.2]; omega) fuel s0 hle
  refine ⟨hsum, ?_, hpasses, hlast.1, hlast.2, hfin, ?_, ?_⟩
  · rw [Nat.mod_eq_of_lt hsum, hz, hP]; omega
  · intro fuel s0 s1 h
    exact mmap_loop_needs file writable fuel s0 s1 v n (fun k hk => (hpasses k hk).1) h
  · intro fuel hle
    have h3 := hfin fuel s hle
    unfold do_mmap
    cases hre : file_reopen s file with
    | none => exact fun h => by cases h
    | some f =>
      have hf := file_reopen_some s file f hre
      subst hf
      show (if (v.read_bytes + v.zero_bytes) % PTR_MOD % PGSIZE ≠ 0 then loop_result.stopped
        else if pg_ofs addr ≠ 0 then loop_result.stopped
        else if offset % PGSIZE ≠ 0 then loop_result.stopped
        else
          match mmap_loop f writable fuel s v with
          | .returned (true, s1) => loop_result.returned (addr, s1)
          | .returned (false, s1) => loop_result.returned (0, s1)
          | .stopped => loop_result.stopped
          | .unfinished => loop_result.unfinished) ≠ loop_result.unfinished
      by_cases c1 : (v.read_bytes + v.zero_bytes) % PTR_MOD % PGSIZE ≠ 0
      · rw [if_pos c1]; exact fun h => by cases h
      · rw [if_neg c1]
        by_cases c2 : pg_ofs addr ≠ 0
        · rw [if_pos c2]; exact fun h => by cases h
        · rw [if_neg c2]
          by_cases c3 : offset % PGSIZE ≠ 0
          · rw [if_pos c3]; exact fun h => by cases h
          · rw [if_neg c3]
            cases hml : mmap_loop f writable fuel s v with
            | unfinished => exact absurd hml h3
            | stopped => exact fun h => by cases h
            | returned r =>
              obtain ⟨b, s1⟩ := r
              cases b <;> exact fun h => by cases h

theorem page_in_the_way_length : file_length page_in_the_way 0 = PGSIZE := by
  show image_A.length = PGSIZE
  exact image_A_length

/-- C37. File 0 of `one_page_file` has exactly `PGSIZE` bytes and is mapped whole at `0x1000`:
`R = PGSIZE` and `ceil (R / PGSIZE) = 1`.  `do_mmap` returns `0x1000` and has added two pages
to the SPT: the page at `0x1000` with the `PGSIZE` bytes of the file, and a second page at
`0x2000 = addr + 1 * PGSIZE` with `read_bytes = 0` and `zero_bytes = PGSIZE`, which
`spt_find_page` finds.  (`zero_bytes` is `PGSIZE - read_bytes % PGSIZE`, which is `PGSIZE`, not
`0`, when `read_bytes` is a multiple of `PGSIZE`.) -/
theorem C37_page_sized_file_gets_two_pages :
    file_length one_page_file 0 = PGSIZE ∧
    (PGSIZE + PGSIZE - 1) / PGSIZE = 1 ∧
    one_page_file.spt.hash_table = [] ∧
    (do_mmap 3 one_page_file 0x1000 PGSIZE true 0 0).value.map
      (fun r => (r.1, r.2.spt.hash_table,
        r.2.page_heap.map (fun pg => (pg.va, pg.uninit.aux)),
        (spt_find_page r.2 r.2.spt (0x1000 + 1 * PGSIZE)).1))
      = some (0x1000, [1, 0],
          [(0x1000, some ⟨0, 0, PGSIZE, 0⟩), (0x2000, some ⟨0, PGSIZE, 0, PGSIZE⟩)],
          some 1) := by
  refine ⟨one_page_file_length, by decide, rfl, ?_⟩
  have hre : file_reopen one_page_file 0 = some 0 := rfl
  simp only [do_mmap, hre, one_page_file_length]
  rfl

/-- C38 (counterexample). (a) In `page_in_the_way` file 0 has `PGSIZE` bytes, so the loop of
`do_mmap (0x1000, PGSIZE, ..)` is entered with `read_bytes = zero_bytes = PGSIZE` and
`(read_bytes + zero_bytes) / PGSIZE = 2`; a page is already at `0x1000`, the allocation of the
first pass fails and the pass leaves the function with `return false`: one pass, not two.
(b) In `one_page_file` with a failing `malloc` of the loader context, the first pass
dereferences the `NULL` context and the kernel stops. -/
theorem C38_counterexample :
    ((mmap_entry page_in_the_way 0x1000 PGSIZE 0 0).read_bytes = PGSIZE ∧
     (mmap_entry page_in_the_way 0x1000 PGSIZE 0 0).zero_bytes = PGSIZE ∧
     (PGSIZE + PGSIZE) / PGSIZE = 2 ∧
     (do_mmap 1 page_in_the_way 0x1000 PGSIZE true 0 0).value.map (fun r => r.1) = some 0) ∧
    (∀ fuel, do_mmap (fuel + 1) { one_page_file with malloc_plan := [false] } 0x1000 PGSIZE
        true 0 0 = .stopped) := by
  have hre : file_reopen page_in_the_way 0 = some 0 := rfl
  have hentry : mmap_entry page_in_the_way 0x1000 PGSIZE 0 0 = ⟨0x1000, 0, PGSIZE, PGSIZE⟩ := by
    simp only [mmap_entry, page_in_the_way_length]
    rfl
  refine ⟨⟨by rw [hentry], by rw [hentry], by decide, ?_⟩, ?_⟩
  · simp only [do_mmap, hre, page_in_the_way_length]
    rfl
  · intro fuel
    have hre2 : file_reopen { one_page_file with malloc_plan := [false] } 0 = some 0 := rfl
    have hlen2 : file_length { one_page_file with malloc_plan := [false] } 0 = PGSIZE := by
      show image_A.length = PGSIZE
      exact image_A_length
    simp only [do_mmap, hre2, hlen2]
    rfl

/-- C38 (witness). The whole file of `one_page_file` mapped at `0x1000`: two passes. -/
theorem C38_mmap_loop_passes_witness :
    (mmap_entry one_page_file 0x1000 PGSIZE 0 0).read_bytes + PGSIZE < PTR_MOD ∧
    (∀ fuel, 2 ≤ fuel → do_mmap fuel one_page_file 0x1000 PGSIZE true 0 0 ≠ .unfinished) := by
  have hentry : mmap_entry one_page_file 0x1000 PGSIZE 0 0 = ⟨0x1000, 0, PGSIZE, PGSIZE⟩ := by
    simp only [mmap_entry, one_page_file_length]
    rfl
  have hover : (mmap_entry one_page_file 0x1000 PGSIZE 0 0).read_bytes + PGSIZE < PTR_MOD := by
    rw [hentry]; decide
  have h := (C38_mmap_loop_passes one_page_file 0x1000 PGSIZE true 0 0 hover).2.2.2.2.2.2.2
  rw [hentry] at h
  exact ⟨hover, h⟩

/-! ### The walk of `do_munmap` -/

theorem pml4_is_dirty_round (l : List (Nat × pte)) (va : Nat) :
    pml4_is_dirty l (pg_round_down va) = pml4_is_dirty l va := by
  unfold pml4_is_dirty
  rw [pml4_lookup_same_page l va (pg_round_down va) (pg_round_down_idem va)]

theorem pml4_is_dirty_same_page (l : List (Nat × pte)) (va va' : Nat)
    (h : pg_round_down va' = pg_round_down va) : pml4_is_dirty l va' = pml4_is_dirty l va := by
  unfold pml4_is_dirty
  rw [pml4_lookup_same_page l va va' h]

theorem pml4_is_dirty_set_false (l : List (Nat × pte)) (va : Nat) :
    pml4_is_dirty (pml4_set_dirty l va false) va = false := by
  unfold pml4_set_dirty
  cases hl : pml4_lookup l va with
  | none => simp only []; unfold pml4_is_dirty; rw [hl]
  | some e =>
    simp only []
    unfold pml4_is_dirty
    rw [pml4_lookup_update_some, if_pos rfl, hl]
    rfl

theorem pml4_is_dirty_set_mono (l : List (Nat × pte)) (va va' : Nat)
    (h : pml4_is_dirty (pml4_set_dirty l va false) va' = true) : pml4_is_dirty l va' = true := by
  by_cases hp : pg_round_down va' = pg_round_down va
  · rw [pml4_is_dirty_same_page _ va va' hp, pml4_is_dirty_set_false] at h
    cases h
  · rw [pml4_is_dirty_set_other l va va' false hp] at h
    exact h

theorem pml4_is_dirty_clear_mono (l : List (Nat × pte)) (va va' : Nat)
    (h : pml4_is_dirty (pml4_clear_page l va) va' = true) : pml4_is_dirty l va' = true := by
  by_cases hp : pg_round_down va' = pg_round_down va
  · unfold pml4_is_dirty pml4_clear_page at h
    rw [pml4_lookup_update_none, if_pos hp] at h
    cases h
  · rw [pml4_is_dirty_clear_other l va va' hp] at h
    exact h

theorem walk_passes_congr (s c : VM) : ∀ (n addr : Nat),
    (∀ k, k < n → pml4_is_dirty c.pml4 (addr + k * PGSIZE)
      = pml4_is_dirty s.pml4 (addr + k * PGSIZE)) →
    walk_passes c addr n = walk_passes s addr n := by
  intro n
  induction n with
  | zero => intro _ _; rfl
  | succ n ih =>
    intro addr h
    have h0 := h 0 (by omega)
    rw [Nat.zero_mul, Nat.add_zero] at h0
    have hrest := ih (addr + PGSIZE) (fun k hk => by
      have := h (k + 1) (by omega)
      have e : addr + (k + 1) * PGSIZE = addr + PGSIZE + k * PGSIZE := by
        rw [Nat.add_mul, Nat.one_mul]; omega
      rw [e] at this
      exact this)
    rw [walk_passes, walk_passes, h0, hrest]

theorem walk_passes_le (s : VM) : ∀ (n addr : Nat), walk_passes s addr n ≤ 2 * n := by
  intro n
  induction n with
  | zero => intro _; exact Nat.le_refl _
  | succ n ih =>
    intro addr
    have := ih (addr + PGSIZE)
    rw [walk_passes]
    split <;> omega

theorem next_page_differs (addr k : Nat) :
    pg_round_down (addr + PGSIZE + k * PGSIZE) ≠ pg_round_down addr := by
  rw [pg_round_down_eq_mul, pg_round_down_eq_mul]
  have hP : PGSIZE = 4096 := rfl
  rw [hP]
  omega

theorem malloc_never_fails_after_writeback (s : VM) (a : lazy_load_arg) (addr va : Nat)
    (h : malloc_never_fails s) : malloc_never_fails (after_writeback s a addr va) := by
  intro b hb
  have hb2 : b ∈ (malloc s).2.malloc_plan := hb
  exact h b (malloc_plan_sub s b hb2)

theorem malloc_never_fails_after_unmap (s : VM) (va : Nat)
    (h : malloc_never_fails s) : malloc_never_fails (after_unmap s va) := by
  intro b hb
  have hb2 : b ∈ (malloc s).2.malloc_plan := hb
  exact h b (malloc_plan_sub s b hb2)

/-- The walk of `do_munmap` over `n` pages followed by an address without page, when no
`malloc` fails and every dirty page among them has a loader context: it returns in the pass
after the `walk_passes` passes over the pages, and not before. -/
theorem munmap_walk : ∀ (n : Nat) (s : VM) (addr : Nat),
    malloc_never_fails s → spt_user_pages s → walk_pages_have_aux s addr n →
    (∀ k, k < n → page_ptr_at s (addr + k * PGSIZE) ≠ none) →
    page_ptr_at s (addr + n * PGSIZE) = none →
    (∃ s1, do_munmap (walk_passes s addr n + 1) s addr = .returned s1) ∧
    ∀ fuel, fuel ≤ walk_passes s addr n → do_munmap fuel s addr = .unfinished := by
  intro n
  induction n with
  | zero =>
    intro s addr hnf _ _ _ hend
    rw [Nat.zero_mul, Nat.add_zero] at hend
    have hm := malloc_fst_of_never_fails s hnf
    refine ⟨⟨(malloc s).2, ?_⟩, ?_⟩
    · apply do_munmap_stop
      rw [spt_find_page_ok s s.spt addr hm]
      exact hend
    · intro fuel hf
      have : fuel = 0 := by
        have : walk_passes s addr 0 = 0 := rfl
        omega
      subst this
      rfl
  | succ n ih =>
    intro s addr hnf hu haux hpages hend
    have hP : PGSIZE = 4096 := rfl
    have h0 := hpages 0 (by omega)
    rw [Nat.zero_mul, Nat.add_zero] at h0
    cases hf : page_ptr_at s addr with
    | none => exact absurd hf h0
    | some p =>
      obtain ⟨hmem, pg, hp, hva⟩ := hash_find_some _ _ _ p hf
      have huser := hu p hmem pg hp
      have hlt : pg_round_down addr < KERN_BASE := by
        rw [hva] at huser
        simpa [is_user_vaddr, is_kernel_vaddr] using huser
      have hnext : (addr + PGSIZE) % PTR_MOD = addr + PGSIZE := by
        apply Nat.mod_eq_of_lt
        have hkb : KERN_BASE + 2 * PGSIZE ≤ PTR_MOD := by decide
        have hmod : addr % PGSIZE < PGSIZE := Nat.mod_lt _ (by decide)
        unfold pg_round_down at hlt
        omega
      have hshift : ∀ k, addr + (k + 1) * PGSIZE = addr + PGSIZE + k * PGSIZE := by
        intro k
        rw [Nat.add_mul, Nat.one_mul]; omega
      -- what remains once the dirty bit of the page at `addr` is clear
      have hclean : ∀ t : VM, t.page_heap = s.page_heap → t.spt = s.spt →
          malloc_never_fails t → pml4_is_dirty t.pml4 pg.va = false →
          (∀ va, pg_round_down va ≠ pg_round_down addr →
            pml4_is_dirty t.pml4 va = pml4_is_dirty s.pml4 va) →
          (∀ va, pml4_is_dirty t.pml4 va = true → pml4_is_dirty s.pml4 va = true) →
          (∃ s1, do_munmap (walk_passes s (addr + PGSIZE) n + 1 + 1) t addr = .returned s1) ∧
          ∀ fuel, fuel ≤ walk_passes s (addr + PGSIZE) n + 1 →
            do_munmap fuel t addr = .unfinished := by
        intro t hth hts htnf htd hother hmono
        have htm := malloc_fst_of_never_fails t htnf
        have htf : hash_find t.page_heap t.spt.hash_table (pg_round_down addr) = some p := by
          rw [hth, hts]; exact hf
        have htp : t.page_heap[p]? = some pg := by rw [hth]; exact hp
        have hstep : ∀ m, do_munmap (m + 1) t addr
            = do_munmap m (after_unmap t pg.va) (addr + PGSIZE) := by
          intro m
          rw [do_munmap_clean m t addr p pg htm htf htp htd, hnext]
        have hheap2 : (after_unmap t pg.va).page_heap = s.page_heap := by
          rw [after_unmap_page_heap, hth]
        have hspt2 : (after_unmap t pg.va).spt = s.spt := by
          rw [after_unmap_spt, hts]
        have hd2 : ∀ va, pg_round_down va ≠ pg_round_down addr →
            pml4_is_dirty (after_unmap t pg.va).pml4 va = pml4_is_dirty s.pml4 va := by
          intro va hne
          rw [after_unmap_pml4, pml4_is_dirty_clear_other _ _ _
            (by rw [hva, pg_round_down_idem]; exact hne)]
          exact hother va hne
        have hw : walk_passes (after_unmap t pg.va) (addr + PGSIZE) n
            = walk_passes s (addr + PGSIZE) n :=
          walk_passes_congr s _ n (addr + PGSIZE)
            (fun k _ => hd2 _ (next_page_differs addr k))
        obtain ⟨⟨s1, hret⟩, hunf⟩ := ih (after_unmap t pg.va) (addr + PGSIZE)
          (malloc_never_fails_after_unmap t pg.va htnf)
          (spt_user_pages_congr s _ hheap2 hspt2 hu)
          (by
            intro k hk q qg hq hqg hqd
            unfold page_ptr_at at hq
            rw [hheap2, hspt2, ← hshift k] at hq
            rw [hheap2] at hqg
            rw [after_unmap_pml4] at hqd
            exact haux (k + 1) (by omega) q qg hq hqg
              (hmono _ (pml4_is_dirty_clear_mono _ _ _ hqd)))
          (by
            intro k hk
            have := hpages (k + 1) (by omega)
            rw [hshift k] at this
            unfold page_ptr_at at this ⊢
            rw [hheap2, hspt2]
            exact this)
          (by
            have := hend
            rw [hshift n] at this
            unfold page_ptr_at at this ⊢
            rw [hheap2, hspt2]
            exact this)
        rw [hw] at hret hunf
        refine ⟨⟨s1, ?_⟩, ?_⟩
        · rw [hstep]; exact hret
        · intro fuel hfu
          cases fuel with
          | zero => rfl
          | succ g => rw [hstep]; exact hunf g (by omega)
      have hm := malloc_fst_of_never_fails s hnf
      have hf2 : hash_find s.page_heap s.spt.hash_table (pg_round_down addr) = some p := hf
      have hdr : pml4_is_dirty s.pml4 addr = pml4_is_dirty s.pml4 pg.va := by
        rw [hva, pml4_is_dirty_round]
      cases hd : pml4_is_dirty s.pml4 pg.va with
      | false =>
        have hwalk : walk_passes s addr (n + 1) = walk_passes s (addr + PGSIZE) n + 1 := by
          rw [walk_passes, hdr, hd]
          simp only [Bool.false_eq_true, if_false]
          omega
        rw [hwalk]
        exact hclean s rfl rfl hnf hd (fun _ _ => rfl) (fun _ h => h)
      | true =>
        obtain ⟨a, ha⟩ := haux 0 (by omega) p pg
          (by rw [Nat.zero_mul, Nat.add_zero]; exact hf) hp hd
        have hwalk : walk_passes s addr (n + 1) = walk_passes s (addr + PGSIZE) n + 1 + 1 := by
          rw [walk_passes, hdr, hd]
          simp only [if_true]
          omega
        have hstep : ∀ m, do_munmap (m + 1) s addr
            = do_munmap m (after_writeback s a addr pg.va) addr :=
          fun m => do_munmap_dirty m s addr p pg a hm hf2 hp hd ha
        obtain ⟨⟨s1, hret⟩, hunf⟩ := hclean (after_writeback s a addr pg.va)
          (after_writeback_page_heap s a addr pg.va) (after_writeback_spt s a addr pg.va)
          (malloc_never_fails_after_writeback s a addr pg.va hnf)
          (by rw [after_writeback_pml4]; exact pml4_is_dirty_set_false _ _)
          (by
            intro va hne
            rw [after_writeback_pml4]
            exact pml4_is_dirty_set_other _ _ _ _ (by rw [hva, pg_round_down_idem]; exact hne))
          (by
            intro va h
            rw [after_writeback_pml4] at h
            exact pml4_is_dirty_set_mono _ _ _ h)
        rw [hwalk]
        refine ⟨⟨s1, ?_⟩, ?_⟩
        · rw [hstep]; exact hret
        · intro fuel hfu
          cases fuel with
          | zero => rfl
          | succ g => rw [hstep]; exact hunf g (by omega)

/-- The walk of `do_munmap` comes to an address without page: the pages of the table are at
user addresses. -/
theorem walk_end_exists (s : VM) (addr : Nat) (hu : spt_user_pages s) :
    ∃ n, (∀ k, k < n → page_ptr_at s (addr + k * PGSIZE) ≠ none) ∧
      page_ptr_at s (addr + n * PGSIZE) = none := by
  have hK : ∃ n, page_ptr_at s (addr + n * PGSIZE) = none := by
    refine ⟨KERN_BASE / PGSIZE + 1, ?_⟩
    cases hf : page_ptr_at s (addr + (KERN_BASE / PGSIZE + 1) * PGSIZE) with
    | none => rfl
    | some p =>
      obtain ⟨hmem, pg, hp, hva⟩ := hash_find_some _ _ _ p hf
      have huser := hu p hmem pg hp
      rw [hva] at huser
      have hlt : pg_round_down (addr + (KERN_BASE / PGSIZE + 1) * PGSIZE) < KERN_BASE := by
        simpa [is_user_vaddr, is_kernel_vaddr] using huser
      rw [pg_round_down_eq_mul] at hlt
      have hP : PGSIZE = 4096 := rfl
      have hB : KERN_BASE = 0x8004000000 := rfl
      rw [hP, hB] at hlt
      omega
  refine ⟨Nat.find hK, fun k hk => Nat.find_min hK hk, Nat.find_spec hK⟩

theorem met_of_all (s : VM) (addr : Nat) (h : dirty_pages_have_aux s) :
    met_pages_have_aux s addr := by
  intro n _ k _ p pg hp hpg hd
  exact h p (hash_find_some _ _ _ p hp).1 pg hpg hd

theorem two_mappings_aux : dirty_pages_have_aux two_mappings := by
  intro p hp pg hpg _
  have h01 : p = 1 ∨ p = 0 := by simpa [two_mappings] using hp
  rcases h01 with rfl | rfl
  · have : pg = resident_file_page 0x2000 1 ⟨1, 0, 3, 4093⟩ := by
      have h2 : some (resident_file_page 0x2000 1 ⟨1, 0, 3, 4093⟩) = some pg := hpg
      exact (Option.some.inj h2).symm
    subst this
    exact ⟨_, rfl⟩
  · have : pg = resident_file_page 0x1000 0 ⟨0, 0, 3, 4093⟩ := by
      have h2 : some (resident_file_page 0x1000 0 ⟨0, 0, 3, 4093⟩) = some pg := hpg
      exact (Option.some.inj h2).symm
    subst this
    exact ⟨_, rfl⟩

/-- C39 (counterexample). (a) The `malloc` of the scratch page inside `spt_find_page` fails in
the first pass over `two_mappings`: `do_munmap` returns at `0x1000`, an address that has a page
in the SPT (and the page behind it too), after one pass.  (b) In `dirty_anon_behind_mapping`
the page behind the mapping is dirty and has no loader context (`uninit.aux` is `NULL`): the
second pass dereferences it and the kernel stops; `do_munmap` does not return, whatever the
number of passes allowed. -/
theorem C39_counterexample :
    (page_ptr_at { two_mappings with malloc_plan := [false] } 0x1000 = some 0 ∧
     page_ptr_at { two_mappings with malloc_plan := [false] } 0x2000 = some 1 ∧
     ¬ malloc_never_fails { two_mappings with malloc_plan := [false] } ∧
     ∃ s1, do_munmap 1 { two_mappings with malloc_plan := [false] } 0x1000 = .returned s1) ∧
    (malloc_never_fails dirty_anon_behind_mapping ∧
     page_ptr_at dirty_anon_behind_mapping 0x1000 = some 0 ∧
     page_ptr_at dirty_anon_behind_mapping 0x2000 = some 1 ∧
     pml4_is_dirty dirty_anon_behind_mapping.pml4 0x2000 = true ∧
     (dirty_anon_behind_mapping.page_heap[1]?).map (fun pg => pg.uninit.aux) = some none ∧
     ∀ fuel, do_munmap (fuel + 2) dirty_anon_behind_mapping 0x1000 = .stopped) := by
  refine ⟨⟨rfl, rfl, ?_, _, rfl⟩, ?_, rfl, rfl, rfl, rfl, fun fuel => rfl⟩
  · intro h
    have := h false (by simp)
    cases this
  · intro b hb
    cases hb

/-- C39 (amended). When no `malloc` fails and every dirty page the walk meets has a loader
context (the pages of the table being at user addresses): the walk of `do_munmap` from `addr`
returns.  There is an `n` such that the `n` addresses `addr`, `addr + PGSIZE`, ... have a page
in the SPT and the next one has none; the walk makes `walk_passes` passes over these pages,
two for a page whose dirty bit is set and one for a page whose dirty bit is clear, hence at
most `2 * n`, and returns in the pass after them, at the first address without page: with one
pass more than `walk_passes` allowed the function returns, with fewer it is still in the
loop. -/
theorem C39_munmap_terminates (s : VM) (addr : Nat)
    (hnf : malloc_never_fails s) (hu : spt_user_pages s) (haux : met_pages_have_aux s addr) :
    ∃ n s1, (∀ k, k < n → page_ptr_at s (addr + k * PGSIZE) ≠ none) ∧
      page_ptr_at s (addr + n * PGSIZE) = none ∧
      walk_passes s addr n ≤ 2 * n ∧
      do_munmap (walk_passes s addr n + 1) s addr = .returned s1 ∧
      ∀ fuel, fuel ≤ walk_passes s addr n → do_munmap fuel s addr = .unfinished := by
  obtain ⟨n, hpages, hend⟩ := walk_end_exists s addr hu
  obtain ⟨⟨s1, hret⟩, hunf⟩ := munmap_walk n s addr hnf hu (haux n hpages) hpages hend
  exact ⟨n, s1, hpages, hend, walk_passes_le s n addr, hret, hunf⟩

/-- C39 (witness). The two mappings of `two_mappings`, the second one dirty. -/
theorem C39_munmap_terminates_witness :
    malloc_never_fails two_mappings ∧ spt_user_pages two_mappings ∧
    met_pages_have_aux two_mappings 0x1000 ∧
    ∃ n s1, (∀ k, k < n → page_ptr_at two_mappings (0x1000 + k * PGSIZE) ≠ none) ∧
      page_ptr_at two_mappings (0x1000 + n * PGSIZE) = none ∧
      walk_passes two_mappings 0x1000 n ≤ 2 * n ∧
      do_munmap (walk_passes two_mappings 0x1000 n + 1) two_mappings 0x1000 = .returned s1 ∧
      ∀ fuel, fuel ≤ walk_passes two_mappings 0x1000 n →
        do_munmap fuel two_mappings 0x1000 = .unfinished :=
  ⟨(fun b hb => by cases hb), two_mappings_user, met_of_all two_mappings 0x1000 two_mappings_aux,
    C39_munmap_terminates two_mappings 0x1000 (fun b hb => by cases hb) two_mappings_user
      (met_of_all two_mappings 0x1000 two_mappings_aux)⟩

end PintOS
